import Mathlib

/-!
Grok Imagine bulk downloader: aggregation store and retrieval orchestrator.

A shallow embedding of `src/grok/grok-bulk-image-downloader.user.js`.

* JavaScript strings are sequences of UTF-16 code units (`JsString`); the value of a
  property that the script reads as a string is a `JsVal`: `undefined` (the property is
  missing), `null`, or a string. The two missing values are falsy alike and differ under
  `===` and as elements of a `Set` or keys of a `Map`.
* A JavaScript `Map` is an insertion-ordered association list (`JsMap`), a `Set` an
  insertion-ordered list (`JsSet`).
* The script's global variables are the fields of `State`; every function of the
  script becomes a function on `State`.
* Asynchronous callbacks (`GM_download` outcomes, `setTimeout`) are pending entries
  of the state that an event delivers (`Event`, `step`).
-/

namespace GrokDownloader

/-! ## JavaScript values -/

/-- A JavaScript string, as its UTF-16 code units. -/
abbrev JsString := List Nat

/-- The value of a property that the script reads as a string: `undefined` (the property is
missing), `null`, or a string. -/
inductive JsVal
  | undefined
  | null
  | string (s : JsString)
  deriving DecidableEq, Repr

/-- Code units of an ASCII literal of the script. -/
def js (s : String) : JsString := s.toList.map Char.toNat

/-- JavaScript truthiness of a value: a non-empty string. -/
def truthy : JsVal → Bool
  | .string (_ :: _) => true
  | _ => false

/-- The operator `a || b`. -/
def jsOr (a b : JsVal) : JsVal := if truthy a then a else b

/-- The text of a value used where the script knows it is a string. -/
def JsVal.str : JsVal → JsString
  | .string s => s
  | _ => []

/-- The value `fallbackParent?.property`: `undefined` when there is no parent. -/
def optProp (fallbackParent : Option α) (property : α → JsVal) : JsVal :=
  match fallbackParent with
  | some parent => property parent
  | none => .undefined

/-- What `JSON.parse(JSON.stringify(a))` makes of an element of the array `a`: `undefined`
is written as `null`. (A property of an object whose value is `undefined` is left out, and
reads as `undefined` again.) -/
def jsonElement : JsVal → JsVal
  | .undefined => .null
  | v => v

/-- Code units matched by `\s` in a regular expression; `trim()` strips the same set. -/
def isJsWhitespace (c : Nat) : Bool :=
  c == 9 || c == 10 || c == 11 || c == 12 || c == 13 || c == 32 || c == 160 ||
  c == 0x1680 || (0x2000 ≤ c && c ≤ 0x200A) || c == 0x2028 || c == 0x2029 ||
  c == 0x202F || c == 0x205F || c == 0x3000 || c == 0xFEFF

/-- The character class `[/\\?%*:|"<>]` of `sanitizeForFilename`. -/
def isIllegalFilenameChar (c : Nat) : Bool :=
  c == 47 || c == 92 || c == 63 || c == 37 || c == 42 || c == 58 || c == 124 ||
  c == 34 || c == 60 || c == 62

/-- The code unit of `_`. -/
def underscore : Nat := 95

/-- `.replace(/\s+/g, '_')`: every maximal run of whitespace becomes one `_`.
`inRun` tells that the previous code unit was whitespace. -/
def collapseWhitespace (inRun : Bool) : JsString → JsString
  | [] => []
  | c :: rest =>
    if isJsWhitespace c then
      if inRun then collapseWhitespace true rest
      else underscore :: collapseWhitespace true rest
    else c :: collapseWhitespace false rest

/-- `String.prototype.trim`. -/
def jsTrim (s : JsString) : JsString :=
  ((s.dropWhile isJsWhitespace).reverse.dropWhile isJsWhitespace).reverse

/-- Source `sanitizeForFilename` (lines 551-553). -/
def sanitizeForFilename (str : JsVal) : JsString :=
  collapseWhitespace false
    (((jsOr str (.string [])).str).map fun c => if isIllegalFilenameChar c then underscore else c)

/-- The argument record of `buildUnifiedFilename`. -/
structure FilenameParts where
  time : JsVal
  id : JsVal
  model : JsVal
  prompt : JsVal
  ext : JsString

/-- Source `buildUnifiedFilename` (lines 1198-1203). -/
def buildUnifiedFilename (p : FilenameParts) : JsString :=
  let parts : List JsString :=
    [js "grok", (jsOr p.time (.string (js "unknown"))).str, (jsOr p.id (.string (js "unknown"))).str]
  let parts := if truthy p.model then parts ++ [p.model.str] else parts
  let parts := if truthy p.prompt then parts ++ [p.prompt.str] else parts
  (js "_").intercalate parts ++ js "." ++ p.ext

/-! ## Assets, groups and API records -/

/-- A media item object. The script builds such objects in several places with
different property sets; a property an object lacks is `undefined`. -/
structure MediaItem where
  id : JsVal
  url : JsVal
  createTime : JsVal
  modelName : JsVal
  prompt : JsVal
  filename : JsVal
  addedAt : JsVal := .undefined
  downloaded : Option Bool := none
  downloadedAt : JsVal := .undefined
  deriving DecidableEq, Repr

/-- The local `item` of `createMediaObject`, the argument of `buildFilename`. -/
structure FilenameInput where
  id : JsVal
  url : JsVal
  createTime : JsVal
  modelName : JsVal
  prompt : JsVal
  isVideo : Bool
  mimeType : JsVal

/-- Source `buildFilename` (lines 555-576). -/
def buildFilename (item : FilenameInput) : JsString :=
  let time : JsString :=
    if truthy item.createTime then
      (item.createTime.str.take 19).map fun c => if c == 58 then 45 else c
    else js "unknown"
  let model : JsString := if truthy item.modelName then sanitizeForFilename item.modelName else []
  let prompt : JsString := if truthy item.prompt then sanitizeForFilename item.prompt else []
  let prompt := if prompt.length > 100 then prompt.take 97 ++ js "..." else prompt
  let ext : JsString := if item.isVideo then js "mp4" else js "jpg"
  let ext :=
    if truthy item.mimeType then
      if item.mimeType = .string (js "video/mp4") then js "mp4"
      else if item.mimeType = .string (js "image/png") then js "png"
      else if item.mimeType = .string (js "image/jpeg") then js "jpg"
      else ext
    else ext
  buildUnifiedFilename { time := .string time, id := item.id, model := .string model,
                         prompt := .string prompt, ext := ext }

/-- A record of the API payload, with the properties the script reads. -/
structure Source where
  id : JsVal
  mediaUrl : JsVal := .undefined
  hdMediaUrl : JsVal := .undefined
  mediaType : JsVal := .undefined
  createTime : JsVal := .undefined
  modelName : JsVal := .undefined
  originalPrompt : JsVal := .undefined
  prompt : JsVal := .undefined
  mimeType : JsVal := .undefined
  deriving DecidableEq, Repr

/-- A subject record (`post`). The script reads the two derivative lists only through
`post.childPosts?.length` and `post.videos?.length`, so a missing list is the empty one. -/
structure Post extends Source where
  childPosts : List Source := []
  videos : List Source := []
  deriving DecidableEq, Repr

/-- An API payload; `posts = none` is a payload without a `posts` list. -/
structure ApiData where
  posts : Option (List Post)
  deriving DecidableEq, Repr

/-- Source `createMediaObject` (lines 619-643). -/
def createMediaObject (source : Source) (fallbackParent : Option Source) : MediaItem :=
  let isVideo : Bool := source.mediaType = .string (js "MEDIA_POST_TYPE_VIDEO")
  let url : JsVal := if isVideo && truthy source.hdMediaUrl then source.hdMediaUrl else source.mediaUrl
  let createTime := jsOr (jsOr source.createTime (optProp fallbackParent (·.createTime))) (.string [])
  let modelName := jsOr (jsOr source.modelName (optProp fallbackParent (·.modelName))) (.string [])
  let prompt : JsVal :=
    .string (jsTrim (jsOr (jsOr (jsOr (jsOr source.originalPrompt source.prompt)
      (optProp fallbackParent (·.originalPrompt))) (optProp fallbackParent (·.prompt))) (.string [])).str)
  let item : FilenameInput :=
    { id := source.id, url := url, createTime := createTime, modelName := modelName,
      prompt := prompt, isVideo := isVideo, mimeType := source.mimeType }
  let filename := buildFilename item
  { id := item.id, url := item.url, createTime := item.createTime, modelName := item.modelName,
    prompt := item.prompt, filename := .string filename }

/-- A Group: the value `{id, object}` stored in `mediaDatabase`. -/
structure Media where
  id : JsVal
  object : List MediaItem
  deriving DecidableEq, Repr

/-! ## Maps and sets -/

/-- A JavaScript `Map` with keys of type `JsVal`, in insertion order. Keys are compared as
`Map` does (SameValueZero), which on these values is the equality of `JsVal`: `undefined`
and `null` are two keys. -/
abbrev JsMap (V : Type) := List (JsVal × V)

/-- `Map.prototype.get`. -/
def mapGet {V : Type} : JsMap V → JsVal → Option V
  | [], _ => none
  | (k', v) :: rest, k => if k' = k then some v else mapGet rest k

/-- `Map.prototype.set`: an existing key keeps its place, a new key goes last. -/
def mapSet {V : Type} : JsMap V → JsVal → V → JsMap V
  | [], k, v => [(k, v)]
  | (k', v') :: rest, k, v => if k' = k then (k, v) :: rest else (k', v') :: mapSet rest k v

/-- `Map.prototype.has`. -/
def mapHas {V : Type} (m : JsMap V) (k : JsVal) : Bool := (mapGet m k).isSome

/-- A JavaScript `Set` of values of type `JsVal`, in insertion order; `undefined` and `null`
are two elements. -/
abbrev JsSet := List JsVal

/-- `Set.prototype.has`. -/
def setHas (s : JsSet) (x : JsVal) : Bool := decide (x ∈ s)

/-- `Set.prototype.add`. -/
def setAdd (s : JsSet) (x : JsVal) : JsSet := if x ∈ s then s else s ++ [x]

/-! ## Page type -/

/-- The values of `PAGE_TYPE` (lines 192-198). -/
inductive PageType
  | prompt
  | more
  | favorites
  | singlePost
  | other
  deriving DecidableEq, Repr

/-- `String.prototype.includes` for a literal. -/
def jsIncludes (s lit : JsString) : Bool := s.tails.any fun t => lit.isPrefixOf t

/-- The character class `[a-f0-9-]`. -/
def isHexDash (c : Nat) : Bool := (97 ≤ c && c ≤ 102) || (48 ≤ c && c ≤ 57) || c == 45

/-- Whether `s.match(/LIT[a-f0-9-]+/)` finds a match, for a literal `LIT`. -/
def matchesLitHex (s lit : JsString) : Bool :=
  s.tails.any fun t => lit.isPrefixOf t && ((t.drop lit.length).head?.map isHexDash).getD false

/-- Source `detectPageType` (lines 200-214), on `window.location.pathname`. -/
def detectPageType (path : JsString) : PageType :=
  if path = js "/imagine" ∨ path = js "/imagine/" then PageType.prompt
  else if matchesLitHex path (js "/imagine/more/") then PageType.more
  else if jsIncludes path (js "/imagine/favorites") then PageType.favorites
  else if matchesLitHex path (js "/imagine/post/") then PageType.singlePost
  else PageType.other

/-- Source `isPromptLikePage` (lines 217-219). -/
def isPromptLikePage (pageType : PageType) : Bool :=
  pageType = PageType.prompt ∨ pageType = PageType.more

/-! ## Global state -/

/-- The object `promptSessionData` (lines 229-235). -/
structure PromptSession where
  sessionId : JsString := []
  startTime : JsString := []
  prompt : JsString := []
  images : JsMap MediaItem := []
  downloadedInSession : JsSet := []
  deriving DecidableEq, Repr

/-- What `JSON.parse` makes of the text of a storage slot: text it rejects, or a payload
object with its `path` tag and its `entries` (`none` when the payload has no `entries`),
a list of pairs of a key and a value of type `W`. The `version` and `savedAt` properties
are written by the script and never read; they are left out. -/
inductive Slot (W : Type)
  | invalid
  | doc (path : JsVal) (entries : Option (List (JsVal × W)))
  deriving DecidableEq, Repr

/-- The userscript storage behind `GM_getValue`/`GM_setValue`. The slot keys of the script
are `grok_downloader_downloaded_ids`, `grok_downloader_media_db:PATH` and
`grok_downloader_child_parent:PATH`; the three prefixes differ, so the storage is one slot
plus two maps keyed by `PATH`. An entry value of a Group payload is a Group, or `none` when
it has no `object`; an entry value of an edge payload is an id. -/
structure GMStorage where
  downloadedIds : Option (List JsVal) := none
  mediaDb : JsMap (Slot (Option Media)) := []
  childParent : JsMap (Slot JsVal) := []
  deriving DecidableEq, Repr

/-- How a `GM_download` request ends: `onload`, `onerror` or `ontimeout`. -/
inductive Outcome
  | success
  | error
  | timeout
  deriving DecidableEq, Repr

/-- The variables of one call of `startDownloadAll` that its callbacks share:
`items`, `isPromptPage`, `completed`, `failed` (`total` is `items.length`). -/
structure Run where
  items : List MediaItem
  isPromptPage : Bool
  completed : Nat := 0
  failed : Nat := 0
  deriving DecidableEq, Repr

/-- A `GM_download` call made by `downloadNext`: the run that made it, the index of the
item in that run's `items`, and the `url` and `name` passed. -/
structure Request where
  run : Nat
  index : Nat
  url : JsVal
  name : JsVal
  deriving DecidableEq, Repr

/-- A pending `setTimeout` of the bulk run: `downloadNext(index)` after 100 ms, or the
500 ms timer that writes the outcome of a run that went through all its items. -/
inductive Timer
  | next (run index : Nat)
  | report (run : Nat)
  deriving DecidableEq, Repr

/-- The text a finished run writes on the button: `Cancelled (c/t done)`,
`Done (N failed)` or `✓ All Done`. -/
inductive Report
  | cancelled (completed total : Nat)
  | doneFailed (failed : Nat)
  | allDone
  deriving DecidableEq, Repr

/-- The global variables of the script, the userscript storage, and the callbacks that are
pending in the event loop. `requests` and `reports` record what the bulk run has sent out
(every `GM_download` call, every outcome text), oldest first. -/
structure State where
  pathname : JsString := []
  mediaDatabase : JsMap Media := []
  childToParentMap : JsMap JsVal := []
  lastApiData : Option ApiData := none
  downloadedIds : JsSet := []
  rootPostPageId : JsVal := .null
  currentPostPageId : JsVal := .null
  promptSessionData : PromptSession := {}
  isDownloadingAll : Bool := false
  cancelDownload : Bool := false
  storage : GMStorage := {}
  runs : List Run := []
  downloads : List (Nat × Nat) := []
  timers : List Timer := []
  requests : List Request := []
  reports : List (Nat × Report) := []
  deriving DecidableEq, Repr

/-! ## Persistence of the tables -/

/-- Source `saveMediaDatabase` (lines 414-433); `GM_setValue` is taken to succeed. The
entries are arrays `[key, value]`, so a key or an edge value that is `undefined` reads back
as `null`. -/
def saveMediaDatabase (s : State) : State :=
  { s with storage :=
      { s.storage with
        mediaDb := mapSet s.storage.mediaDb (.string s.pathname)
          (Slot.doc (.string s.pathname)
            (some (s.mediaDatabase.map fun km => (jsonElement km.1, some km.2))))
        childParent := mapSet s.storage.childParent (.string s.pathname)
          (Slot.doc (.string s.pathname)
            (some (s.childToParentMap.map fun kv => (jsonElement kv.1, jsonElement kv.2)))) } }

/-- Source `saveDownloadedIds` (lines 376-383); `GM_setValue` is taken to succeed. -/
def saveDownloadedIds (s : State) : State :=
  { s with storage := { s.storage with downloadedIds := some (s.downloadedIds.map jsonElement) } }

/-- Source `markAsDownloaded` (lines 386-389). -/
def markAsDownloaded (s : State) (id : JsVal) : State :=
  saveDownloadedIds { s with downloadedIds := setAdd s.downloadedIds id }

/-! ## Deduplication -/

/-- One iteration of the inner loop of `deduplicateDatabase` (lines 489-496); the loop
state is `(seenIds, uniqueItems, totalRemoved)`. -/
def dedupStep (acc : JsSet × List MediaItem × Nat) (item : MediaItem) :
    JsSet × List MediaItem × Nat :=
  if !setHas acc.1 item.id then (setAdd acc.1 item.id, acc.2.1 ++ [item], acc.2.2)
  else (acc.1, acc.2.1, acc.2.2 + 1)

/-- The body of the outer loop of `deduplicateDatabase` for one Group: the Group with
`media.object = uniqueItems`, and the number of members removed. -/
def dedupMedia (media : Media) : Media × Nat :=
  let r := media.object.foldl dedupStep ([], [], 0)
  ({ media with object := r.2.1 }, r.2.2)

/-- The Group table after `deduplicateDatabase`. -/
def dedupTable (db : JsMap Media) : JsMap Media := db.map fun km => (km.1, (dedupMedia km.2).1)

/-- Source `deduplicateDatabase` (lines 484-501): the new state and `totalRemoved`. -/
def deduplicateDatabase (s : State) : State × Nat :=
  ({ s with mediaDatabase := dedupTable s.mediaDatabase },
   (s.mediaDatabase.map fun km => (dedupMedia km.2).2).sum)

/-! ## Ingestion -/

/-- The guarded push `if (!list.some(o => o.id === item.id)) list.push(item)`; `===` is the
equality of `JsVal`, so an id that is `undefined` and an id that is `null` differ. -/
def pushIfNew (list : List MediaItem) (item : MediaItem) : List MediaItem :=
  if list.any (fun o => decide (o.id = item.id)) then list else list ++ [item]

/-- The Group table and the derivation-edge table. -/
structure Tables where
  db : JsMap Media
  edges : JsMap JsVal
  deriving DecidableEq, Repr

/-- The body of the loop over `post.childPosts` (lines 680-708); the loop over `post.videos`
(lines 714-742) has the same body. The loop state is the local `media` of the target Group and
the two tables. `root` is `rootPostPageId`. -/
def processChild (root : JsVal) (post : Post) (parentImageItem : Option MediaItem)
    (st : Media × Tables) (child : Source) : Media × Tables :=
  let item := createMediaObject child (some post.toSource)
  let media : Media := { st.1 with object := pushIfNew st.1.object item }
  if !truthy root && truthy child.id && child.id != post.id then
    let childMedia : Media := (mapGet st.2.db child.id).getD { id := child.id, object := [] }
    let childMedia : Media :=
      match parentImageItem with
      | some p => { childMedia with object := pushIfNew childMedia.object p }
      | none => childMedia
    let childMedia : Media := { childMedia with object := pushIfNew childMedia.object item }
    (media, { db := mapSet st.2.db child.id childMedia,
              edges := mapSet st.2.edges child.id post.id })
  else (media, st.2)

/-- The body of the loop over `apiData.posts` (lines 653-748). The local `media` is the object
stored under `targetId` when there is one, so its pushes reach the table; the derivative loops
read and write the table only at keys `child.id !== post.id`, and only when `targetId` is
`post.id`, so writing `media` back once at the end gives the same table. -/
def processPost (root : JsVal) (t : Tables) (post : Post) : Tables :=
  if !truthy post.id then t
  else
    let targetId := jsOr root post.id
    let media : Media := (mapGet t.db targetId).getD { id := targetId, object := [] }
    let media : Media :=
      if truthy post.mediaUrl then
        { media with object := pushIfNew media.object (createMediaObject post.toSource none) }
      else media
    let parentImageItem : Option MediaItem :=
      if truthy post.mediaUrl then some (createMediaObject post.toSource none) else none
    let st := post.childPosts.foldl (processChild root post parentImageItem) (media, t)
    let st := post.videos.foldl (processChild root post parentImageItem) st
    if st.1.object.length > 0 then { st.2 with db := mapSet st.2.db targetId st.1 } else st.2

/-- The two tables after `processApiData` on a payload with the posts list `posts`. -/
def ingest (root : JsVal) (t : Tables) (posts : List Post) : Tables :=
  let t := posts.foldl (processPost root) t
  { t with db := dedupTable t.db }

/-- Source `processApiData` (lines 645-758). The button refresh at the end
(`updateDownloadAllButton`) is presentation and left out. -/
def processApiData (s : State) (apiData : Option ApiData) : State :=
  match apiData.bind (·.posts) with
  | none => s
  | some posts =>
    let t := ingest s.rootPostPageId ⟨s.mediaDatabase, s.childToParentMap⟩ posts
    saveMediaDatabase
      { s with lastApiData := apiData, mediaDatabase := t.db, childToParentMap := t.edges }

/-! ## Session tracker and backlog -/

/-- Source `markPromptSessionDownloaded` (lines 287-294); `now` is the reading of
`new Date().toISOString()`. -/
def markPromptSessionDownloaded (s : State) (id : JsVal) (now : JsString) : State :=
  let ps := s.promptSessionData
  let ps := { ps with downloadedInSession := setAdd ps.downloadedInSession id }
  match mapGet ps.images id with
  | some item =>
    let item : MediaItem := { item with downloaded := some true, downloadedAt := .string now }
    { s with promptSessionData := { ps with images := mapSet ps.images id item } }
  | none => { s with promptSessionData := ps }

/-- Source `getPromptSessionUndownloaded` (lines 309-317). -/
def getPromptSessionUndownloaded (s : State) : List MediaItem :=
  s.promptSessionData.images.foldl
    (fun items kv =>
      if !setHas s.promptSessionData.downloadedInSession kv.1 then items ++ [kv.2] else items)
    []

/-- The body of the item loops of `getUndownloadedItems` (lines 1585-1588 and 1597-1600);
the loop state is `(items, seenIds)`. -/
def backlogStep (downloadedIds : JsSet) (acc : List MediaItem × JsSet) (item : MediaItem) :
    List MediaItem × JsSet :=
  if !setHas downloadedIds item.id && !setHas acc.2 item.id then
    (acc.1 ++ [item], setAdd acc.2 item.id)
  else acc

/-- Source `getUndownloadedItems` (lines 1569-1604). -/
def getUndownloadedItems (s : State) : List MediaItem :=
  let pageType := detectPageType s.pathname
  if isPromptLikePage pageType then getPromptSessionUndownloaded s
  else
    let postId := jsOr s.rootPostPageId s.currentPostPageId
    if truthy postId && pageType = PageType.singlePost then
      match mapGet s.mediaDatabase postId with
      | some media => (media.object.foldl (backlogStep s.downloadedIds) ([], [])).1
      | none => []
    else
      (s.mediaDatabase.foldl
        (fun acc km => km.2.object.foldl (backlogStep s.downloadedIds) acc) ([], [])).1

/-! ## Retrieval orchestrator -/

/-- The callbacks that `downloadFile` (lines 578-589) hands to `GM_download`: what runs when
the request ends with outcome `o`. `onComplete` is the caller's callback. -/
def downloadFile (item : MediaItem) (onComplete : State → State) (persistDownload : Bool)
    (o : Outcome) (s : State) : State :=
  match o with
  | Outcome.success => onComplete (if persistDownload then markAsDownloaded s item.id else s)
  | Outcome.error => onComplete s
  | Outcome.timeout => onComplete s

/-- `completed++` on the variables of run `r`. -/
def incCompleted (s : State) (r : Nat) : State :=
  { s with runs := s.runs.modify (fun run => { run with completed := run.completed + 1 }) r }

/-- `failed++` on the variables of run `r`. -/
def incFailed (s : State) (r : Nat) : State :=
  { s with runs := s.runs.modify (fun run => { run with failed := run.failed + 1 }) r }

/-- `setTimeout(() => downloadNext(index), 100)` of run `r`. -/
def scheduleNext (s : State) (r index : Nat) : State :=
  { s with timers := s.timers ++ [Timer.next r index] }

/-- The callbacks of the request that `downloadNext(index)` of run `r` makes
(lines 1700-1732): what runs when the request ends with outcome `o`. `now` is the reading of
the clock. The progress text written on the button is presentation and left out. -/
def onOutcome (s : State) (r index : Nat) (o : Outcome) (now : JsString) : State :=
  match s.runs[r]? with
  | none => s
  | some run =>
    match run.items[index]? with
    | none => s
    | some item =>
      if run.isPromptPage then
        match o with
        | Outcome.success =>
          let s := markPromptSessionDownloaded s item.id now
          let s := markAsDownloaded s item.id
          scheduleNext (incCompleted s r) r (index + 1)
        | Outcome.error => scheduleNext (incFailed s r) r (index + 1)
        | Outcome.timeout => scheduleNext (incFailed s r) r (index + 1)
      else
        downloadFile item (fun s => scheduleNext (incCompleted s r) r (index + 1)) true o s

/-- The closure `downloadNext` of run `r` (lines 1669-1733). The variables of the run are
looked up first (a call of `downloadNext` always belongs to a run that exists). The
`GM_download` call becomes a pending request and an entry of `requests`; the text
`Cancelled (c/t done)` becomes an entry of `reports`; the later refresh of the button
(`setTimeout(updateDownloadAllButton, 2000)`) is presentation and left out. -/
def downloadNext (s : State) (r index : Nat) : State :=
  match s.runs[r]? with
  | none => s
  | some run =>
    if s.cancelDownload then
      { s with isDownloadingAll := false, cancelDownload := false,
               reports := s.reports ++ [(r, Report.cancelled run.completed run.items.length)] }
    else if index ≥ run.items.length then
      { s with isDownloadingAll := false, timers := s.timers ++ [Timer.report r] }
    else
      match run.items[index]? with
      | none => s
      | some item =>
        { s with downloads := s.downloads ++ [(r, index)],
                 requests := s.requests ++ [⟨r, index, item.url, item.filename⟩] }

/-- The 500 ms timer of a run that went through all its items (lines 1683-1693). -/
def reportDone (s : State) (r : Nat) : State :=
  match s.runs[r]? with
  | none => s
  | some run =>
    { s with reports := s.reports ++
        [(r, if run.failed > 0 then Report.doneFailed run.failed else Report.allDone)] }

/-- Source `startDownloadAll` (lines 1652-1737): the new run gets the next index in `runs`
and `downloadNext(0)` is called at once. -/
def startDownloadAll (s : State) : State :=
  let items := getUndownloadedItems s
  if items.length = 0 || s.isDownloadingAll then s
  else
    let isPromptPage := isPromptLikePage (detectPageType s.pathname)
    let r := s.runs.length
    let s := { s with isDownloadingAll := true, cancelDownload := false,
                      runs := s.runs ++ [{ items := items, isPromptPage := isPromptPage }] }
    downloadNext s r 0

/-- Source `handleDownloadButtonClick` (lines 1640-1650). The text `Cancelling...` and the
disabling of the button are presentation and left out; a disabled button sends no click, so
the model allows every click the page allows. -/
def handleDownloadButtonClick (s : State) : State :=
  if s.isDownloadingAll then { s with cancelDownload := true } else startDownloadAll s

/-- What the event loop can run next: the `n`-th pending request of the bulk run ends with an
outcome, the `n`-th pending timer fires, or the user clicks the Download All button. -/
inductive Event
  | deliver (n : Nat) (o : Outcome) (now : JsString)
  | fire (n : Nat)
  | click
  deriving DecidableEq, Repr

/-- One turn of the event loop. An event that names no pending entry does nothing. -/
def step (s : State) : Event → State
  | Event.deliver n o now =>
    match s.downloads[n]? with
    | none => s
    | some (r, index) => onOutcome { s with downloads := s.downloads.eraseIdx n } r index o now
  | Event.fire n =>
    match s.timers[n]? with
    | none => s
    | some (Timer.next r index) => downloadNext { s with timers := s.timers.eraseIdx n } r index
    | some (Timer.report r) => reportDone { s with timers := s.timers.eraseIdx n } r
  | Event.click => handleDownloadButtonClick s

/-- The state after a sequence of events. -/
def runEvents (s : State) (events : List Event) : State := events.foldl step s

/-! ## Definitions used to state the properties -/

/-- The ids of a member list, in order. -/
def idsOf (l : List MediaItem) : List JsVal := l.map (·.id)

/-- The members of `l` whose id is neither in `seen` nor the id of an earlier member of `l`:
the first occurrence of each id, in the order of `l`. -/
def firstById (seen : List JsVal) : List MediaItem → List MediaItem
  | [] => []
  | x :: rest =>
    if x.id ∈ seen then firstById seen rest else x :: firstById (x.id :: seen) rest

/-- No Group of the table has two members with the same id. -/
def GroupsDedup (db : JsMap Media) : Prop := ∀ km ∈ db, (idsOf km.2.object).Nodup

/-- Group `k` exists in the table and has a member with id `i`. -/
def hasId (db : JsMap Media) (k i : JsVal) : Prop :=
  ∃ m, mapGet db k = some m ∧ i ∈ idsOf m.object

/-- An operation on the store: `processApiData` called while `rootPostPageId` has the given
value, or `deduplicateDatabase`. -/
inductive StoreOp
  | ingest (root : JsVal) (apiData : Option ApiData)
  | dedupe
  deriving DecidableEq, Repr

/-- The state after a store operation. -/
def applyStoreOp (s : State) : StoreOp → State
  | StoreOp.ingest root apiData => processApiData { s with rootPostPageId := root } apiData
  | StoreOp.dedupe => (deduplicateDatabase s).1

/-- The subject of the scenario: id `A`, primary image with url `u1`. -/
def scenarioSubject : Source := { id := .string (js "A"), mediaUrl := .string (js "u1") }

/-- The derivative of the scenario: id `B`, a video with url `u2`. -/
def scenarioDerivative : Source :=
  { id := .string (js "B"), mediaUrl := .string (js "u2"),
    mediaType := .string (js "MEDIA_POST_TYPE_VIDEO") }

/-- The subject record of the scenario, with its derivative in `childPosts`. -/
def scenarioPost : Post := { scenarioSubject with childPosts := [scenarioDerivative], videos := [] }

/-- The scenario batch: the one subject record `scenarioPost`. -/
def scenarioBatch : ApiData := { posts := some [scenarioPost] }

/-- The two members the scenario produces: the primary asset `A`, then the derivative `B`. -/
def scenarioMembers : List MediaItem :=
  [createMediaObject scenarioSubject none, createMediaObject scenarioDerivative (some scenarioSubject)]

/-- The guard of the secondary-Group step of `processChild` (lines 690 and 724). -/
def secondaryGuard (root : JsVal) (post : Post) (child : Source) : Bool :=
  !truthy root && truthy child.id && child.id != post.id

/-- The first component of `processChild`: the push into the local `media`. -/
def pushChild (post : Post) (media : Media) (child : Source) : Media :=
  { media with object := pushIfNew media.object (createMediaObject child (some post.toSource)) }

/-- The second component of `processChild`: the secondary-Group step on the tables. -/
def secondaryStep (root : JsVal) (post : Post) (parentImageItem : Option MediaItem)
    (t : Tables) (child : Source) : Tables :=
  (processChild root post parentImageItem (⟨.undefined, []⟩, t) child).2

/-- The derivatives of a subject, in the order `processPost` goes through them. -/
def derivatives (post : Post) : List Source := post.childPosts ++ post.videos

/-- The table already holds every id that `processPost` would insert for `post`. -/
def Covers (db : JsMap Media) (root : JsVal) (post : Post) : Prop :=
  (truthy post.mediaUrl = true → hasId db (jsOr root post.id) post.id) ∧
  (∀ c ∈ derivatives post, hasId db (jsOr root post.id) c.id) ∧
  (∀ c ∈ derivatives post, secondaryGuard root post c = true →
    hasId db c.id c.id ∧ (truthy post.mediaUrl = true → hasId db c.id post.id))

/-- The `childToParentMap.set` calls `processPost` makes for `post`, in order. -/
def edgeOpsPost (root : JsVal) (post : Post) : List (JsVal × JsVal) :=
  if !truthy post.id then []
  else ((derivatives post).filter (secondaryGuard root post)).map fun c => (c.id, post.id)

/-- A sequence of `Map.prototype.set` calls. -/
def applySets {V : Type} (m : JsMap V) (ops : List (JsVal × V)) : JsMap V :=
  ops.foldl (fun m kv => mapSet m kv.1 kv.2) m

/-- The Group that the secondary-Group step of `processChild` stores under `child.id`. -/
def secondaryGroup (post : Post) (parentImageItem : Option MediaItem) (db : JsMap Media)
    (child : Source) : Media :=
  let childMedia : Media := (mapGet db child.id).getD { id := child.id, object := [] }
  let childMedia : Media :=
    match parentImageItem with
    | some p => { childMedia with object := pushIfNew childMedia.object p }
    | none => childMedia
  { childMedia with
    object := pushIfNew childMedia.object (createMediaObject child (some post.toSource)) }

/-- The local `parentImageItem` of `processPost` (line 675). -/
def parentImage (post : Post) : Option MediaItem :=
  if truthy post.mediaUrl then some (createMediaObject post.toSource none) else none

/-- The local `media` of `processPost` after the primary push and the two derivative loops. -/
def targetMedia (root : JsVal) (db : JsMap Media) (post : Post) : Media :=
  let media : Media :=
    (mapGet db (jsOr root post.id)).getD { id := jsOr root post.id, object := [] }
  let media : Media :=
    if truthy post.mediaUrl then
      { media with object := pushIfNew media.object (createMediaObject post.toSource none) }
    else media
  (derivatives post).foldl (pushChild post) media

/-- The tables of `processPost` after the secondary-Group steps of the two derivative loops. -/
def afterSecondary (root : JsVal) (t : Tables) (post : Post) : Tables :=
  (derivatives post).foldl (secondaryStep root post (parentImage post)) t

/-- The `childToParentMap.set` calls `processApiData` makes for a posts list, in order. -/
def edgeOps (root : JsVal) : List Post → List (JsVal × JsVal)
  | [] => []
  | p :: rest => edgeOpsPost root p ++ edgeOps root rest

/-- A state with the root `R` pinned, one other Group `X` and one derivation edge. -/
def pinnedState : State :=
  { rootPostPageId := .string (js "R"),
    mediaDatabase := [(.string (js "X"), ⟨.string (js "X"), [createMediaObject scenarioDerivative none]⟩)],
    childToParentMap := [(.string (js "B"), .string (js "Q"))] }

/-- The item's id is not in the completed set `d`. -/
def notCompleted (d : JsSet) (x : MediaItem) : Bool := !setHas d x.id

/-- The session map is keyed by the id of the item it holds, each key once. -/
def SessionWF (ps : PromptSession) : Prop :=
  (ps.images.map (·.1)).Nodup ∧ ∀ kv ∈ ps.images, kv.2.id = kv.1

/-- All members of all Groups, in table order then member order. -/
def allMembers : JsMap Media → List MediaItem
  | [] => []
  | km :: rest => km.2.object ++ allMembers rest

/-- The Assets in scope of the bulk action: the Session on a prompt-like page, the Group of
the pinned root (else of the current post) on a single-post page, all Groups otherwise. -/
def scopeOf (s : State) : List MediaItem :=
  if isPromptLikePage (detectPageType s.pathname) then s.promptSessionData.images.map (·.2)
  else if truthy (jsOr s.rootPostPageId s.currentPostPageId) &&
      detectPageType s.pathname = PageType.singlePost then
    ((mapGet s.mediaDatabase (jsOr s.rootPostPageId s.currentPostPageId)).map (·.object)).getD []
  else allMembers s.mediaDatabase

/-- The completed set that applies: the session's completed-in-session set on a prompt-like
page, the Completed-set otherwise. -/
def completedOf (s : State) : JsSet :=
  if isPromptLikePage (detectPageType s.pathname) then s.promptSessionData.downloadedInSession
  else s.downloadedIds

/-- A sample item with the given id. -/
def sampleItem (id : String) : MediaItem :=
  { id := .string (js id), url := .string (js "u"), createTime := .string [], modelName := .string [],
    prompt := .string [], filename := .string (js id ++ js ".jpg") }

/-- A sample Group table: Group `R` with members `A`, `B` and Group `X` with member `C`. -/
def sampleTable : JsMap Media :=
  [(.string (js "R"), ⟨.string (js "R"), [sampleItem "A", sampleItem "B"]⟩),
   (.string (js "X"), ⟨.string (js "X"), [sampleItem "C"]⟩)]

/-- A single-post page with root `R` pinned; `A` is in the Completed-set. -/
def samplePostPage : State :=
  { pathname := js "/imagine/post/ab12", rootPostPageId := .string (js "R"),
    currentPostPageId := .string (js "ab12"), mediaDatabase := sampleTable,
    downloadedIds := [.string (js "A")] }

/-- The favorites page with the same table; `A` is in the Completed-set. -/
def sampleFavoritesPage : State :=
  { pathname := js "/imagine/favorites", mediaDatabase := sampleTable,
    downloadedIds := [.string (js "A")] }

/-- The prompt page with a session of `A` and `B`; `A` is completed in the session. -/
def samplePromptPage : State :=
  { pathname := js "/imagine", mediaDatabase := sampleTable,
    promptSessionData :=
      { images := [(.string (js "A"), sampleItem "A"), (.string (js "B"), sampleItem "B")],
        downloadedInSession := [.string (js "A")] } }

/-! ### Describing a bulk run -/

/-- The bookkeeping a run writes: the Completed-set, the session, the storage. -/
structure Book where
  downloadedIds : JsSet
  session : PromptSession
  storage : GMStorage

/-- The bookkeeping of a state. -/
def Book.ofState (s : State) : Book := ⟨s.downloadedIds, s.promptSessionData, s.storage⟩

/-- The session after `markPromptSessionDownloaded`. -/
def markSession (ps : PromptSession) (id : JsVal) (now : JsString) : PromptSession :=
  match mapGet ps.images id with
  | some item =>
    { ps with downloadedInSession := setAdd ps.downloadedInSession id,
              images := mapSet ps.images id
                { item with downloaded := some true, downloadedAt := .string now } }
  | none => { ps with downloadedInSession := setAdd ps.downloadedInSession id }

/-- The bookkeeping after the outcome `o` of `item`, as the callbacks of `onOutcome` leave it:
a success is recorded (in the session too on the prompt path), a failure changes nothing. -/
def settle (isPrompt : Bool) (b : Book) (item : MediaItem) (o : Outcome × JsString) : Book :=
  if o.1 = Outcome.success then
    { downloadedIds := setAdd b.downloadedIds item.id,
      session := if isPrompt then markSession b.session item.id o.2 else b.session,
      storage :=
        { b.storage with
          downloadedIds := some ((setAdd b.downloadedIds item.id).map jsonElement) } }
  else b

/-- The bookkeeping after the outcomes `os` of the first items of `items`. -/
def settleAll (isPrompt : Bool) : Book → List MediaItem → List (Outcome × JsString) → Book
  | b, item :: items, o :: os => settleAll isPrompt (settle isPrompt b item o) items os
  | b, _, _ => b

/-- By how much the callbacks of `onOutcome` raise `completed` for one outcome. -/
def completedInc (isPrompt : Bool) (o : Outcome) : Nat :=
  if isPrompt then (if o = Outcome.success then 1 else 0) else 1

/-- By how much the callbacks of `onOutcome` raise `failed` for one outcome. -/
def failedInc (isPrompt : Bool) (o : Outcome) : Nat :=
  if isPrompt then (if o = Outcome.success then 0 else 1) else 0

/-- The value of `completed` after the outcomes `os`, starting from `c`. -/
def completedAfter (isPrompt : Bool) (c : Nat) (os : List (Outcome × JsString)) : Nat :=
  os.foldl (fun c o => c + completedInc isPrompt o.1) c

/-- The value of `failed` after the outcomes `os`, starting from `f`. -/
def failedAfter (isPrompt : Bool) (f : Nat) (os : List (Outcome × JsString)) : Nat :=
  os.foldl (fun f o => f + failedInc isPrompt o.1) f

/-- The state `s0` with the bookkeeping `b` and the given values of the orchestrator's
variables and pending callbacks. -/
def runState (s0 : State) (b : Book) (running cancel : Bool) (runs : List Run)
    (downloads : List (Nat × Nat)) (timers : List Timer) (requests : List Request)
    (reports : List (Nat × Report)) : State :=
  { s0 with downloadedIds := b.downloadedIds, promptSessionData := b.session,
            storage := b.storage, isDownloadingAll := running, cancelDownload := cancel,
            runs := runs, downloads := downloads, timers := timers, requests := requests,
            reports := reports }

/-- The request `downloadNext(index)` of run `r` makes for `item`. -/
def requestOf (r index : Nat) (item : MediaItem) : Request := ⟨r, index, item.url, item.filename⟩

/-- The requests for `items`, numbered from `index`. -/
def requestsFrom (r : Nat) : Nat → List MediaItem → List Request
  | _, [] => []
  | index, item :: items => requestOf r index item :: requestsFrom r (index + 1) items

/-- The events of a run that is left alone: each request ends with its outcome, then the
100 ms timer fires. -/
def runScript : List (Outcome × JsString) → List Event
  | [] => []
  | o :: os => Event.deliver 0 o.1 o.2 :: Event.fire 0 :: runScript os

/-- The ids of the items whose outcome in `os` is a success (`os` lists the outcomes of the
first items of `items`, in order). -/
def successIds : List MediaItem → List (Outcome × JsString) → List JsVal
  | item :: items, o :: os =>
    if o.1 = Outcome.success then item.id :: successIds items os else successIds items os
  | _, _ => []

/-- The items that were not retrieved successfully: those whose outcome in `os` is a failure
and those that have no outcome in `os`, in the order of `items`. -/
def unretrieved : List MediaItem → List (Outcome × JsString) → List MediaItem
  | item :: items, o :: os =>
    if o.1 = Outcome.success then unretrieved items os else item :: unretrieved items os
  | items, _ => items

/-- The number of successes among the outcomes. -/
def successCount (os : List (Outcome × JsString)) : Nat :=
  os.countP fun o => decide (o.1 = Outcome.success)

/-- The number of failures (errors and timeouts) among the outcomes. -/
def failureCount (os : List (Outcome × JsString)) : Nat :=
  os.countP fun o => decide (o.1 ≠ Outcome.success)

/-- The favorites page with Groups holding `A`, `B`, `C` and an empty Completed-set: a
backlog of three items on the standard path. -/
def sampleStandardRun : State := { pathname := js "/imagine/favorites", mediaDatabase := sampleTable }

/-- The prompt page with a session of `A`, `B`, `C`, none completed: a backlog of three items
on the ephemeral path. -/
def samplePromptRun : State :=
  { pathname := js "/imagine",
    promptSessionData :=
      { images := [(.string (js "A"), sampleItem "A"), (.string (js "B"), sampleItem "B"),
                   (.string (js "C"), sampleItem "C")] } }

/-- Three outcomes, the second a timeout. -/
def sampleOutcomes : List (Outcome × JsString) :=
  [(Outcome.success, js "t1"), (Outcome.timeout, js "t2"), (Outcome.success, js "t3")]

/-- The events of a run that is cancelled: the items before go through with the outcomes
`os`; then the current request ends with outcome `o` and the user clicks the button, in either
order (`inFlight`: the click comes while the request is still pending); then the 100 ms timer
fires. -/
def cancelScript (os : List (Outcome × JsString)) (o : Outcome × JsString) (inFlight : Bool) :
    List Event :=
  runScript os ++
    (if inFlight then [Event.click, Event.deliver 0 o.1 o.2, Event.fire 0]
     else [Event.deliver 0 o.1 o.2, Event.click, Event.fire 0])

/-! ### Describing the request log -/

/-- The timer is a pending `downloadNext`. -/
def isNextTimer : Timer → Bool
  | Timer.next _ _ => true
  | Timer.report _ => false

/-- The requests that run `r` has made so far, in the order it made them. -/
def requestsOfRun (s : State) (r : Nat) : List Request :=
  s.requests.filter fun q => decide (q.run = r)

/-- The `items` of run `r`. -/
def itemsOfRun (s : State) (r : Nat) : Option (List MediaItem) :=
  Option.map Run.items (s.runs[r]?)

/-- The invariant of the event loop: while a run is going exactly one callback of it is
pending (a request or a `downloadNext` timer), none otherwise; a pending request is the latest
request and the run has requested exactly the items up to it; a pending `downloadNext(j)`
belongs to the latest run, which has requested exactly the items before `j`; every run has
requested an initial part of its items, in order. -/
structure RunInv (s : State) : Prop where
  pending : s.downloads.length + s.timers.countP isNextTimer =
    if s.isDownloadingAll then 1 else 0
  downloadsOk : ∀ d ∈ s.downloads, d.1 + 1 = s.runs.length ∧
    ∃ items item, itemsOfRun s d.1 = some items ∧ items[d.2]? = some item ∧
      requestsOfRun s d.1 = requestsFrom d.1 0 (items.take (d.2 + 1)) ∧
      s.requests.getLast? = some (requestOf d.1 d.2 item)
  timersOk : ∀ r j, Timer.next r j ∈ s.timers → r + 1 = s.runs.length ∧
    ∃ items, itemsOfRun s r = some items ∧ j ≤ items.length ∧
      requestsOfRun s r = requestsFrom r 0 (items.take j)
  runsOk : ∀ r items, itemsOfRun s r = some items →
    ∃ m, m ≤ items.length ∧ requestsOfRun s r = requestsFrom r 0 (items.take m)
  requestsOk : ∀ q ∈ s.requests, q.run < s.runs.length

/-- A sample run on the favorites page: the click that starts it, a success for `A`, a
timeout for `B`, the request for `C` still pending. -/
def sampleEvents : List Event :=
  [Event.click, Event.deliver 0 Outcome.success (js "t1"), Event.fire 0,
   Event.deliver 0 Outcome.timeout (js "t2"), Event.fire 0]

/-! ## Filenames of session images -/

/-- Source `buildPromptFilename` (lines 1183-1196); `now` is the reading of
`new Date().toISOString()`. -/
def buildPromptFilename (id prompt : JsVal) (now : JsString) : JsString :=
  let time : JsString := (now.take 19).map fun c => if c == 58 then 45 else c
  let sanitizedPrompt : JsString := sanitizeForFilename (jsOr prompt (.string (js "no-prompt")))
  let sanitizedPrompt :=
    if sanitizedPrompt.length > 100 then sanitizedPrompt.take 97 ++ js "..." else sanitizedPrompt
  buildUnifiedFilename { time := .string time, id := id, model := .string [],
                         prompt := .string sanitizedPrompt, ext := js "jpg" }

/-! ### Describing a filename -/

/-- The timestamp of a filename: the first 19 code units of `createTime` with every `:`
replaced by `-`, or `unknown` when `createTime` is missing or empty. -/
def timestampOf (createTime : JsVal) : JsString :=
  if truthy createTime then (createTime.str.take 19).map fun c => if c == 58 then 45 else c
  else js "unknown"

/-- A text cut to at most 100 code units: the text itself when it has at most 100, else its
first 97 followed by the marker `...`. -/
def truncatePrompt (text : JsString) : JsString :=
  if text.length ≤ 100 then text else text.take 97 ++ js "..."

/-- The extension `buildFilename` chooses: from the mime type when it is one of the three
known ones, else `mp4` for a video and `jpg` for an image. -/
def extensionOf (item : FilenameInput) : JsString :=
  if item.mimeType = .string (js "video/mp4") then js "mp4"
  else if item.mimeType = .string (js "image/png") then js "png"
  else if item.mimeType = .string (js "image/jpeg") then js "jpg"
  else if item.isVideo then js "mp4" else js "jpg"

/-- The string `grok_TIMESTAMP_ID[_MODEL][_PROMPT].EXT`: the model and the prompt are written,
each after a `_`, only when non-empty. -/
def composeFilename (timestamp id model prompt ext : JsString) : JsString :=
  js "grok" ++ js "_" ++ timestamp ++ js "_" ++ id ++
    (if model = [] then [] else js "_" ++ model) ++
    (if prompt = [] then [] else js "_" ++ prompt) ++ js "." ++ ext

/-- The text of a value as a filename shows it (`v || 'unknown'`): the value, or `unknown`
when it is missing or empty. -/
def orUnknown (v : JsVal) : JsString := if truthy v then v.str else js "unknown"

/-- The filename of an asset with the id written as it is, without the `unknown` fallback. -/
def filenameWithRawId (item : FilenameInput) : JsString :=
  composeFilename (timestampOf item.createTime) item.id.str (sanitizeForFilename item.modelName)
    (truncatePrompt (sanitizeForFilename item.prompt)) (extensionOf item)

/-- The filename of a session image whose prompt component is cut from the sanitized prompt
itself, without the `no-prompt` placeholder. -/
def promptFilenameWithoutPlaceholder (id prompt : JsVal) (now : JsString) : JsString :=
  composeFilename (timestampOf (.string now)) (orUnknown id) []
    (truncatePrompt (sanitizeForFilename prompt)) (js "jpg")

/-- The code unit may stand in a filename: neither one of `/ \ ? % * : | " < >` nor
whitespace. -/
def isSafeFilenameChar (c : Nat) : Bool := !isIllegalFilenameChar c && !isJsWhitespace c

/-- The asset of the filename scenario: id `abc`, no model, prompt `a/b?c`, an image. -/
def scenarioFilenameInput : FilenameInput :=
  { id := .string (js "abc"), url := .string (js "u"), createTime := .string (js "2024-01-01T00:00:00.000Z"),
    modelName := .string [], prompt := .string (js "a/b?c"), isVideo := false, mimeType := .undefined }

/-- An asset record without an id (the id is the empty string). -/
def noIdFilenameInput : FilenameInput :=
  { id := .string [], url := .string (js "u"), createTime := .string (js "2024-01-01T00:00:00.000Z"),
    modelName := .string [], prompt := .string [], isVideo := false, mimeType := .undefined }

/-- An asset whose id and creation time are already safe for a filename, with free text in
the model name and the prompt. -/
def freeTextFilenameInput : FilenameInput :=
  { id := .string (js "abc"), url := .string (js "u"), createTime := .string (js "2024-01-01T00-00-00"),
    modelName := .string (js "model: x/y"), prompt := .string (js "a cat?  <on> a \"mat\" | 50%*"),
    isVideo := true, mimeType := .string (js "video/mp4") }

/-! ## Store maintenance -/

/-- Source `clearDownloadHistory` (lines 392-396). -/
def clearDownloadHistory (s : State) : State := saveDownloadedIds { s with downloadedIds := [] }

/-- Source `clearMediaDatabase` (lines 399-404). -/
def clearMediaDatabase (s : State) : State :=
  { s with mediaDatabase := [], childToParentMap := [], rootPostPageId := .null }

/-- Source `clearPromptSession` (lines 319-326); `sessionId` is the identifier it mints and
`now` the reading of `new Date().toISOString()`. -/
def clearPromptSession (s : State) (sessionId now : JsString) : State :=
  { s with promptSessionData :=
      { s.promptSessionData with images := [], downloadedInSession := [], prompt := [],
                                 sessionId := sessionId, startTime := now } }

/-- The first loop of `loadMediaDatabase` (lines 443-447): an entry goes into the table when
its key is truthy and its value has an `object`. -/
def loadEntries (entries : List (JsVal × Option Media)) : JsMap Media :=
  entries.foldl
    (fun db e =>
      match e.2 with
      | some media => if truthy e.1 then mapSet db e.1 media else db
      | none => db)
    []

/-- The second loop of `loadMediaDatabase` (lines 453-457): an edge goes into the table when
both ids are truthy. -/
def loadEdges (entries : List (JsVal × JsVal)) : JsMap JsVal :=
  entries.foldl
    (fun m e => if truthy e.1 && truthy e.2 then mapSet m e.1 e.2 else m)
    []

/-- Source `loadMediaDatabase` (lines 435-467): the new state and the value returned. A slot
that is absent reads as the empty text (the default of `GM_getValue`); `JSON.parse` throws on
a slot whose text it rejects, and the `catch` returns `false` from wherever the `try` block
had got to. The `entries` of a payload are a list of pairs, as `saveMediaDatabase` writes
them (see `Slot`). -/
def loadMediaDatabase (s : State) : State × Bool :=
  match mapGet s.storage.mediaDb (.string s.pathname) with
  | none => (s, false)
  | some Slot.invalid => (s, false)
  | some (Slot.doc _ none) => (s, false)
  | some (Slot.doc path (some entries)) =>
    if path ≠ .string s.pathname then (s, false)
    else
      let s := { s with mediaDatabase := loadEntries entries }
      let s := { s with childToParentMap := [] }
      match mapGet s.storage.childParent (.string s.pathname) with
      | none => (s, true)
      | some Slot.invalid => (s, false)
      | some (Slot.doc _ none) => (s, true)
      | some (Slot.doc childPath (some childEntries)) =>
        if childPath = .string s.pathname then
          ({ s with childToParentMap := loadEdges childEntries }, true)
        else (s, true)

/-- Source `refreshMediaDatabase` (lines 469-481). The refresh of the controls is
presentation and left out; so is the later `loadSinglePostPageData` that it schedules on a
single-post page, which reads the page. -/
def refreshMediaDatabase (s : State) : State :=
  let s := saveMediaDatabase (clearMediaDatabase s)
  match s.lastApiData with
  | some apiData => processApiData s (some apiData)
  | none => s

/-- The click handler of the `Deduplicate` control (lines 1947-1954). -/
def dedupeButton (s : State) : State := saveMediaDatabase (deduplicateDatabase s).1

/-- The click handler of the `Clear session data` control (lines 1962-1970), once confirmed. -/
def clearSessionButton (s : State) : State := saveMediaDatabase (clearMediaDatabase s)

/-! ## Single retrievals -/

/-- The callbacks of a request that `startDownloads` (lines 591-617) makes for one member of
a Group, `downloadFile(item, onComplete)`: what runs when the request ends with outcome `o`.
Its `onComplete` counts and writes the text of the button only. -/
def groupItemOutcome (s : State) (item : MediaItem) (o : Outcome) : State :=
  downloadFile item (fun s => s) true o s

/-- The callbacks of the request behind the button of one session image (lines 1273-1293):
what runs when the request ends with outcome `o`; `now` is the reading of the clock. -/
def promptItemOutcome (s : State) (imageData : MediaItem) (o : Outcome) (now : JsString) :
    State :=
  match o with
  | Outcome.success =>
    markAsDownloaded (markPromptSessionDownloaded s imageData.id now) imageData.id
  | Outcome.error => s
  | Outcome.timeout => s

/-! ### Describing the operations on the store -/

/-- The first value of the list that is present (truthy), as text; the empty text when none
is: the chain `a || b || ... || ''`. -/
def firstPresent : List JsVal → JsString
  | [] => []
  | v :: rest => if truthy v then v.str else firstPresent rest

/-- An operation of the running script on its state: an event of the bulk run, a store
function, a control of the settings panel, or the end of a single retrieval. The script start
(`loadDownloadedIds`, which fills the still empty Completed-set from the storage) and the
history reset (`clearDownloadHistory`) are not among them. -/
inductive Op
  | event (e : Event)
  | ingest (apiData : Option ApiData)
  | dedupe
  | clear
  | save
  | load
  | refresh
  | dedupeButton
  | clearSessionButton
  | clearSession (sessionId now : JsString)
  | groupItem (item : MediaItem) (o : Outcome)
  | promptItem (item : MediaItem) (o : Outcome) (now : JsString)
  deriving DecidableEq, Repr

/-- The state after an operation. -/
def applyOp (s : State) : Op → State
  | Op.event e => step s e
  | Op.ingest apiData => processApiData s apiData
  | Op.dedupe => (deduplicateDatabase s).1
  | Op.clear => clearMediaDatabase s
  | Op.save => saveMediaDatabase s
  | Op.load => (loadMediaDatabase s).1
  | Op.refresh => refreshMediaDatabase s
  | Op.dedupeButton => dedupeButton s
  | Op.clearSessionButton => clearSessionButton s
  | Op.clearSession sessionId now => clearPromptSession s sessionId now
  | Op.groupItem item o => groupItemOutcome s item o
  | Op.promptItem item o now => promptItemOutcome s item o now

/-- The item of the `n`-th pending request of the bulk run. -/
def pendingItem (s : State) (n : Nat) : Option MediaItem :=
  (s.downloads[n]?).bind fun d => (s.runs[d.1]?).bind fun run => run.items[d.2]?

/-- The id of the Asset whose successful retrieval the operation reports: the operation is
the `onload` of a request, of the bulk run or of a single retrieval, for the Asset with that
id. `none` for every other operation, a failed retrieval included. -/
def retrievedId (s : State) : Op → Option JsVal
  | Op.event (Event.deliver n Outcome.success _) => (pendingItem s n).map (·.id)
  | Op.groupItem item Outcome.success => some item.id
  | Op.promptItem item Outcome.success _ => some item.id
  | _ => none

/-- A state of the page `/imagine/post/ab12` with the sample table and one derivation edge. -/
def sampleStoreState : State :=
  { pathname := js "/imagine/post/ab12", mediaDatabase := sampleTable,
    childToParentMap := [(.string (js "B"), .string (js "A"))] }

/-- The script start on the favorites page: the tables are empty; the storage holds a Group
payload for this page and a derivation-edge slot whose text `JSON.parse` rejects. -/
def brokenEdgeSlotState : State :=
  { pathname := js "/imagine/favorites",
    storage :=
      { mediaDb := [(.string (js "/imagine/favorites"),
          Slot.doc (.string (js "/imagine/favorites"))
            (some [(.string (js "R"), some ⟨.string (js "R"), [sampleItem "A"]⟩)]))],
        childParent := [(.string (js "/imagine/favorites"), Slot.invalid)] } }

/-- A subject record without an id, carrying a primary image and a derivative. -/
def malformedPost : Post :=
  { id := .undefined, mediaUrl := .string (js "u9"), childPosts := [scenarioDerivative], videos := [] }

/-- A derivative record with a model name of its own and no creation time or prompt. -/
def bareDerivative : Source :=
  { id := .string (js "B"), mediaUrl := .string (js "u2"), modelName := .string (js "m2") }

/-- A parent record with creation time, model name and both prompts. -/
def richParent : Source :=
  { id := .string (js "A"), mediaUrl := .string (js "u1"),
    createTime := .string (js "2024-01-01T00:00:00.000Z"), modelName := .string (js "m1"),
    originalPrompt := .string (js " a cat "), prompt := .string (js "a dog") }

/-! ## Session tracker: inserting and counting -/

/-- Source `updatePromptFromDOM` (lines 239-255). `inputValue` is the value of
`promptInput && promptInput.value` and `chipText` that of `anyChip && anyChip.textContent`:
the value of the prompt input of the page and the text of the sticky prompt chip, each `null`
when the page has no such element. -/
def updatePromptFromDOM (s : State) (inputValue chipText : JsVal) : State :=
  if truthy inputValue then
    { s with promptSessionData := { s.promptSessionData with prompt := jsTrim inputValue.str } }
  else if truthy chipText then
    let text := jsTrim chipText.str
    if truthy (.string text) then
      { s with promptSessionData := { s.promptSessionData with prompt := text } }
    else s
  else s

/-- Source `addToPromptSession` (lines 272-285): the new state and the value returned; `now`
is the reading of `new Date().toISOString()`. -/
def addToPromptSession (s : State) (imageData : MediaItem) (inputValue chipText : JsVal)
    (now : JsString) : State × Bool :=
  if !mapHas s.promptSessionData.images imageData.id then
    let s := updatePromptFromDOM s inputValue chipText
    let item : MediaItem :=
      { imageData with prompt := jsOr imageData.prompt (.string s.promptSessionData.prompt),
                       addedAt := .string now, downloaded := some false }
    ({ s with promptSessionData :=
        { s.promptSessionData with
          images := mapSet s.promptSessionData.images imageData.id item } }, true)
  else (s, false)

/-- The object `getPromptSessionStats` returns. -/
structure SessionStats where
  total : Nat
  downloaded : Nat
  remaining : Int
  sessionId : JsString
  startTime : JsString
  currentPrompt : JsString
  deriving DecidableEq, Repr

/-- Source `getPromptSessionStats` (lines 296-307). -/
def getPromptSessionStats (s : State) : SessionStats :=
  let total := s.promptSessionData.images.length
  let downloaded := s.promptSessionData.downloadedInSession.length
  { total := total, downloaded := downloaded, remaining := (total : Int) - (downloaded : Int),
    sessionId := s.promptSessionData.sessionId, startTime := s.promptSessionData.startTime,
    currentPrompt := s.promptSessionData.prompt }

/-! ## Single-post pages -/

/-- The group `match[1]` of `s.match(/LIT([a-f0-9-]+)/)` for a literal `LIT`: the longest run
of `[a-f0-9-]` after the first place where `LIT` is followed by such a character. -/
def matchLitHex (s lit : JsString) : Option JsString :=
  s.tails.findSome? fun t =>
    if lit.isPrefixOf t && ((t.drop lit.length).head?.map isHexDash).getD false then
      some ((t.drop lit.length).takeWhile isHexDash)
    else none

/-- Source `detectCurrentPostPage` (lines 2125-2139), on `window.location.pathname`. -/
def detectCurrentPostPage (s : State) : State :=
  match matchLitHex s.pathname (js "/imagine/post/") with
  | some newPostId =>
    let s :=
      if !truthy s.rootPostPageId || !truthy s.currentPostPageId then
        { s with rootPostPageId := .string newPostId }
      else s
    { s with currentPostPageId := .string newPostId }
  | none => { s with currentPostPageId := .null, rootPostPageId := .null }

/-- The item that `loadSinglePostPageData` builds for an image or a video found on the page
(lines 1464-1471 and 1479-1486); `ext` is `jpg` or `mp4`. -/
def domItem (id url : JsString) (ext : String) : MediaItem :=
  { id := .string id, url := .string url, createTime := .string [], modelName := .string [],
    prompt := .string [], filename := .string (id ++ js "." ++ js ext) }

/-- Source `loadSinglePostPageData` (lines 1433-1499). `imageData` and `videoData` are what
`extractImageUrlsFromDOM` and `extractVideoUrlsFromDOM` read from the page, as pairs of id and
url. The refresh of the button is presentation and left out. -/
def loadSinglePostPageData (s : State) (imageData videoData : List (JsString × JsString)) :
    State :=
  if !truthy s.currentPostPageId then s
  else
    let s := if !truthy s.rootPostPageId then { s with rootPostPageId := s.currentPostPageId }
             else s
    let postMedia : Media :=
      (mapGet s.mediaDatabase s.rootPostPageId).getD { id := s.rootPostPageId, object := [] }
    let postMedia : Media :=
      imageData.foldl
        (fun m image => { m with object := pushIfNew m.object (domItem image.1 image.2 "jpg") })
        postMedia
    let postMedia : Media :=
      videoData.foldl
        (fun m video => { m with object := pushIfNew m.object (domItem video.1 video.2 "mp4") })
        postMedia
    let s :=
      if postMedia.object.length > 0 then
        { s with mediaDatabase := mapSet s.mediaDatabase s.rootPostPageId postMedia }
      else s
    saveMediaDatabase s

/-! ### Describing the merge, the page visits and the session -/

/-- The Assets `processPost` builds for a subject, in the order it pushes them: the primary
asset when the subject has one, then the `childPosts` derivatives, then the `videos`
derivatives. -/
def subjectItems (post : Post) : List MediaItem :=
  (if truthy post.mediaUrl then [createMediaObject post.toSource none] else []) ++
    (derivatives post).map fun c => createMediaObject c (some post.toSource)

/-- A subject record with a primary image and two derivative lists that overlap: `B` is in
both, `C` only in `childPosts`, `D` only in `videos`. -/
def overlappingPost : Post :=
  { id := .string (js "A"), mediaUrl := .string (js "u1"),
    childPosts := [{ id := .string (js "B"), mediaUrl := .string (js "u2") },
                   { id := .string (js "C"), mediaUrl := .string (js "u3") }],
    videos := [{ id := .string (js "B"), mediaUrl := .string (js "u2v") },
               { id := .string (js "D"), mediaUrl := .string (js "u4") }] }

/-- A derivative record that carries the id of the scenario subject itself. -/
def selfDerivative : Source := { id := .string (js "A"), mediaUrl := .string (js "u7") }

/-- An image record for which both a high-definition and a standard URL are known. -/
def imageWithHd : Source :=
  { id := .string (js "I"), mediaUrl := .string (js "std"), hdMediaUrl := .string (js "hd"),
    mediaType := .string (js "MEDIA_POST_TYPE_IMAGE") }

/-- A video record for which both a high-definition and a standard URL are known. -/
def videoWithHd : Source :=
  { id := .string (js "V"), mediaUrl := .string (js "std"), hdMediaUrl := .string (js "hd"),
    mediaType := .string (js "MEDIA_POST_TYPE_VIDEO") }

/-- Something that happens on a page: the location changes to `path` and
`detectCurrentPostPage` runs, or `loadSinglePostPageData` runs on what the page shows. -/
inductive PageOp
  | visit (path : JsString)
  | load (imageData videoData : List (JsString × JsString))
  deriving DecidableEq, Repr

/-- The state after a page operation. -/
def applyPageOp (s : State) : PageOp → State
  | PageOp.visit path => detectCurrentPostPage { s with pathname := path }
  | PageOp.load imageData videoData => loadSinglePostPageData s imageData videoData

/-- The post id that `detectCurrentPostPage` reads from a path. -/
def postIdOf (path : JsString) : Option JsString := matchLitHex path (js "/imagine/post/")

/-- Every visit of the sequence is on a single-post path. -/
def onPostPaths (ops : List PageOp) : Prop :=
  ∀ path, PageOp.visit path ∈ ops → (postIdOf path).isSome = true

/-- The post id of the last visit of the sequence, `dflt` when it has none. -/
def lastVisited (dflt : JsVal) (ops : List PageOp) : JsVal :=
  ops.foldl
    (fun cur op =>
      match op with
      | PageOp.visit path =>
        match postIdOf path with
        | some id => .string id
        | none => .null
      | PageOp.load _ _ => cur)
    dflt

/-- A state with root `aa` pinned, showing post `aa`. -/
def pinnedPostState : State :=
  { pathname := js "/imagine/post/aa", rootPostPageId := .string (js "aa"),
    currentPostPageId := .string (js "aa") }

/-- An operation on the session tracker. -/
inductive SessionOp
  | add (imageData : MediaItem) (inputValue chipText : JsVal) (now : JsString)
  | mark (id : JsVal) (now : JsString)
  | clear (sessionId now : JsString)
  deriving DecidableEq, Repr

/-- The state after a session operation. -/
def applySessionOp (s : State) : SessionOp → State
  | SessionOp.add imageData inputValue chipText now =>
    (addToPromptSession s imageData inputValue chipText now).1
  | SessionOp.mark id now => markPromptSessionDownloaded s id now
  | SessionOp.clear sessionId now => clearPromptSession s sessionId now

/-- Every `markPromptSessionDownloaded` of the sequence names an id that is tracked when it
runs. -/
def marksTracked : State → List SessionOp → Bool
  | _, [] => true
  | s, op :: ops =>
    (match op with
      | SessionOp.mark id _ => mapHas s.promptSessionData.images id
      | _ => true) &&
    marksTracked (applySessionOp s op) ops

/-- Every id of the completed-in-session set is the id of a tracked Asset. -/
def CompletedTracked (ps : PromptSession) : Prop :=
  ∀ id ∈ ps.downloadedInSession, mapHas ps.images id = true

/-- A session of three operations: `A` and `B` are added, `A` is marked. -/
def sampleSessionOps : List SessionOp :=
  [SessionOp.add (sampleItem "A") .null .null (js "t1"),
   SessionOp.add (sampleItem "B") .null .null (js "t2"),
   SessionOp.mark (.string (js "A")) (js "t3")]

/-- Every Group of `db` is a Group of `db'`, with its member list as the first part of the
new member list. -/
def GroupsExtend (db db' : JsMap Media) : Prop :=
  ∀ k m, mapGet db k = some m → ∃ m', mapGet db' k = some m' ∧ m.object <+: m'.object

/-- A second observation of the scenario subject, with other URLs and another prompt for the
same ids, and a new derivative `C`. -/
def reobservedPost : Post :=
  { id := .string (js "A"), mediaUrl := .string (js "other1"), prompt := .string (js "changed"),
    childPosts := [{ id := .string (js "B"), mediaUrl := .string (js "other2") },
                   { id := .string (js "C"), mediaUrl := .string (js "u3") }],
    videos := [] }

/-- A subject record `P` without a primary asset whose two derivatives carry no id of their
own: the first record has no `id` property, in the second `id` is `null`. -/
def nullIdPost : Post :=
  { id := .string (js "P"),
    childPosts := [{ id := .undefined, mediaUrl := .string (js "c1") },
                   { id := .null, mediaUrl := .string (js "c2") }],
    videos := [] }

/-- The two Assets of `nullIdPost`: the id of the first is `undefined`, that of the second
is `null`. -/
def nullIdMembers : List MediaItem :=
  nullIdPost.childPosts.map fun c => createMediaObject c (some nullIdPost.toSource)

/-- The favorites page after `processApiData` on the batch of `nullIdPost`. -/
def nullIdPage : State :=
  processApiData { pathname := js "/imagine/favorites" } (some ⟨some [nullIdPost]⟩)
/-! ## Lemmas on maps -/

theorem mapGet_mapSet_self {V : Type} (m : JsMap V) (k : JsVal) (v : V) :
    mapGet (mapSet m k v) k = some v := by
  induction m with
  | nil => simp [mapSet, mapGet]
  | cons kv rest ih =>
    obtain ⟨k', v'⟩ := kv
    by_cases h : k' = k
    · simp [mapSet, mapGet, h]
    · simp [mapSet, mapGet, h, ih]

theorem mapGet_mapSet_ne {V : Type} (m : JsMap V) (k k' : JsVal) (v : V) (h : k' ≠ k) :
    mapGet (mapSet m k v) k' = mapGet m k' := by
  induction m with
  | nil => simp [mapSet, mapGet, Ne.symm h]
  | cons kv rest ih =>
    obtain ⟨k0, v0⟩ := kv
    by_cases h0 : k0 = k
    · subst h0
      simp [mapSet, mapGet, Ne.symm h]
    · by_cases h1 : k0 = k'
      · subst h1
        simp [mapSet, mapGet, h0]
      · simp [mapSet, mapGet, h0, h1, ih]

theorem mapSet_eq_self {V : Type} (m : JsMap V) (k : JsVal) (v : V)
    (h : mapGet m k = some v) : mapSet m k v = m := by
  induction m with
  | nil => simp [mapGet] at h
  | cons kv rest ih =>
    obtain ⟨k0, v0⟩ := kv
    by_cases h0 : k0 = k
    · subst h0
      simp [mapGet] at h
      simp [mapSet, h]
    · simp [mapGet, h0] at h
      simp [mapSet, h0, ih h]

theorem mapSet_mapSet_same {V : Type} (m : JsMap V) (k : JsVal) (v v' : V) :
    mapSet (mapSet m k v) k v' = mapSet m k v' := by
  induction m with
  | nil => simp [mapSet]
  | cons kv rest ih =>
    obtain ⟨k0, v0⟩ := kv
    by_cases h0 : k0 = k
    · simp [mapSet, h0]
    · simp [mapSet, h0, ih]

theorem mapSet_comm {V : Type} (m : JsMap V) (k k' : JsVal) (v v' : V) (hne : k ≠ k')
    (hk : mapGet m k' ≠ none) :
    mapSet (mapSet m k v) k' v' = mapSet (mapSet m k' v') k v := by
  induction m with
  | nil => simp [mapGet] at hk
  | cons kv rest ih =>
    obtain ⟨k0, v0⟩ := kv
    by_cases h0 : k0 = k
    · subst h0
      simp [mapSet, hne, Ne.symm hne]
    · by_cases h1 : k0 = k'
      · subst h1
        simp [mapSet, h0, hne, Ne.symm hne]
      · simp [mapGet, h1] at hk
        simp [mapSet, h0, h1, ih hk]

theorem mapGet_mapSet_ne_none {V : Type} (m : JsMap V) (k k' : JsVal) (v : V)
    (h : mapGet m k' ≠ none) : mapGet (mapSet m k v) k' ≠ none := by
  by_cases hk : k' = k
  · subst hk
    simp [mapGet_mapSet_self]
  · rw [mapGet_mapSet_ne m k k' v hk]
    exact h

theorem mapGet_map_snd {V W : Type} (f : V → W) (m : JsMap V) (k : JsVal) :
    mapGet (m.map fun kv => (kv.1, f kv.2)) k = (mapGet m k).map f := by
  induction m with
  | nil => simp [mapGet]
  | cons kv rest ih =>
    obtain ⟨k0, v0⟩ := kv
    by_cases h0 : k0 = k
    · simp [mapGet, h0]
    · simp [mapGet, h0, ih]

theorem mapGet_mem {V : Type} (m : JsMap V) (k : JsVal) (v : V) (h : mapGet m k = some v) :
    (k, v) ∈ m := by
  induction m with
  | nil => simp [mapGet] at h
  | cons kv rest ih =>
    obtain ⟨k0, v0⟩ := kv
    by_cases h0 : k0 = k
    · subst h0
      simp [mapGet] at h
      simp [h]
    · simp [mapGet, h0] at h
      exact List.mem_cons_of_mem _ (ih h)

theorem keys_mapSet {V : Type} (m : JsMap V) (k : JsVal) (v : V) :
    (mapSet m k v).map (·.1) =
      if (mapGet m k).isSome then m.map (·.1) else m.map (·.1) ++ [k] := by
  induction m with
  | nil => simp [mapSet, mapGet]
  | cons kv rest ih =>
    obtain ⟨k0, v0⟩ := kv
    by_cases h0 : k0 = k
    · simp [mapSet, mapGet, h0]
    · simp only [mapSet, mapGet, h0, if_false, List.map_cons, ih]
      split <;> rfl

theorem mapGet_eq_none_iff {V : Type} (m : JsMap V) (k : JsVal) :
    mapGet m k = none ↔ k ∉ m.map (·.1) := by
  induction m with
  | nil => simp [mapGet]
  | cons kv rest ih =>
    obtain ⟨k0, v0⟩ := kv
    by_cases h0 : k0 = k
    · simp [mapGet, h0]
    · simp [mapGet, h0, ih, Ne.symm h0]

/-- `Map.prototype.set` keeps the keys of a map distinct. -/
theorem keys_nodup_mapSet {V : Type} (m : JsMap V) (k : JsVal) (v : V)
    (h : (m.map (·.1)).Nodup) : ((mapSet m k v).map (·.1)).Nodup := by
  rw [keys_mapSet]
  split
  · exact h
  · rename_i hk
    have hnone : mapGet m k = none := by
      cases hg : mapGet m k with
      | none => rfl
      | some x => simp [hg] at hk
    rw [List.nodup_append]
    refine ⟨h, List.nodup_singleton _, ?_⟩
    intro a ha hb
    rw [List.mem_singleton] at hb
    subst hb
    exact (mapGet_eq_none_iff m a).1 hnone ha

/-! ## Lemmas on first occurrences and deduplication -/

theorem firstById_congr (s s' : List JsVal) (l : List MediaItem) (h : ∀ x, x ∈ s ↔ x ∈ s') :
    firstById s l = firstById s' l := by
  induction l generalizing s s' with
  | nil => rfl
  | cons x rest ih =>
    by_cases hx : x.id ∈ s
    · have hx' : x.id ∈ s' := (h _).1 hx
      simp [firstById, hx, hx', ih s s' h]
    · have hx' : x.id ∉ s' := fun c => hx ((h _).2 c)
      have : firstById (x.id :: s) rest = firstById (x.id :: s') rest :=
        ih _ _ (fun y => by simp [h y])
      simp [firstById, hx, hx', this]

theorem firstById_sublist (s : List JsVal) (l : List MediaItem) :
    (firstById s l).Sublist l := by
  induction l generalizing s with
  | nil => simp [firstById]
  | cons x rest ih =>
    by_cases hx : x.id ∈ s
    · simp only [firstById, hx, if_true]
      exact (ih s).trans (List.sublist_cons_self _ _)
    · simp only [firstById, hx, if_false]
      exact (ih _).cons₂ _

theorem firstById_not_seen (s : List JsVal) (l : List MediaItem) :
    ∀ x ∈ firstById s l, x.id ∉ s := by
  induction l generalizing s with
  | nil => simp [firstById]
  | cons x rest ih =>
    intro y hy
    by_cases hx : x.id ∈ s
    · simp only [firstById, hx, if_true] at hy
      exact ih s y hy
    · simp only [firstById, hx, if_false, List.mem_cons] at hy
      rcases hy with rfl | hy
      · exact hx
      · exact fun c => ih _ y hy (List.mem_cons_of_mem _ c)

theorem firstById_nodup (s : List JsVal) (l : List MediaItem) :
    (idsOf (firstById s l)).Nodup := by
  induction l generalizing s with
  | nil => simp [firstById, idsOf]
  | cons x rest ih =>
    by_cases hx : x.id ∈ s
    · simp only [firstById, hx, if_true]
      exact ih s
    · simp only [firstById, hx, if_false, idsOf, List.map_cons, List.nodup_cons]
      refine ⟨?_, ih _⟩
      intro hmem
      obtain ⟨y, hy, hyx⟩ := List.mem_map.1 hmem
      exact firstById_not_seen _ _ y hy (by simp [hyx])

theorem firstById_mem_ids (s : List JsVal) (l : List MediaItem) (i : JsVal)
    (hi : i ∈ idsOf l) (hs : i ∉ s) : i ∈ idsOf (firstById s l) := by
  induction l generalizing s with
  | nil => simp [idsOf] at hi
  | cons x rest ih =>
    simp only [idsOf, List.map_cons, List.mem_cons] at hi
    by_cases hx : x.id ∈ s
    · simp only [firstById, hx, if_true]
      rcases hi with rfl | hi
      · exact absurd hx hs
      · exact ih s hi hs
    · simp only [firstById, hx, if_false, idsOf, List.map_cons, List.mem_cons]
      by_cases hix : i = x.id
      · exact Or.inl hix
      · rcases hi with rfl | hi
        · exact absurd rfl hix
        · exact Or.inr (ih _ hi (by simp [hix, hs]))

theorem firstById_eq_self (s : List JsVal) (l : List MediaItem) (hn : (idsOf l).Nodup)
    (hd : ∀ i ∈ idsOf l, i ∉ s) : firstById s l = l := by
  induction l generalizing s with
  | nil => rfl
  | cons x rest ih =>
    simp only [idsOf, List.map_cons, List.nodup_cons] at hn
    have hx : x.id ∉ s := hd _ (by simp [idsOf])
    simp only [firstById, hx, if_false]
    congr 1
    apply ih _ hn.2
    intro i hi
    simp only [List.mem_cons, not_or]
    refine ⟨?_, hd i (by simp only [idsOf, List.map_cons]; exact List.mem_cons_of_mem _ hi)⟩
    rintro rfl
    exact hn.1 hi

theorem dedup_foldl (l : List MediaItem) (seen : JsSet) (out : List MediaItem) (n : Nat) :
    l.foldl dedupStep (seen, out, n) =
      (seen ++ idsOf (firstById seen l), out ++ firstById seen l,
        n + (l.length - (firstById seen l).length)) := by
  induction l generalizing seen out n with
  | nil => simp [firstById, idsOf]
  | cons x rest ih =>
    have hlen : (firstById seen rest).length ≤ rest.length := (firstById_sublist _ _).length_le
    by_cases hx : x.id ∈ seen
    · simp only [List.foldl_cons, dedupStep, setHas, hx, decide_True, Bool.not_true,
        Bool.false_eq_true, if_false, firstById, if_true, ih, List.length_cons]
      congr 2
      omega
    · have hc : firstById (seen ++ [x.id]) rest = firstById (x.id :: seen) rest :=
        firstById_congr _ _ _ (fun y => by simp [or_comm])
      have hlen2 : (firstById (x.id :: seen) rest).length ≤ rest.length :=
        (firstById_sublist _ _).length_le
      simp only [List.foldl_cons, dedupStep, setHas, setAdd, hx, decide_False, Bool.not_false,
        if_true, if_false, firstById, ih, hc, List.length_cons, idsOf, List.map_cons,
        List.append_assoc, List.singleton_append]
      congr 2
      omega

theorem dedupMedia_object (m : Media) : (dedupMedia m).1.object = firstById [] m.object := by
  simp [dedupMedia, dedup_foldl]

theorem dedupMedia_id (m : Media) : (dedupMedia m).1.id = m.id := by
  simp [dedupMedia]

theorem dedupMedia_removed (m : Media) :
    (dedupMedia m).2 = m.object.length - (firstById [] m.object).length := by
  simp [dedupMedia, dedup_foldl]

theorem dedupMedia_eq_self (m : Media) (h : (idsOf m.object).Nodup) : (dedupMedia m).1 = m := by
  have : (dedupMedia m).1 = { m with object := firstById [] m.object } := by
    simp [dedupMedia, dedup_foldl]
  rw [this, firstById_eq_self [] _ h (by simp)]

theorem dedupTable_groupsDedup (db : JsMap Media) : GroupsDedup (dedupTable db) := by
  intro km hkm
  simp only [dedupTable, List.mem_map] at hkm
  obtain ⟨km0, _, rfl⟩ := hkm
  simp only [dedupMedia_object]
  exact firstById_nodup _ _

theorem dedupTable_eq_self (db : JsMap Media) (h : GroupsDedup db) : dedupTable db = db := by
  unfold dedupTable
  conv_rhs => rw [← List.map_id db]
  apply List.map_congr_left
  intro km hkm
  rw [dedupMedia_eq_self _ (h km hkm)]
  rfl

theorem mapGet_dedupTable (db : JsMap Media) (k : JsVal) :
    mapGet (dedupTable db) k = (mapGet db k).map fun m => (dedupMedia m).1 :=
  mapGet_map_snd (fun m => (dedupMedia m).1) db k

theorem hasId_dedupTable (db : JsMap Media) (k i : JsVal) (h : hasId db k i) :
    hasId (dedupTable db) k i := by
  obtain ⟨m, hm, hi⟩ := h
  refine ⟨(dedupMedia m).1, by simp [mapGet_dedupTable, hm], ?_⟩
  rw [dedupMedia_object]
  exact firstById_mem_ids _ _ _ hi (by simp)

/-! ## Lemmas on ingestion -/

theorem createMediaObject_id (src : Source) (p : Option Source) :
    (createMediaObject src p).id = src.id := rfl

theorem applyStoreOp_groupsDedup (s : State) (op : StoreOp) (h : GroupsDedup s.mediaDatabase) :
    GroupsDedup (applyStoreOp s op).mediaDatabase := by
  cases op with
  | dedupe => exact dedupTable_groupsDedup _
  | ingest root apiData =>
    simp only [applyStoreOp, processApiData]
    cases hp : apiData.bind (·.posts) with
    | none => exact h
    | some posts => exact dedupTable_groupsDedup _

theorem foldl_applyStoreOp_groupsDedup (ops : List StoreOp) (s : State)
    (h : GroupsDedup s.mediaDatabase) : GroupsDedup (ops.foldl applyStoreOp s).mediaDatabase := by
  induction ops generalizing s with
  | nil => exact h
  | cons op rest ih => exact ih _ (applyStoreOp_groupsDedup s op h)

theorem idsOf_nil : idsOf [] = [] := rfl

theorem pushIfNew_of_mem (l : List MediaItem) (x : MediaItem) (h : x.id ∈ idsOf l) :
    pushIfNew l x = l := by
  have : (l.any fun o => decide (o.id = x.id)) = true := by
    simp only [idsOf, List.mem_map] at h
    obtain ⟨o, ho, hox⟩ := h
    simp only [List.any_eq_true, decide_eq_true_eq]
    exact ⟨o, ho, hox⟩
  simp [pushIfNew, this]

theorem mem_idsOf_pushIfNew (l : List MediaItem) (x : MediaItem) (i : JsVal) :
    i ∈ idsOf (pushIfNew l x) ↔ i ∈ idsOf l ∨ i = x.id := by
  by_cases h : x.id ∈ idsOf l
  · rw [pushIfNew_of_mem l x h]
    constructor
    · exact Or.inl
    · rintro (h1 | rfl)
      · exact h1
      · exact h
  · have : (l.any fun o => decide (o.id = x.id)) = false := by
      rw [Bool.eq_false_iff]
      intro hc
      simp only [List.any_eq_true, decide_eq_true_eq] at hc
      obtain ⟨o, ho, hox⟩ := hc
      exact h (by simp only [idsOf, List.mem_map]; exact ⟨o, ho, hox⟩)
    simp [pushIfNew, this, idsOf]

theorem processChild_eq (root : JsVal) (post : Post) (pi : Option MediaItem)
    (st : Media × Tables) (c : Source) :
    processChild root post pi st c = (pushChild post st.1 c, secondaryStep root post pi st.2 c) := by
  unfold secondaryStep pushChild processChild
  split <;> rfl

theorem foldl_processChild (root : JsVal) (post : Post) (pi : Option MediaItem)
    (cs : List Source) (m : Media) (t : Tables) :
    cs.foldl (processChild root post pi) (m, t) =
      (cs.foldl (pushChild post) m, cs.foldl (secondaryStep root post pi) t) := by
  induction cs generalizing m t with
  | nil => rfl
  | cons c rest ih => simp only [List.foldl_cons, processChild_eq, ih]

theorem secondaryStep_of_guard_false (root : JsVal) (post : Post) (pi : Option MediaItem)
    (t : Tables) (c : Source) (h : secondaryGuard root post c = false) :
    secondaryStep root post pi t c = t := by
  unfold secondaryGuard at h
  simp [secondaryStep, processChild, h]

theorem secondaryStep_of_guard_true (root : JsVal) (post : Post) (pi : Option MediaItem)
    (t : Tables) (c : Source) (h : secondaryGuard root post c = true) :
    secondaryStep root post pi t c =
      ⟨mapSet t.db c.id (secondaryGroup post pi t.db c), mapSet t.edges c.id post.id⟩ := by
  unfold secondaryGuard at h
  simp only [secondaryStep, processChild, h, if_true, secondaryGroup]

theorem mem_idsOf_secondaryGroup (post : Post) (pi : Option MediaItem) (db : JsMap Media)
    (c : Source) (i : JsVal) :
    i ∈ idsOf (secondaryGroup post pi db c).object ↔
      (∃ m, mapGet db c.id = some m ∧ i ∈ idsOf m.object) ∨ (∃ p, pi = some p ∧ i = p.id) ∨
        i = c.id := by
  cases pi with
  | none =>
    cases hg : mapGet db c.id with
    | none => simp [secondaryGroup, hg, mem_idsOf_pushIfNew, createMediaObject_id, idsOf_nil]
    | some m => simp [secondaryGroup, hg, mem_idsOf_pushIfNew, createMediaObject_id]
  | some p =>
    cases hg : mapGet db c.id with
    | none => simp [secondaryGroup, hg, mem_idsOf_pushIfNew, createMediaObject_id, idsOf_nil]
    | some m => simp [secondaryGroup, hg, mem_idsOf_pushIfNew, createMediaObject_id, or_assoc]

theorem secondaryGroup_eq_of_covered (post : Post) (pi : Option MediaItem) (db : JsMap Media)
    (c : Source) (m : Media) (hm : mapGet db c.id = some m) (hc : c.id ∈ idsOf m.object)
    (hp : ∀ p, pi = some p → p.id ∈ idsOf m.object) : secondaryGroup post pi db c = m := by
  cases pi with
  | none =>
    simp only [secondaryGroup, hm, Option.getD_some]
    rw [pushIfNew_of_mem _ _ (by simpa [createMediaObject_id] using hc)]
  | some p =>
    simp only [secondaryGroup, hm, Option.getD_some]
    rw [pushIfNew_of_mem _ _ (hp p rfl)]
    rw [pushIfNew_of_mem _ _ (by simpa [createMediaObject_id] using hc)]

theorem foldl_pushChild_id (post : Post) (cs : List Source) (m : Media) :
    (cs.foldl (pushChild post) m).id = m.id := by
  induction cs generalizing m with
  | nil => rfl
  | cons c rest ih => simp only [List.foldl_cons, ih]; rfl

theorem mem_idsOf_foldl_pushChild (post : Post) (cs : List Source) (m : Media) (i : JsVal) :
    i ∈ idsOf (cs.foldl (pushChild post) m).object ↔
      i ∈ idsOf m.object ∨ i ∈ cs.map (·.id) := by
  induction cs generalizing m with
  | nil => simp
  | cons c rest ih =>
    simp only [List.foldl_cons, ih, pushChild, mem_idsOf_pushIfNew, createMediaObject_id,
      List.map_cons, List.mem_cons, or_assoc]

theorem foldl_pushChild_eq_self (post : Post) (cs : List Source) (m : Media)
    (h : ∀ c ∈ cs, c.id ∈ idsOf m.object) : cs.foldl (pushChild post) m = m := by
  induction cs with
  | nil => rfl
  | cons c rest ih =>
    have hc : pushChild post m c = m := by
      simp only [pushChild]
      rw [pushIfNew_of_mem _ _ (by simpa [createMediaObject_id] using h c (by simp))]
    simp only [List.foldl_cons, hc]
    exact ih (fun c' hc' => h c' (List.mem_cons_of_mem _ hc'))

theorem hasId_mapSet_of_superset (db : JsMap Media) (k : JsVal) (g : Media)
    (hg : ∀ m, mapGet db k = some m → ∀ i ∈ idsOf m.object, i ∈ idsOf g.object)
    (k' i : JsVal) (h : hasId db k' i) : hasId (mapSet db k g) k' i := by
  obtain ⟨m, hm, hi⟩ := h
  by_cases hk : k' = k
  · subst hk
    exact ⟨g, mapGet_mapSet_self _ _ _, hg m hm i hi⟩
  · exact ⟨m, by rw [mapGet_mapSet_ne _ _ _ _ hk]; exact hm, hi⟩

theorem secondaryStep_hasId_mono (root : JsVal) (post : Post) (pi : Option MediaItem)
    (t : Tables) (c : Source) (k i : JsVal) (h : hasId t.db k i) :
    hasId (secondaryStep root post pi t c).db k i := by
  cases hg : secondaryGuard root post c with
  | false => rw [secondaryStep_of_guard_false _ _ _ _ _ hg]; exact h
  | true =>
    rw [secondaryStep_of_guard_true _ _ _ _ _ hg]
    apply hasId_mapSet_of_superset _ _ _ _ _ _ h
    intro m hm j hj
    rw [mem_idsOf_secondaryGroup]
    exact Or.inl ⟨m, hm, hj⟩

theorem foldl_secondaryStep_hasId_mono (root : JsVal) (post : Post) (pi : Option MediaItem)
    (cs : List Source) (t : Tables) (k i : JsVal) (h : hasId t.db k i) :
    hasId (cs.foldl (secondaryStep root post pi) t).db k i := by
  induction cs generalizing t with
  | nil => exact h
  | cons c rest ih => exact ih _ (secondaryStep_hasId_mono root post pi t c k i h)

theorem foldl_secondaryStep_get (root : JsVal) (post : Post) (pi : Option MediaItem)
    (cs : List Source) (t : Tables) (k : JsVal)
    (hk : ∀ c ∈ cs, secondaryGuard root post c = true → c.id ≠ k) :
    mapGet (cs.foldl (secondaryStep root post pi) t).db k = mapGet t.db k := by
  induction cs generalizing t with
  | nil => rfl
  | cons c rest ih =>
    simp only [List.foldl_cons]
    rw [ih _ (fun c' hc' => hk c' (List.mem_cons_of_mem _ hc'))]
    cases hg : secondaryGuard root post c with
    | false => rw [secondaryStep_of_guard_false _ _ _ _ _ hg]
    | true =>
      rw [secondaryStep_of_guard_true _ _ _ _ _ hg]
      exact mapGet_mapSet_ne _ _ _ _ (fun h => hk c (by simp) hg h.symm)

theorem foldl_secondaryStep_establish (root : JsVal) (post : Post) (pi : Option MediaItem)
    (cs : List Source) (t : Tables) (c : Source) (hc : c ∈ cs)
    (hg : secondaryGuard root post c = true) :
    hasId (cs.foldl (secondaryStep root post pi) t).db c.id c.id ∧
      ∀ p, pi = some p → hasId (cs.foldl (secondaryStep root post pi) t).db c.id p.id := by
  induction cs generalizing t with
  | nil => simp at hc
  | cons c0 rest ih =>
    simp only [List.foldl_cons]
    rcases List.mem_cons.1 hc with rfl | hrest
    · have hstep : hasId (secondaryStep root post pi t c).db c.id c.id ∧
          ∀ p, pi = some p → hasId (secondaryStep root post pi t c).db c.id p.id := by
        rw [secondaryStep_of_guard_true _ _ _ _ _ hg]
        refine ⟨⟨_, mapGet_mapSet_self _ _ _, ?_⟩, fun p hp => ⟨_, mapGet_mapSet_self _ _ _, ?_⟩⟩
        · rw [mem_idsOf_secondaryGroup]; exact Or.inr (Or.inr rfl)
        · rw [mem_idsOf_secondaryGroup]; exact Or.inr (Or.inl ⟨p, hp, rfl⟩)
      exact ⟨foldl_secondaryStep_hasId_mono _ _ _ _ _ _ _ hstep.1,
        fun p hp => foldl_secondaryStep_hasId_mono _ _ _ _ _ _ _ (hstep.2 p hp)⟩
    · exact ih _ hrest

theorem foldl_secondaryStep_absorb (root : JsVal) (post : Post) (pi : Option MediaItem)
    (cs : List Source) (db : JsMap Media) (e : JsMap JsVal)
    (h : ∀ c ∈ cs, secondaryGuard root post c = true →
      hasId db c.id c.id ∧ ∀ p, pi = some p → hasId db c.id p.id) :
    (cs.foldl (secondaryStep root post pi) ⟨db, e⟩).db = db := by
  induction cs generalizing e with
  | nil => rfl
  | cons c rest ih =>
    simp only [List.foldl_cons]
    cases hg : secondaryGuard root post c with
    | false =>
      rw [secondaryStep_of_guard_false _ _ _ _ _ hg]
      exact ih e (fun c' hc' => h c' (List.mem_cons_of_mem _ hc'))
    | true =>
      rw [secondaryStep_of_guard_true _ _ _ _ _ hg]
      obtain ⟨⟨m, hm, hcm⟩, hp⟩ := h c (by simp) hg
      have hpm : ∀ p, pi = some p → p.id ∈ idsOf m.object := by
        intro p hpp
        obtain ⟨m', hm', hi⟩ := hp p hpp
        rw [hm] at hm'
        cases hm'
        exact hi
      have hgrp : secondaryGroup post pi db c = m :=
        secondaryGroup_eq_of_covered post pi db c m hm hcm hpm
      simp only [hgrp, mapSet_eq_self db c.id m hm]
      exact ih _ (fun c' hc' => h c' (List.mem_cons_of_mem _ hc'))

theorem foldl_secondaryStep_edges (root : JsVal) (post : Post) (pi : Option MediaItem)
    (cs : List Source) (t : Tables) :
    (cs.foldl (secondaryStep root post pi) t).edges =
      applySets t.edges ((cs.filter (secondaryGuard root post)).map fun c => (c.id, post.id)) := by
  induction cs generalizing t with
  | nil => rfl
  | cons c rest ih =>
    simp only [List.foldl_cons, ih]
    cases hg : secondaryGuard root post c with
    | false => rw [secondaryStep_of_guard_false _ _ _ _ _ hg]; simp [List.filter, hg]
    | true =>
      rw [secondaryStep_of_guard_true _ _ _ _ _ hg]
      simp [List.filter, hg, applySets]

theorem processPost_eq (root : JsVal) (t : Tables) (post : Post) :
    processPost root t post =
      if truthy post.id then
        if (targetMedia root t.db post).object.length > 0 then
          { afterSecondary root t post with
            db := mapSet (afterSecondary root t post).db (jsOr root post.id)
              (targetMedia root t.db post) }
        else afterSecondary root t post
      else t := by
  cases hid : truthy post.id with
  | false => simp [processPost, hid]
  | true =>
    simp only [processPost, hid, Bool.not_true, Bool.false_eq_true, if_false, if_true,
      foldl_processChild, targetMedia, afterSecondary, derivatives, List.foldl_append, parentImage]

theorem secondaryGuard_ne_target (root : JsVal) (post : Post) (c : Source)
    (h : secondaryGuard root post c = true) : c.id ≠ jsOr root post.id := by
  simp only [secondaryGuard, Bool.and_eq_true, Bool.not_eq_true', bne_iff_ne, ne_eq] at h
  simp only [jsOr, h.1.1, Bool.false_eq_true, if_false]
  exact h.2

theorem afterSecondary_get_target (root : JsVal) (t : Tables) (post : Post) :
    mapGet (afterSecondary root t post).db (jsOr root post.id) = mapGet t.db (jsOr root post.id) :=
  foldl_secondaryStep_get root post _ _ t _ (fun c _ hg => secondaryGuard_ne_target root post c hg)

theorem mem_idsOf_targetMedia (root : JsVal) (db : JsMap Media) (post : Post) (i : JsVal) :
    i ∈ idsOf (targetMedia root db post).object ↔
      (∃ m, mapGet db (jsOr root post.id) = some m ∧ i ∈ idsOf m.object) ∨
      (truthy post.mediaUrl = true ∧ i = post.id) ∨ i ∈ (derivatives post).map (·.id) := by
  simp only [targetMedia, mem_idsOf_foldl_pushChild]
  cases hu : truthy post.mediaUrl <;> cases hg : mapGet db (jsOr root post.id) <;>
    simp [mem_idsOf_pushIfNew, createMediaObject_id, idsOf_nil, or_assoc]

theorem targetMedia_eq_self (root : JsVal) (db : JsMap Media) (post : Post) (m : Media)
    (hm : mapGet db (jsOr root post.id) = some m)
    (hu : truthy post.mediaUrl = true → post.id ∈ idsOf m.object)
    (hc : ∀ c ∈ derivatives post, c.id ∈ idsOf m.object) :
    targetMedia root db post = m := by
  simp only [targetMedia, hm, Option.getD_some]
  cases hmu : truthy post.mediaUrl with
  | false => simpa using foldl_pushChild_eq_self post _ m hc
  | true =>
    simp only [if_true]
    rw [pushIfNew_of_mem _ _ (by simpa [createMediaObject_id] using hu hmu)]
    exact foldl_pushChild_eq_self post _ m hc

theorem targetMedia_object_nil (root : JsVal) (db : JsMap Media) (post : Post)
    (hm : mapGet db (jsOr root post.id) = none) (hu : truthy post.mediaUrl = false)
    (hc : derivatives post = []) : (targetMedia root db post).object = [] := by
  simp [targetMedia, hm, hu, hc]

/-- Ingesting a subject never removes an id from a Group. -/
theorem processPost_hasId_mono (root : JsVal) (t : Tables) (post : Post) (k i : JsVal)
    (h : hasId t.db k i) : hasId (processPost root t post).db k i := by
  rw [processPost_eq]
  cases hid : truthy post.id with
  | false => simpa using h
  | true =>
    have h' : hasId (afterSecondary root t post).db k i :=
      foldl_secondaryStep_hasId_mono _ _ _ _ _ _ _ h
    simp only [if_true]
    split
    · apply hasId_mapSet_of_superset _ _ _ _ _ _ h'
      intro m hm j hj
      rw [afterSecondary_get_target] at hm
      rw [mem_idsOf_targetMedia]
      exact Or.inl ⟨m, hm, hj⟩
    · exact h'

theorem foldl_processPost_hasId_mono (root : JsVal) (posts : List Post) (t : Tables) (k i : JsVal)
    (h : hasId t.db k i) : hasId (posts.foldl (processPost root) t).db k i := by
  induction posts generalizing t with
  | nil => exact h
  | cons p rest ih => exact ih _ (processPost_hasId_mono root t p k i h)

theorem parentImage_some (post : Post) (p : MediaItem) (h : parentImage post = some p) :
    truthy post.mediaUrl = true ∧ p.id = post.id := by
  unfold parentImage at h
  split at h
  · rename_i hu
    cases h
    exact ⟨hu, rfl⟩
  · cases h

theorem parentImage_of_truthy (post : Post) (h : truthy post.mediaUrl = true) :
    parentImage post = some (createMediaObject post.toSource none) := by
  simp [parentImage, h]

/-- After `processPost`, the table covers the subject just ingested. -/
theorem processPost_covers (root : JsVal) (t : Tables) (post : Post)
    (hid : truthy post.id = true) : Covers (processPost root t post).db root post := by
  have htarget : ∀ i, i ∈ idsOf (targetMedia root t.db post).object →
      hasId (processPost root t post).db (jsOr root post.id) i := by
    intro i hi
    rw [processPost_eq]
    have hlen : (targetMedia root t.db post).object.length > 0 := by
      cases hobj : (targetMedia root t.db post).object with
      | nil => rw [hobj] at hi; simp [idsOf] at hi
      | cons a l => simp
    simp only [hid, if_true, hlen]
    exact ⟨_, mapGet_mapSet_self _ _ _, hi⟩
  have hsec : ∀ k i, hasId (afterSecondary root t post).db k i →
      hasId (processPost root t post).db k i := by
    intro k i h
    rw [processPost_eq]
    simp only [hid, if_true]
    split
    · apply hasId_mapSet_of_superset _ _ _ _ _ _ h
      intro m hm j hj
      rw [afterSecondary_get_target] at hm
      rw [mem_idsOf_targetMedia]
      exact Or.inl ⟨m, hm, hj⟩
    · exact h
  refine ⟨fun hu => htarget _ ?_, fun c hc => htarget _ ?_, fun c hc hg => ⟨hsec _ _ ?_, fun hu => hsec _ _ ?_⟩⟩
  · rw [mem_idsOf_targetMedia]; exact Or.inr (Or.inl ⟨hu, rfl⟩)
  · rw [mem_idsOf_targetMedia]; exact Or.inr (Or.inr (List.mem_map.2 ⟨c, hc, rfl⟩))
  · exact (foldl_secondaryStep_establish root post _ _ t c hc hg).1
  · have := (foldl_secondaryStep_establish root post (parentImage post) _ t c hc hg).2
      _ (parentImage_of_truthy post hu)
    simpa [createMediaObject_id] using this

/-- A table that covers a subject is left as it is by `processPost` on that subject. -/
theorem processPost_absorb (root : JsVal) (db : JsMap Media) (e : JsMap JsVal) (post : Post)
    (h : Covers db root post) : (processPost root ⟨db, e⟩ post).db = db := by
  obtain ⟨h1, h2, h3⟩ := h
  have hsec : (afterSecondary root ⟨db, e⟩ post).db = db := by
    apply foldl_secondaryStep_absorb
    intro c hc hg
    refine ⟨(h3 c hc hg).1, fun p hp => ?_⟩
    obtain ⟨hu, hpid⟩ := parentImage_some post p hp
    rw [hpid]
    exact (h3 c hc hg).2 hu
  rw [processPost_eq]
  cases hid : truthy post.id with
  | false => simp
  | true =>
    simp only [if_true, hsec]
    cases hm : mapGet db (jsOr root post.id) with
    | none =>
      have hu : truthy post.mediaUrl = false := by
        rw [Bool.eq_false_iff]
        intro hu
        obtain ⟨m, hm', _⟩ := h1 hu
        rw [hm] at hm'
        cases hm'
      have hd : derivatives post = [] := by
        cases hd : derivatives post with
        | nil => rfl
        | cons c l =>
          obtain ⟨m, hm', _⟩ := h2 c (by simp [hd])
          rw [hm] at hm'
          cases hm'
      simp [targetMedia_object_nil root db post hm hu hd, hsec]
    | some m =>
      have hT : targetMedia root db post = m := by
        apply targetMedia_eq_self root db post m hm
        · intro hu
          obtain ⟨m', hm', hi⟩ := h1 hu
          rw [hm] at hm'
          cases hm'
          exact hi
        · intro c hc
          obtain ⟨m', hm', hi⟩ := h2 c hc
          rw [hm] at hm'
          cases hm'
          exact hi
      simp only [hT, mapSet_eq_self db _ m hm]
      split <;> simp [hsec]

theorem Covers_mono (db db' : JsMap Media) (root : JsVal) (post : Post)
    (hmono : ∀ k i, hasId db k i → hasId db' k i) (h : Covers db root post) :
    Covers db' root post :=
  ⟨fun hu => hmono _ _ (h.1 hu), fun c hc => hmono _ _ (h.2.1 c hc),
   fun c hc hg => ⟨hmono _ _ (h.2.2 c hc hg).1, fun hu => hmono _ _ ((h.2.2 c hc hg).2 hu)⟩⟩

theorem foldl_processPost_covers (root : JsVal) (posts : List Post) (t : Tables) :
    ∀ p ∈ posts, truthy p.id = true → Covers (posts.foldl (processPost root) t).db root p := by
  induction posts generalizing t with
  | nil => simp
  | cons q rest ih =>
    intro p hp hid
    simp only [List.foldl_cons]
    rcases List.mem_cons.1 hp with rfl | hrest
    · exact Covers_mono _ _ root p (fun k i h => foldl_processPost_hasId_mono root rest _ k i h)
        (processPost_covers root t p hid)
    · exact ih _ p hrest hid

theorem foldl_processPost_absorb (root : JsVal) (posts : List Post) (db : JsMap Media)
    (e : JsMap JsVal) (h : ∀ p ∈ posts, truthy p.id = true → Covers db root p) :
    (posts.foldl (processPost root) ⟨db, e⟩).db = db := by
  induction posts generalizing e with
  | nil => rfl
  | cons q rest ih =>
    simp only [List.foldl_cons]
    have hq : (processPost root ⟨db, e⟩ q).db = db := by
      cases hid : truthy q.id with
      | false => simp [processPost, hid]
      | true => exact processPost_absorb root db e q (h q (by simp) hid)
    have : processPost root ⟨db, e⟩ q = ⟨db, (processPost root ⟨db, e⟩ q).edges⟩ := by
      cases hpq : processPost root ⟨db, e⟩ q with
      | mk d' e' =>
        rw [hpq] at hq
        simp only at hq
        simp [hq]
    rw [this]
    exact ih _ (fun p hp => h p (List.mem_cons_of_mem _ hp))

theorem applySets_append {V : Type} (m : JsMap V) (a b : List (JsVal × V)) :
    applySets m (a ++ b) = applySets (applySets m a) b := by
  simp [applySets, List.foldl_append]

theorem applySets_cons {V : Type} (m : JsMap V) (kv : JsVal × V) (ops : List (JsVal × V)) :
    applySets m (kv :: ops) = applySets (mapSet m kv.1 kv.2) ops := rfl

theorem applySets_get_ne_none {V : Type} (m : JsMap V) (ops : List (JsVal × V)) (k : JsVal)
    (h : mapGet m k ≠ none) : mapGet (applySets m ops) k ≠ none := by
  induction ops generalizing m with
  | nil => exact h
  | cons kv rest ih =>
    rw [applySets_cons]
    exact ih _ (mapGet_mapSet_ne_none m kv.1 k kv.2 h)

theorem applySets_keys {V : Type} (m : JsMap V) (ops : List (JsVal × V)) :
    ∀ op ∈ ops, mapGet (applySets m ops) op.1 ≠ none := by
  induction ops generalizing m with
  | nil => simp
  | cons kv rest ih =>
    intro op hop
    rw [applySets_cons]
    rcases List.mem_cons.1 hop with rfl | hrest
    · exact applySets_get_ne_none _ _ _ (by simp [mapGet_mapSet_self])
    · exact ih _ op hrest

theorem applySets_set_absorb {V : Type} (ops : List (JsVal × V)) (m : JsMap V) (k : JsVal)
    (v : V) (h : ∀ op ∈ ops, mapGet m op.1 ≠ none) :
    mapSet (applySets (mapSet m k v) ops) k v = mapSet (applySets m ops) k v := by
  induction ops generalizing m with
  | nil => simp [applySets, mapSet_mapSet_same]
  | cons kv rest ih =>
    simp only [applySets_cons]
    by_cases hk : k = kv.1
    · subst hk
      rw [mapSet_mapSet_same]
    · rw [mapSet_comm m k kv.1 v kv.2 hk (h kv (by simp))]
      exact ih _ (fun op hop => mapGet_mapSet_ne_none _ _ _ _ (h op (List.mem_cons_of_mem _ hop)))

/-- Replaying a sequence of `set` calls on its own result changes nothing. -/
theorem applySets_idem {V : Type} (ops : List (JsVal × V)) (m : JsMap V) :
    applySets (applySets m ops) ops = applySets m ops := by
  induction ops using List.reverseRecOn generalizing m with
  | nil => rfl
  | append_singleton ops kv ih =>
    have h1 : applySets m (ops ++ [kv]) = mapSet (applySets m ops) kv.1 kv.2 := by
      simp [applySets, List.foldl_append]
    rw [h1, applySets_append]
    have h2 : ∀ m' : JsMap V, applySets m' [kv] = mapSet m' kv.1 kv.2 := fun _ => rfl
    rw [h2, applySets_set_absorb ops (applySets m ops) kv.1 kv.2 (applySets_keys m ops), ih]

theorem processPost_edges (root : JsVal) (t : Tables) (post : Post) :
    (processPost root t post).edges = applySets t.edges (edgeOpsPost root post) := by
  rw [processPost_eq]
  cases hid : truthy post.id with
  | false => simp [edgeOpsPost, hid, applySets]
  | true =>
    have : (afterSecondary root t post).edges = applySets t.edges (edgeOpsPost root post) := by
      simp [afterSecondary, foldl_secondaryStep_edges, edgeOpsPost, hid]
    simp only [if_true]
    split <;> exact this

theorem foldl_processPost_edges (root : JsVal) (posts : List Post) (t : Tables) :
    (posts.foldl (processPost root) t).edges = applySets t.edges (edgeOps root posts) := by
  induction posts generalizing t with
  | nil => rfl
  | cons p rest ih =>
    simp only [List.foldl_cons, ih, processPost_edges, edgeOps, applySets_append]

/-- The tables after a second `ingest` of the same posts list are those after the first. -/
theorem ingest_idem (root : JsVal) (t : Tables) (posts : List Post) :
    ingest root (ingest root t posts) posts = ingest root t posts := by
  have hcov : ∀ p ∈ posts, truthy p.id = true →
      Covers (dedupTable (posts.foldl (processPost root) t).db) root p := fun p hp hid =>
    Covers_mono _ _ root p (fun k i h => hasId_dedupTable _ k i h)
      (foldl_processPost_covers root posts t p hp hid)
  have hdb : (posts.foldl (processPost root) (ingest root t posts)).db =
      dedupTable (posts.foldl (processPost root) t).db :=
    foldl_processPost_absorb root posts _ _ hcov
  have hed : (posts.foldl (processPost root) (ingest root t posts)).edges =
      (posts.foldl (processPost root) t).edges := by
    rw [foldl_processPost_edges, foldl_processPost_edges]
    simp only [ingest, foldl_processPost_edges]
    exact applySets_idem _ _
  have h2 : dedupTable (dedupTable (posts.foldl (processPost root) t).db) =
      dedupTable (posts.foldl (processPost root) t).db :=
    dedupTable_eq_self _ (dedupTable_groupsDedup _)
  show ({ (posts.foldl (processPost root) (ingest root t posts)) with
      db := dedupTable (posts.foldl (processPost root) (ingest root t posts)).db } : Tables) = _
  rw [hdb, h2]
  simp only [ingest, hed]
  congr 1

theorem processApiData_twice (s : State) (apiData : Option ApiData) :
    processApiData (processApiData s apiData) apiData = processApiData s apiData := by
  cases hp : apiData.bind (·.posts) with
  | none => simp [processApiData, hp]
  | some posts =>
    have h := ingest_idem s.rootPostPageId ⟨s.mediaDatabase, s.childToParentMap⟩ posts
    simp only [processApiData, hp, saveMediaDatabase, h, mapSet_mapSet_same]

theorem filter_mapSet_ne {V : Type} (m : JsMap V) (k : JsVal) (v : V) :
    (mapSet m k v).filter (fun kv => decide (kv.1 ≠ k)) = m.filter fun kv => decide (kv.1 ≠ k) := by
  induction m with
  | nil => simp [mapSet]
  | cons kv rest ih =>
    obtain ⟨k0, v0⟩ := kv
    by_cases h0 : k0 = k
    · simp [mapSet, h0]
    · simp only [mapSet, h0, if_false, List.filter_cons, ih]

theorem filter_dedupTable (db : JsMap Media) (k : JsVal) :
    (dedupTable db).filter (fun kv => decide (kv.1 ≠ k)) =
      dedupTable (db.filter fun kv => decide (kv.1 ≠ k)) := by
  simp only [dedupTable, List.filter_map]
  rfl

theorem secondaryGuard_pinned (root : JsVal) (post : Post) (c : Source)
    (h : truthy root = true) : secondaryGuard root post c = false := by
  simp [secondaryGuard, h]

theorem afterSecondary_pinned (root : JsVal) (t : Tables) (post : Post)
    (h : truthy root = true) : afterSecondary root t post = t := by
  unfold afterSecondary
  generalize derivatives post = cs
  induction cs with
  | nil => rfl
  | cons c rest ih =>
    simp only [List.foldl_cons,
      secondaryStep_of_guard_false _ _ _ _ _ (secondaryGuard_pinned root post c h), ih]

theorem jsOr_of_truthy (a b : JsVal) (h : truthy a = true) : jsOr a b = a := by
  simp [jsOr, h]

theorem processPost_pinned (root : JsVal) (t : Tables) (post : Post) (h : truthy root = true) :
    (processPost root t post).edges = t.edges ∧
    (processPost root t post).db.filter (fun kv => decide (kv.1 ≠ root)) =
      t.db.filter fun kv => decide (kv.1 ≠ root) := by
  rw [processPost_eq, afterSecondary_pinned root t post h, jsOr_of_truthy _ _ h]
  split
  · split
    · exact ⟨rfl, filter_mapSet_ne _ _ _⟩
    · exact ⟨rfl, rfl⟩
  · exact ⟨rfl, rfl⟩

theorem foldl_processPost_pinned (root : JsVal) (posts : List Post) (t : Tables)
    (h : truthy root = true) :
    (posts.foldl (processPost root) t).edges = t.edges ∧
    (posts.foldl (processPost root) t).db.filter (fun kv => decide (kv.1 ≠ root)) =
      t.db.filter fun kv => decide (kv.1 ≠ root) := by
  induction posts generalizing t with
  | nil => exact ⟨rfl, rfl⟩
  | cons p rest ih =>
    simp only [List.foldl_cons]
    obtain ⟨h1, h2⟩ := ih (processPost root t p)
    obtain ⟨h3, h4⟩ := processPost_pinned root t p h
    exact ⟨h1.trans h3, h2.trans h4⟩

theorem GroupsDedup_filter (db : JsMap Media) (p : JsVal × Media → Bool) (h : GroupsDedup db) :
    GroupsDedup (db.filter p) := fun km hkm => h km (List.mem_of_mem_filter hkm)

/-! ## Lemmas on the backlog -/

theorem backlog_foldl (d : JsSet) (l : List MediaItem) (items : List MediaItem) (seen : JsSet) :
    l.foldl (backlogStep d) (items, seen) =
      (items ++ firstById seen (l.filter (notCompleted d)),
       seen ++ idsOf (firstById seen (l.filter (notCompleted d)))) := by
  induction l generalizing items seen with
  | nil => simp [firstById, idsOf]
  | cons x rest ih =>
    by_cases hd : x.id ∈ d
    · simp [List.foldl_cons, backlogStep, setHas, hd, ih, List.filter, notCompleted]
    · by_cases hs : x.id ∈ seen
      · simp [List.foldl_cons, backlogStep, setHas, hd, hs, ih, List.filter, firstById,
          notCompleted]
      · have hc : firstById (seen ++ [x.id]) (rest.filter (notCompleted d)) =
            firstById (x.id :: seen) (rest.filter (notCompleted d)) :=
          firstById_congr _ _ _ (fun y => by simp [or_comm])
        simp [List.foldl_cons, backlogStep, setHas, setAdd, hd, hs, ih, List.filter, firstById,
          hc, idsOf, notCompleted]

theorem firstById_append (seen : List JsVal) (a b : List MediaItem) :
    firstById seen (a ++ b) = firstById seen a ++ firstById (seen ++ idsOf (firstById seen a)) b := by
  induction a generalizing seen with
  | nil => simp [firstById, idsOf]
  | cons x rest ih =>
    by_cases hx : x.id ∈ seen
    · simp [firstById, hx, ih]
    · have hc : firstById (seen ++ x.id :: idsOf (firstById (x.id :: seen) rest)) b =
          firstById (x.id :: seen ++ idsOf (firstById (x.id :: seen) rest)) b :=
        firstById_congr _ _ _ (fun y => by simp [or_comm, or_left_comm])
      simp [firstById, hx, ih, idsOf] 
      simpa [idsOf] using hc.symm

theorem backlog_foldl_table (d : JsSet) (db : JsMap Media) (items : List MediaItem) (seen : JsSet) :
    db.foldl (fun acc km => km.2.object.foldl (backlogStep d) acc) (items, seen) =
      (items ++ firstById seen ((allMembers db).filter (notCompleted d)),
       seen ++ idsOf (firstById seen ((allMembers db).filter (notCompleted d)))) := by
  induction db generalizing items seen with
  | nil => simp [allMembers, firstById, idsOf]
  | cons km rest ih =>
    simp only [List.foldl_cons, backlog_foldl, ih, allMembers, List.filter_append,
      firstById_append, List.append_assoc, idsOf, List.map_append]

theorem promptSession_foldl (dis : JsSet) (images : JsMap MediaItem) (items : List MediaItem) :
    images.foldl (fun items kv => if !setHas dis kv.1 then items ++ [kv.2] else items) items =
      items ++ (images.filter fun kv => !setHas dis kv.1).map (·.2) := by
  induction images generalizing items with
  | nil => simp
  | cons kv rest ih =>
    cases h : setHas dis kv.1 <;>
      simp only [List.foldl_cons, List.filter_cons, h, Bool.not_false, Bool.not_true, ↓reduceIte,
        Bool.false_eq_true, ih, List.map_cons, List.append_assoc, List.singleton_append]

theorem getPromptSessionUndownloaded_eq (s : State) :
    getPromptSessionUndownloaded s =
      (s.promptSessionData.images.filter
        fun kv => !setHas s.promptSessionData.downloadedInSession kv.1).map (·.2) := by
  unfold getPromptSessionUndownloaded
  rw [promptSession_foldl, List.nil_append]

theorem getUndownloadedItems_prompt (s : State)
    (h : isPromptLikePage (detectPageType s.pathname) = true) :
    getUndownloadedItems s =
      (s.promptSessionData.images.filter
        fun kv => !setHas s.promptSessionData.downloadedInSession kv.1).map (·.2) := by
  simp [getUndownloadedItems, h, getPromptSessionUndownloaded_eq]

/-- Outside the prompt-like pages the backlog is the first occurrence of each id among the
members in scope that are not completed. -/
theorem getUndownloadedItems_store (s : State)
    (h : isPromptLikePage (detectPageType s.pathname) = false) :
    getUndownloadedItems s = firstById [] ((scopeOf s).filter (notCompleted s.downloadedIds)) := by
  simp only [getUndownloadedItems, scopeOf, h, Bool.false_eq_true, if_false]
  split
  · cases hm : mapGet s.mediaDatabase (jsOr s.rootPostPageId s.currentPostPageId) with
    | none => simp [firstById]
    | some m => simp [backlog_foldl]
  · simp [backlog_foldl_table]

theorem mem_filter_notCompleted (d : JsSet) (l : List MediaItem) (x : MediaItem) :
    x ∈ l.filter (notCompleted d) ↔ x ∈ l ∧ x.id ∉ d := by
  simp [List.mem_filter, notCompleted, setHas]

theorem backlog_props (d : JsSet) (l : List MediaItem) :
    (idsOf (firstById [] (l.filter (notCompleted d)))).Nodup ∧
    (∀ x ∈ firstById [] (l.filter (notCompleted d)), x.id ∉ d ∧ x ∈ l) ∧
    (∀ a ∈ l, a.id ∉ d → a.id ∈ idsOf (firstById [] (l.filter (notCompleted d)))) := by
  refine ⟨firstById_nodup _ _, ?_, ?_⟩
  · intro x hx
    have := (firstById_sublist _ _).subset hx
    rw [mem_filter_notCompleted] at this
    exact ⟨this.2, this.1⟩
  · intro a ha hd
    apply firstById_mem_ids _ _ _ _ (by simp)
    exact List.mem_map.2 ⟨a, (mem_filter_notCompleted d l a).2 ⟨ha, hd⟩, rfl⟩

theorem session_props (images : JsMap MediaItem) (dis : JsSet)
    (hn : (images.map (·.1)).Nodup) (hk : ∀ kv ∈ images, kv.2.id = kv.1) :
    (idsOf ((images.filter fun kv => !setHas dis kv.1).map (·.2))).Nodup ∧
    (∀ x ∈ (images.filter fun kv => !setHas dis kv.1).map (·.2),
        x.id ∉ dis ∧ x ∈ images.map (·.2)) ∧
    (∀ a ∈ images.map (·.2), a.id ∉ dis →
        a.id ∈ idsOf ((images.filter fun kv => !setHas dis kv.1).map (·.2))) := by
  have hids : idsOf ((images.filter fun kv => !setHas dis kv.1).map (·.2)) =
      (images.filter fun kv => !setHas dis kv.1).map (·.1) := by
    simp only [idsOf, List.map_map]
    apply List.map_congr_left
    intro kv hkv
    exact hk kv (List.mem_of_mem_filter hkv)
  refine ⟨?_, ?_, ?_⟩
  · rw [hids]
    exact (List.filter_sublist _).map _ |>.nodup hn
  · intro x hx
    obtain ⟨kv, hkv, rfl⟩ := List.mem_map.1 hx
    have hmem := List.mem_of_mem_filter hkv
    have hp := List.of_mem_filter hkv
    refine ⟨?_, List.mem_map.2 ⟨kv, hmem, rfl⟩⟩
    rw [hk kv hmem]
    simpa [setHas] using hp
  · intro a ha hd
    obtain ⟨kv, hkv, rfl⟩ := List.mem_map.1 ha
    rw [hids]
    refine List.mem_map.2 ⟨kv, List.mem_filter.2 ⟨hkv, ?_⟩, (hk kv hkv).symm⟩
    rw [hk kv hkv] at hd
    simpa [setHas] using hd

/-- The backlog on either path: distinct ids, none completed, every in-scope id that is not
completed is present, and only in-scope Assets. -/
theorem getUndownloadedItems_props (s : State) (hwf : SessionWF s.promptSessionData) :
    ((getUndownloadedItems s).map (·.id)).Nodup ∧
    (∀ x ∈ getUndownloadedItems s, x.id ∉ completedOf s) ∧
    (∀ a ∈ scopeOf s, a.id ∉ completedOf s → a.id ∈ (getUndownloadedItems s).map (·.id)) ∧
    (∀ x ∈ getUndownloadedItems s, x ∈ scopeOf s) := by
  cases hp : isPromptLikePage (detectPageType s.pathname) with
  | true =>
    obtain ⟨h1, h2, h3⟩ := session_props s.promptSessionData.images
      s.promptSessionData.downloadedInSession hwf.1 hwf.2
    rw [getUndownloadedItems_prompt s hp]
    simp only [completedOf, scopeOf, hp, if_true]
    exact ⟨h1, fun x hx => (h2 x hx).1, h3, fun x hx => (h2 x hx).2⟩
  | false =>
    obtain ⟨h1, h2, h3⟩ := backlog_props s.downloadedIds (scopeOf s)
    rw [getUndownloadedItems_store s hp]
    simp only [completedOf, hp, Bool.false_eq_true, if_false]
    exact ⟨h1, fun x hx => (h2 x hx).1, h3, fun x hx => (h2 x hx).2⟩

/-! ## Lemmas on the bulk run -/

theorem markPromptSessionDownloaded_eq (s : State) (id : JsVal) (now : JsString) :
    markPromptSessionDownloaded s id now =
      { s with promptSessionData := markSession s.promptSessionData id now } := by
  unfold markPromptSessionDownloaded markSession
  simp only
  cases mapGet s.promptSessionData.images id <;> rfl

theorem getElem?_append_length {α : Type} (pre : List α) (x : α) :
    (pre ++ [x])[pre.length]? = some x := by
  simp

theorem modify_append_length {α : Type} (pre : List α) (x : α) (f : α → α) :
    (pre ++ [x]).modify f pre.length = pre ++ [f x] := by
  induction pre with
  | nil => rfl
  | cons a l ih => simp [List.modify_succ_cons, ih]

theorem step_deliver (s0 : State) (b : Book) (cancel : Bool) (pre : List Run)
    (items : List MediaItem) (p : Bool) (c f j : Nat) (item : MediaItem)
    (reqs : List Request) (reps : List (Nat × Report)) (o : Outcome) (now : JsString)
    (hitem : items[j]? = some item) :
    step (runState s0 b true cancel (pre ++ [⟨items, p, c, f⟩]) [(pre.length, j)] [] reqs reps)
        (Event.deliver 0 o now) =
      runState s0 (settle p b item (o, now)) true cancel
        (pre ++ [⟨items, p, c + completedInc p o, f + failedInc p o⟩]) []
        [Timer.next pre.length (j + 1)] reqs reps := by
  cases p <;> cases o <;>
    simp [step, runState, onOutcome, hitem, downloadFile, scheduleNext, incCompleted, incFailed,
      markAsDownloaded, saveDownloadedIds, settle, completedInc, failedInc,
      modify_append_length, markPromptSessionDownloaded_eq]


theorem step_fire_next (s0 : State) (b : Book) (pre : List Run)
    (items : List MediaItem) (p : Bool) (c f j : Nat) (item : MediaItem)
    (reqs : List Request) (reps : List (Nat × Report))
    (hitem : items[j]? = some item) :
    step (runState s0 b true false (pre ++ [⟨items, p, c, f⟩]) []
        [Timer.next pre.length j] reqs reps) (Event.fire 0) =
      runState s0 b true false (pre ++ [⟨items, p, c, f⟩]) [(pre.length, j)] []
        (reqs ++ [requestOf pre.length j item]) reps := by
  have hlt : j < items.length := by
    rcases Nat.lt_or_ge j items.length with h | h
    · exact h
    · rw [List.getElem?_eq_none h] at hitem; cases hitem
  simp [step, runState, downloadNext, hitem, requestOf, Nat.not_le.2 hlt]

theorem step_fire_end (s0 : State) (b : Book) (pre : List Run)
    (items : List MediaItem) (p : Bool) (c f j : Nat)
    (reqs : List Request) (reps : List (Nat × Report)) (hj : items.length ≤ j) :
    step (runState s0 b true false (pre ++ [⟨items, p, c, f⟩]) []
        [Timer.next pre.length j] reqs reps) (Event.fire 0) =
      runState s0 b false false (pre ++ [⟨items, p, c, f⟩]) [] [Timer.report pre.length]
        reqs reps := by
  simp [step, runState, downloadNext, hj]

theorem step_fire_cancelled (s0 : State) (b : Book) (pre : List Run)
    (items : List MediaItem) (p : Bool) (c f j : Nat)
    (reqs : List Request) (reps : List (Nat × Report)) :
    step (runState s0 b true true (pre ++ [⟨items, p, c, f⟩]) []
        [Timer.next pre.length j] reqs reps) (Event.fire 0) =
      runState s0 b false false (pre ++ [⟨items, p, c, f⟩]) [] [] reqs
        (reps ++ [(pre.length, Report.cancelled c items.length)]) := by
  simp [step, runState, downloadNext]

theorem step_fire_report (s0 : State) (b : Book) (pre : List Run)
    (items : List MediaItem) (p : Bool) (c f : Nat)
    (reqs : List Request) (reps : List (Nat × Report)) :
    step (runState s0 b false false (pre ++ [⟨items, p, c, f⟩]) []
        [Timer.report pre.length] reqs reps) (Event.fire 0) =
      runState s0 b false false (pre ++ [⟨items, p, c, f⟩]) [] [] reqs
        (reps ++ [(pre.length, if f > 0 then Report.doneFailed f else Report.allDone)]) := by
  simp [step, runState, reportDone]

theorem step_click_running (s0 : State) (b : Book) (cancel : Bool) (runs : List Run)
    (downloads : List (Nat × Nat)) (timers : List Timer)
    (reqs : List Request) (reps : List (Nat × Report)) :
    step (runState s0 b true cancel runs downloads timers reqs reps) Event.click =
      runState s0 b true true runs downloads timers reqs reps := by
  simp [step, runState, handleDownloadButtonClick]

theorem getUndownloadedItems_runState (s0 : State) (b : Book) (running cancel : Bool)
    (runs : List Run) (downloads : List (Nat × Nat)) (timers : List Timer)
    (reqs : List Request) (reps : List (Nat × Report)) :
    getUndownloadedItems (runState s0 b running cancel runs downloads timers reqs reps) =
      getUndownloadedItems
        { s0 with downloadedIds := b.downloadedIds, promptSessionData := b.session } := rfl

/-- The state right after `startDownloadAll` on an idle state with a non-empty backlog and no
pending callback: the first request is pending. -/
theorem startDownloadAll_eq (s0 : State) (item : MediaItem) (rest : List MediaItem)
    (hidle : s0.isDownloadingAll = false) (hd : s0.downloads = []) (ht : s0.timers = [])
    (hitems : getUndownloadedItems s0 = item :: rest) :
    startDownloadAll s0 =
      runState s0 (Book.ofState s0) true false
        (s0.runs ++ [⟨item :: rest, isPromptLikePage (detectPageType s0.pathname), 0, 0⟩])
        [(s0.runs.length, 0)] [] (s0.requests ++ [requestOf s0.runs.length 0 item])
        s0.reports := by
  simp [startDownloadAll, hitems, hidle, downloadNext, runState, Book.ofState, hd, ht, requestOf]


theorem settleAll_nil (p : Bool) (b : Book) (items : List MediaItem) :
    settleAll p b items [] = b := by
  cases items <;> rfl

theorem runEvents_cons (s : State) (e : Event) (es : List Event) :
    runEvents s (e :: es) = runEvents (step s e) es := rfl

theorem runEvents_append (s : State) (es es' : List Event) :
    runEvents s (es ++ es') = runEvents (runEvents s es) es' := by
  simp [runEvents, List.foldl_append]

/-- A run that is left alone, from the moment the request for item `j` is pending, through
the outcomes `os` of the items `j`, `j + 1`, ... -/
theorem runEvents_runScript (s0 : State) (pre : List Run) (items : List MediaItem) (p : Bool)
    (reps : List (Nat × Report)) (os : List (Outcome × JsString)) :
    ∀ (b : Book) (c f j : Nat) (reqs : List Request),
      j < items.length → j + os.length ≤ items.length →
      runEvents (runState s0 b true false (pre ++ [⟨items, p, c, f⟩]) [(pre.length, j)] []
          reqs reps) (runScript os) =
        runState s0 (settleAll p b (items.drop j) os) (decide (j + os.length < items.length))
          false (pre ++ [⟨items, p, completedAfter p c os, failedAfter p f os⟩])
          (if j + os.length < items.length then [(pre.length, j + os.length)] else [])
          (if j + os.length < items.length then [] else [Timer.report pre.length])
          (reqs ++ requestsFrom pre.length (j + 1) ((items.drop (j + 1)).take os.length))
          reps := by
  induction os with
  | nil =>
    intro b c f j reqs hj _
    simp [runScript, runEvents, settleAll_nil, hj, completedAfter, failedAfter, requestsFrom]
  | cons o os ih =>
    intro b c f j reqs hj hlen
    have hitem : items[j]? = some items[j] := List.getElem?_eq_getElem hj
    have hdrop : items.drop j = items[j] :: items.drop (j + 1) := List.drop_eq_getElem_cons hj
    simp only [runScript, runEvents_cons]
    rw [step_deliver s0 b false pre items p c f j items[j] reqs reps o.1 o.2 hitem]
    rcases Nat.lt_or_ge (j + 1) items.length with hj1 | hj1
    · have hitem1 : items[j + 1]? = some items[j + 1] := List.getElem?_eq_getElem hj1
      have hdrop1 : items.drop (j + 1) = items[j + 1] :: items.drop (j + 1 + 1) :=
        List.drop_eq_getElem_cons hj1
      rw [step_fire_next s0 _ pre items p _ _ (j + 1) items[j + 1] reqs reps hitem1]
      rw [ih _ _ _ (j + 1) _ hj1 (by simp only [List.length_cons] at hlen; omega)]
      have e : j + 1 + os.length = j + (os.length + 1) := by omega
      simp only [List.length_cons, e, hdrop, settleAll, completedAfter, failedAfter,
        List.foldl_cons, List.append_assoc, List.singleton_append]
      congr 2
      rw [hdrop1]
      simp [requestsFrom]
    · have hos : os = [] := by
        simp only [List.length_cons] at hlen
        exact List.length_eq_zero.1 (by omega)
      subst hos
      rw [step_fire_end s0 _ pre items p _ _ (j + 1) reqs reps hj1]
      have hd1 : items.drop (j + 1) = [] := List.drop_eq_nil_of_le hj1
      simp [runScript, runEvents, hdrop, settleAll, settleAll_nil, completedAfter, failedAfter,
        hd1, requestsFrom, Nat.not_lt.2 hj1]

theorem mem_setAdd (s : JsSet) (x y : JsVal) : y ∈ setAdd s x ↔ y ∈ s ∨ y = x := by
  unfold setAdd
  split
  · constructor
    · exact Or.inl
    · rintro (h | rfl)
      · exact h
      · assumption
  · simp

theorem mem_foldl_setAdd (ids : List JsVal) (s : JsSet) (y : JsVal) :
    y ∈ ids.foldl setAdd s ↔ y ∈ s ∨ y ∈ ids := by
  induction ids generalizing s with
  | nil => simp
  | cons x rest ih => simp [List.foldl_cons, ih, mem_setAdd, or_assoc]

theorem settleAll_downloadedIds (p : Bool) (b : Book) (items : List MediaItem)
    (os : List (Outcome × JsString)) :
    (settleAll p b items os).downloadedIds = (successIds items os).foldl setAdd b.downloadedIds := by
  induction items generalizing b os with
  | nil => simp [settleAll, successIds]
  | cons item rest ih =>
    cases os with
    | nil => simp [settleAll, successIds]
    | cons o os =>
      simp only [settleAll, successIds, ih]
      by_cases ho : o.1 = Outcome.success
      · simp [settle, ho]
      · simp [settle, ho]

theorem settleAll_session_standard (b : Book) (items : List MediaItem)
    (os : List (Outcome × JsString)) : (settleAll false b items os).session = b.session := by
  induction items generalizing b os with
  | nil => simp [settleAll]
  | cons item rest ih =>
    cases os with
    | nil => simp [settleAll]
    | cons o os =>
      simp only [settleAll, ih]
      by_cases ho : o.1 = Outcome.success <;> simp [settle, ho]

theorem successIds_length (items : List MediaItem) (os : List (Outcome × JsString))
    (h : os.length ≤ items.length) : (successIds items os).length = successCount os := by
  induction items generalizing os with
  | nil =>
    have : os = [] := List.length_eq_zero.1 (by simpa using h)
    subst this
    rfl
  | cons item rest ih =>
    cases os with
    | nil => rfl
    | cons o os =>
      have h' : os.length ≤ rest.length := by simpa using h
      by_cases ho : o.1 = Outcome.success
      · simp [successIds, successCount, ho, List.countP_cons]
        simpa [successCount] using ih os h'
      · simp [successIds, successCount, ho, List.countP_cons]
        simpa [successCount] using ih os h'

theorem unretrieved_length (items : List MediaItem) (os : List (Outcome × JsString))
    (h : os.length ≤ items.length) :
    (unretrieved items os).length = items.length - successCount os := by
  induction items generalizing os with
  | nil =>
    have : os = [] := List.length_eq_zero.1 (by simpa using h)
    subst this
    rfl
  | cons item rest ih =>
    cases os with
    | nil => simp [unretrieved, successCount]
    | cons o os =>
      have h' : os.length ≤ rest.length := by simpa using h
      have hc : successCount os ≤ rest.length :=
        (List.countP_le_length _).trans h'
      by_cases ho : o.1 = Outcome.success
      · simp only [unretrieved, ho, if_true, List.length_cons, successCount, List.countP_cons,
          decide_True]
        have := ih os h'
        simp only [successCount] at this hc
        omega
      · simp only [unretrieved, ho, if_false, List.length_cons, successCount, List.countP_cons,
          decide_False]
        have := ih os h'
        simp only [successCount] at this hc
        simp
        omega

/-- The state after a run that is left alone and goes through all its items. -/
theorem natural_run_eq (s : State) (item : MediaItem) (rest : List MediaItem)
    (os : List (Outcome × JsString))
    (hidle : s.isDownloadingAll = false) (hd : s.downloads = []) (ht : s.timers = [])
    (hitems : getUndownloadedItems s = item :: rest) (hlen : os.length = (item :: rest).length) :
    runEvents (startDownloadAll s) (runScript os) =
      runState s
        (settleAll (isPromptLikePage (detectPageType s.pathname)) (Book.ofState s)
          (item :: rest) os)
        false false
        (s.runs ++ [⟨item :: rest, isPromptLikePage (detectPageType s.pathname),
          completedAfter (isPromptLikePage (detectPageType s.pathname)) 0 os,
          failedAfter (isPromptLikePage (detectPageType s.pathname)) 0 os⟩])
        [] [Timer.report s.runs.length]
        (s.requests ++ requestsFrom s.runs.length 0 (item :: rest)) s.reports := by
  rw [startDownloadAll_eq s item rest hidle hd ht hitems]
  rw [runEvents_runScript s s.runs (item :: rest) _ s.reports os _ 0 0 0 _ (by simp)
    (by omega)]
  have h1 : ¬ (0 + os.length < (item :: rest).length) := by omega
  have h2 : (List.drop (0 + 1) (item :: rest)).take os.length = rest := by
    simp only [List.length_cons] at hlen
    simp [hlen]
  simp only [h1, decide_False, if_false, List.drop_zero, h2]
  simp [requestsFrom, List.append_assoc]

theorem completedAfter_standard (c : Nat) (os : List (Outcome × JsString)) :
    completedAfter false c os = c + os.length := by
  induction os generalizing c with
  | nil => rfl
  | cons o os ih =>
    simp only [completedAfter, List.foldl_cons, List.length_cons] at ih ⊢
    rw [ih]
    simp [completedInc]
    omega

theorem failedAfter_standard (f : Nat) (os : List (Outcome × JsString)) :
    failedAfter false f os = f := by
  induction os generalizing f with
  | nil => rfl
  | cons o os ih =>
    simp only [failedAfter, List.foldl_cons] at ih ⊢
    rw [ih]
    simp [failedInc]

theorem completedAfter_prompt (c : Nat) (os : List (Outcome × JsString)) :
    completedAfter true c os = c + successCount os := by
  induction os generalizing c with
  | nil => rfl
  | cons o os ih =>
    simp only [completedAfter, List.foldl_cons, successCount, List.countP_cons] at ih ⊢
    rw [ih]
    by_cases ho : o.1 = Outcome.success
    · simp [completedInc, ho]
      omega
    · simp [completedInc, ho]

theorem failedAfter_prompt (f : Nat) (os : List (Outcome × JsString)) :
    failedAfter true f os = f + failureCount os := by
  induction os generalizing f with
  | nil => rfl
  | cons o os ih =>
    simp only [failedAfter, List.foldl_cons, failureCount, List.countP_cons] at ih ⊢
    rw [ih]
    by_cases ho : o.1 = Outcome.success
    · simp [failedInc, ho]
    · simp [failedInc, ho]
      omega

/-- The state after a run that is left alone went through all its items and its 500 ms timer
has written the outcome. -/
theorem natural_run_report (s : State) (item : MediaItem) (rest : List MediaItem)
    (os : List (Outcome × JsString))
    (hidle : s.isDownloadingAll = false) (hd : s.downloads = []) (ht : s.timers = [])
    (hitems : getUndownloadedItems s = item :: rest) (hlen : os.length = (item :: rest).length) :
    (runEvents (startDownloadAll s) (runScript os ++ [Event.fire 0])).runs =
        s.runs ++ [⟨item :: rest, isPromptLikePage (detectPageType s.pathname),
          completedAfter (isPromptLikePage (detectPageType s.pathname)) 0 os,
          failedAfter (isPromptLikePage (detectPageType s.pathname)) 0 os⟩] ∧
    (runEvents (startDownloadAll s) (runScript os ++ [Event.fire 0])).reports =
        s.reports ++ [(s.runs.length,
          if failedAfter (isPromptLikePage (detectPageType s.pathname)) 0 os > 0 then
            Report.doneFailed (failedAfter (isPromptLikePage (detectPageType s.pathname)) 0 os)
          else Report.allDone)] := by
  rw [runEvents_append, natural_run_eq s item rest os hidle hd ht hitems hlen]
  simp only [runEvents, List.foldl_cons, List.foldl_nil, step_fire_report]
  exact ⟨rfl, rfl⟩

/-- On the standard path every outcome, failure or not, raises `completed`, `failed` stays 0,
and the outcome written at the end is `✓ All Done`. -/
theorem standard_path_counts (s : State) (item : MediaItem) (rest : List MediaItem)
    (os : List (Outcome × JsString))
    (hidle : s.isDownloadingAll = false) (hd : s.downloads = []) (ht : s.timers = [])
    (hstd : isPromptLikePage (detectPageType s.pathname) = false)
    (hitems : getUndownloadedItems s = item :: rest) (hlen : os.length = (item :: rest).length) :
    (runEvents (startDownloadAll s) (runScript os ++ [Event.fire 0])).runs =
        s.runs ++ [⟨item :: rest, false, os.length, 0⟩] ∧
    (runEvents (startDownloadAll s) (runScript os ++ [Event.fire 0])).reports =
        s.reports ++ [(s.runs.length, Report.allDone)] := by
  obtain ⟨h1, h2⟩ := natural_run_report s item rest os hidle hd ht hitems hlen
  rw [h1, h2, hstd, completedAfter_standard, failedAfter_standard]
  simp

/-- On the prompt path `completed` counts the successes, `failed` the failures, and the
outcome written at the end tells the number of failures. -/
theorem prompt_path_counts (s : State) (item : MediaItem) (rest : List MediaItem)
    (os : List (Outcome × JsString))
    (hidle : s.isDownloadingAll = false) (hd : s.downloads = []) (ht : s.timers = [])
    (hprompt : isPromptLikePage (detectPageType s.pathname) = true)
    (hitems : getUndownloadedItems s = item :: rest) (hlen : os.length = (item :: rest).length) :
    (runEvents (startDownloadAll s) (runScript os ++ [Event.fire 0])).runs =
        s.runs ++ [⟨item :: rest, true, successCount os, failureCount os⟩] ∧
    (runEvents (startDownloadAll s) (runScript os ++ [Event.fire 0])).reports =
        s.reports ++ [(s.runs.length,
          if failureCount os > 0 then Report.doneFailed (failureCount os) else Report.allDone)] := by
  obtain ⟨h1, h2⟩ := natural_run_report s item rest os hidle hd ht hitems hlen
  rw [h1, h2, hprompt, completedAfter_prompt, failedAfter_prompt]
  simp

theorem settleAll_snoc (p : Bool) (items : List MediaItem) (os : List (Outcome × JsString))
    (o : Outcome × JsString) (b : Book) (h : os.length < items.length) :
    settleAll p b items (os ++ [o]) =
      settle p (settleAll p b items os) items[os.length] o := by
  induction items generalizing b os with
  | nil => simp at h
  | cons item rest ih =>
    cases os with
    | nil => simp [settleAll, settleAll_nil]
    | cons o' os' =>
      have h' : os'.length < rest.length := by simpa using h
      simp only [List.cons_append, settleAll, List.length_cons, List.getElem_cons_succ]
      exact ih os' _ h'

theorem requestsFrom_take_succ (r i : Nat) (item : MediaItem) (rest : List MediaItem) (j : Nat) :
    requestOf r i item :: requestsFrom r (i + 1) (rest.take j) =
      requestsFrom r i ((item :: rest).take (j + 1)) := by
  simp [requestsFrom]

/-- The state after a cancelled run. -/
theorem cancelled_run_eq (s : State) (item : MediaItem) (rest : List MediaItem)
    (os : List (Outcome × JsString)) (o : Outcome × JsString) (inFlight : Bool)
    (hidle : s.isDownloadingAll = false) (hd : s.downloads = []) (ht : s.timers = [])
    (hitems : getUndownloadedItems s = item :: rest) (hlen : os.length < (item :: rest).length) :
    runEvents (startDownloadAll s) (cancelScript os o inFlight) =
      runState s
        (settleAll (isPromptLikePage (detectPageType s.pathname)) (Book.ofState s)
          (item :: rest) (os ++ [o]))
        false false
        (s.runs ++ [⟨item :: rest, isPromptLikePage (detectPageType s.pathname),
          completedAfter (isPromptLikePage (detectPageType s.pathname)) 0 (os ++ [o]),
          failedAfter (isPromptLikePage (detectPageType s.pathname)) 0 (os ++ [o])⟩])
        [] []
        (s.requests ++ requestsFrom s.runs.length 0 ((item :: rest).take (os.length + 1)))
        (s.reports ++ [(s.runs.length, Report.cancelled
          (completedAfter (isPromptLikePage (detectPageType s.pathname)) 0 (os ++ [o]))
          (item :: rest).length)]) := by
  have hitem : (item :: rest)[os.length]? = some (item :: rest)[os.length] :=
    List.getElem?_eq_getElem hlen
  unfold cancelScript
  rw [runEvents_append, startDownloadAll_eq s item rest hidle hd ht hitems]
  rw [runEvents_runScript s s.runs (item :: rest) _ s.reports os _ 0 0 0 _ (by simp)
    (by omega)]
  simp only [Nat.zero_add, hlen, decide_True, if_true, List.drop_zero]
  have hreq : s.requests ++ [requestOf s.runs.length 0 item] ++
      requestsFrom s.runs.length 1 ((List.drop 1 (item :: rest)).take os.length) =
      s.requests ++ requestsFrom s.runs.length 0 ((item :: rest).take (os.length + 1)) := by
    simp [requestsFrom]
  have hc : ∀ c, completedAfter (isPromptLikePage (detectPageType s.pathname)) c (os ++ [o]) =
      completedAfter (isPromptLikePage (detectPageType s.pathname)) c os +
        completedInc (isPromptLikePage (detectPageType s.pathname)) o.1 := by
    intro c; simp [completedAfter, List.foldl_append]
  have hf : ∀ c, failedAfter (isPromptLikePage (detectPageType s.pathname)) c (os ++ [o]) =
      failedAfter (isPromptLikePage (detectPageType s.pathname)) c os +
        failedInc (isPromptLikePage (detectPageType s.pathname)) o.1 := by
    intro c; simp [failedAfter, List.foldl_append]
  rw [hreq, settleAll_snoc _ _ _ _ _ hlen, hc, hf]
  cases inFlight with
  | false =>
    simp only [Bool.false_eq_true, if_false, runEvents, List.foldl_cons, List.foldl_nil]
    rw [step_deliver s _ false s.runs (item :: rest) _ _ _ os.length _ _ _ o.1 o.2 hitem]
    rw [step_click_running, step_fire_cancelled]
  | true =>
    simp only [if_true, runEvents, List.foldl_cons, List.foldl_nil]
    rw [step_click_running]
    rw [step_deliver s _ true s.runs (item :: rest) _ _ _ os.length _ _ _ o.1 o.2 hitem]
    rw [step_fire_cancelled]

theorem firstById_cons_seen (a : JsVal) (seen : List JsVal) (l : List MediaItem) :
    firstById (a :: seen) l = (firstById seen l).filter fun x => decide (x.id ≠ a) := by
  induction l generalizing seen with
  | nil => rfl
  | cons x rest ih =>
    by_cases hs : x.id ∈ seen
    · simp [firstById, hs, ih]
    · by_cases ha : x.id = a
      · subst ha
        have h1 : firstById (x.id :: seen) (x :: rest) = firstById (x.id :: seen) rest := by
          simp [firstById]
        have h2 : firstById seen (x :: rest) = x :: firstById (x.id :: seen) rest := by
          simp [firstById, hs]
        rw [h1, h2, List.filter_cons_of_neg (by simp), ih seen, List.filter_filter]
        apply List.filter_congr
        intro y _
        simp
      · have hc : firstById (x.id :: a :: seen) rest = firstById (a :: x.id :: seen) rest :=
          firstById_congr _ _ _ (fun y => by simp [or_left_comm])
        simp [firstById, hs, ha, hc, ih (x.id :: seen), List.filter_cons]

theorem firstById_filter_ids (q : JsVal → Bool) (seen : List JsVal) (l : List MediaItem) :
    firstById seen (l.filter fun x => q x.id) = (firstById seen l).filter fun x => q x.id := by
  induction l generalizing seen with
  | nil => rfl
  | cons x rest ih =>
    cases hq : q x.id with
    | true =>
      by_cases hs : x.id ∈ seen
      · simp [List.filter_cons, hq, firstById, hs, ih]
      · simp [List.filter_cons, hq, firstById, hs, ih]
    | false =>
      by_cases hs : x.id ∈ seen
      · simp [List.filter_cons, hq, firstById, hs, ih]
      · simp only [List.filter_cons, hq, firstById, hs, if_false, Bool.false_eq_true, ih]
        rw [firstById_cons_seen, List.filter_filter]
        apply List.filter_congr
        intro y _
        by_cases hy : y.id = x.id
        · simp [hy, hq]
        · simp [hy]

theorem successIds_subset (items : List MediaItem) (os : List (Outcome × JsString)) :
    ∀ i ∈ successIds items os, i ∈ idsOf items := by
  induction items generalizing os with
  | nil => simp [successIds]
  | cons item rest ih =>
    cases os with
    | nil => simp [successIds]
    | cons o os =>
      intro i hi
      simp only [successIds] at hi
      split at hi
      · rcases List.mem_cons.1 hi with rfl | h
        · simp [idsOf]
        · simpa [idsOf] using Or.inr (by simpa [idsOf] using ih os i h)
      · simpa [idsOf] using Or.inr (by simpa [idsOf] using ih os i hi)

theorem filter_successIds (items : List MediaItem) (os : List (Outcome × JsString))
    (hn : (idsOf items).Nodup) :
    (items.filter fun x => decide (x.id ∉ successIds items os)) = unretrieved items os := by
  induction items generalizing os with
  | nil => cases os <;> rfl
  | cons item rest ih =>
    simp only [idsOf, List.map_cons, List.nodup_cons] at hn
    have hnot : ∀ os', item.id ∉ successIds rest os' := fun os' h =>
      hn.1 (successIds_subset rest os' _ h)
    cases os with
    | nil => simp [successIds, unretrieved]
    | cons o os =>
      by_cases ho : o.1 = Outcome.success
      · simp only [successIds, ho, if_true, unretrieved, List.filter_cons, List.mem_cons,
          true_or, not_true_eq_false, decide_False, Bool.false_eq_true, if_false]
        rw [← ih os hn.2]
        apply List.filter_congr
        intro y hy
        have : y.id ≠ item.id := fun h => hn.1 (h ▸ List.mem_map.2 ⟨y, hy, rfl⟩)
        simp [this]
      · simp only [successIds, ho, if_false, unretrieved, List.filter_cons, hnot os,
          not_false_eq_true, decide_True, if_true]
        rw [ih os hn.2]

theorem notCompleted_foldl_setAdd (d : JsSet) (ids : List JsVal) (x : MediaItem) :
    notCompleted (ids.foldl setAdd d) x = (decide (x.id ∉ ids) && notCompleted d x) := by
  have h := mem_foldl_setAdd ids d x.id
  by_cases h1 : x.id ∈ d <;> by_cases h2 : x.id ∈ ids <;>
    simp [notCompleted, setHas, h, h1, h2]

/-- On the standard path: the backlog after the outcomes `os` have been recorded is the old
backlog without the items retrieved successfully. -/
theorem backlog_after_standard (s : State) (os : List (Outcome × JsString))
    (hp : isPromptLikePage (detectPageType s.pathname) = false) :
    getUndownloadedItems
        { s with downloadedIds :=
                   (settleAll false (Book.ofState s) (getUndownloadedItems s) os).downloadedIds,
                 promptSessionData :=
                   (settleAll false (Book.ofState s) (getUndownloadedItems s) os).session } =
      unretrieved (getUndownloadedItems s) os := by
  have hscope : ∀ d ps, scopeOf { s with downloadedIds := d, promptSessionData := ps } =
      scopeOf s := by
    intro d ps
    simp [scopeOf, hp]
  rw [getUndownloadedItems_store _ (by exact hp), hscope, settleAll_downloadedIds]
  have hf : (scopeOf s).filter (notCompleted
      ((successIds (getUndownloadedItems s) os).foldl setAdd (Book.ofState s).downloadedIds)) =
      ((scopeOf s).filter (notCompleted s.downloadedIds)).filter
        fun x => decide (x.id ∉ successIds (getUndownloadedItems s) os) := by
    rw [List.filter_filter]
    apply List.filter_congr
    intro x _
    simp only [notCompleted_foldl_setAdd, Book.ofState]
  simp only [hf]
  rw [firstById_filter_ids (fun i => decide (i ∉ successIds (getUndownloadedItems s) os)),
    ← getUndownloadedItems_store s hp]
  apply filter_successIds
  rw [getUndownloadedItems_store s hp]
  exact firstById_nodup _ _

theorem filter_mapSet_of_mem {V : Type} (T : JsSet) (m : JsMap V) (k : JsVal) (v : V)
    (hk : k ∈ T) :
    (mapSet m k v).filter (fun kv => !setHas T kv.1) = m.filter fun kv => !setHas T kv.1 := by
  induction m with
  | nil => simp [mapSet, setHas, hk]
  | cons kv rest ih =>
    obtain ⟨k0, v0⟩ := kv
    by_cases h0 : k0 = k
    · subst h0
      simp [mapSet, List.filter_cons, setHas, hk]
    · simp only [mapSet, h0, if_false, List.filter_cons, ih]

theorem markSession_dis (ps : PromptSession) (id : JsVal) (now : JsString) :
    (markSession ps id now).downloadedInSession = setAdd ps.downloadedInSession id := by
  unfold markSession
  split <;> rfl

theorem markSession_images_filter (T : JsSet) (ps : PromptSession) (id : JsVal)
    (now : JsString) (hk : id ∈ T) :
    (markSession ps id now).images.filter (fun kv => !setHas T kv.1) =
      ps.images.filter fun kv => !setHas T kv.1 := by
  unfold markSession
  split
  · exact filter_mapSet_of_mem T _ _ _ hk
  · rfl

theorem settleAll_dis_prompt (b : Book) (items : List MediaItem)
    (os : List (Outcome × JsString)) :
    (settleAll true b items os).session.downloadedInSession =
      (successIds items os).foldl setAdd b.session.downloadedInSession := by
  induction items generalizing b os with
  | nil => simp [settleAll, successIds]
  | cons item rest ih =>
    cases os with
    | nil => simp [settleAll, successIds]
    | cons o os =>
      simp only [settleAll, successIds, ih]
      by_cases ho : o.1 = Outcome.success
      · simp [settle, ho, markSession_dis]
      · simp [settle, ho]

theorem settleAll_images_filter (T : JsSet) (b : Book) (items : List MediaItem)
    (os : List (Outcome × JsString))
    (hT : ∀ x ∈ (settleAll true b items os).session.downloadedInSession, x ∈ T) :
    (settleAll true b items os).session.images.filter (fun kv => !setHas T kv.1) =
      b.session.images.filter fun kv => !setHas T kv.1 := by
  induction items generalizing b os with
  | nil => simp [settleAll]
  | cons item rest ih =>
    cases os with
    | nil => simp [settleAll]
    | cons o os =>
      simp only [settleAll] at hT ⊢
      rw [ih _ _ hT]
      by_cases ho : o.1 = Outcome.success
      · have hmem : item.id ∈ T := by
          apply hT
          rw [settleAll_dis_prompt, mem_foldl_setAdd]
          left
          simp [settle, ho, markSession_dis, mem_setAdd]
        simp only [settle, ho, if_true]
        exact markSession_images_filter T _ _ _ hmem
      · simp [settle, ho]

theorem map_filter_key (q : JsVal → Bool) (l : JsMap MediaItem)
    (h : ∀ kv ∈ l, kv.2.id = kv.1) :
    (l.filter fun kv => q kv.1).map (·.2) = (l.map (·.2)).filter fun x => q x.id := by
  induction l with
  | nil => rfl
  | cons kv rest ih =>
    have hkv : kv.2.id = kv.1 := h kv (by simp)
    have ih' := ih (fun kv' hkv' => h kv' (List.mem_cons_of_mem _ hkv'))
    cases hq : q kv.1 <;> simp [List.filter_cons, hq, hkv, ih']

/-- On the prompt path: the backlog after the outcomes `os` have been recorded is the old
backlog without the items retrieved successfully. -/
theorem backlog_after_prompt (s : State) (os : List (Outcome × JsString))
    (hp : isPromptLikePage (detectPageType s.pathname) = true)
    (hwf : SessionWF s.promptSessionData) :
    getUndownloadedItems
        { s with downloadedIds :=
                   (settleAll true (Book.ofState s) (getUndownloadedItems s) os).downloadedIds,
                 promptSessionData :=
                   (settleAll true (Book.ofState s) (getUndownloadedItems s) os).session } =
      unretrieved (getUndownloadedItems s) os := by
  rw [getUndownloadedItems_prompt _ (by exact hp)]
  simp only
  rw [settleAll_images_filter _ _ _ _ (fun x hx => hx), settleAll_dis_prompt]
  have hf : (Book.ofState s).session.images.filter (fun kv => !setHas
      ((successIds (getUndownloadedItems s) os).foldl setAdd
        (Book.ofState s).session.downloadedInSession) kv.1) =
      (s.promptSessionData.images.filter
        (fun kv => !setHas s.promptSessionData.downloadedInSession kv.1)).filter
        fun kv => decide (kv.1 ∉ successIds (getUndownloadedItems s) os) := by
    rw [List.filter_filter]
    apply List.filter_congr
    intro kv _
    have h := mem_foldl_setAdd (successIds (getUndownloadedItems s) os)
      s.promptSessionData.downloadedInSession kv.1
    by_cases h1 : kv.1 ∈ s.promptSessionData.downloadedInSession <;>
      by_cases h2 : kv.1 ∈ successIds (getUndownloadedItems s) os <;>
      simp [setHas, Book.ofState, h, h1, h2]
  rw [hf, map_filter_key (fun i => decide (i ∉ successIds (getUndownloadedItems s) os)) _
    (fun kv hkv => hwf.2 kv (List.mem_of_mem_filter hkv)),
    ← getUndownloadedItems_prompt s hp]
  apply filter_successIds
  rw [getUndownloadedItems_prompt s hp]
  exact (session_props _ _ hwf.1 hwf.2).1

theorem backlog_after_settle (s : State) (os : List (Outcome × JsString))
    (hwf : SessionWF s.promptSessionData) (running cancel : Bool)
    (runs : List Run) (downloads : List (Nat × Nat)) (timers : List Timer)
    (reqs : List Request) (reps : List (Nat × Report)) :
    getUndownloadedItems
        (runState s (settleAll (isPromptLikePage (detectPageType s.pathname)) (Book.ofState s)
          (getUndownloadedItems s) os) running cancel runs downloads timers reqs reps) =
      unretrieved (getUndownloadedItems s) os := by
  rw [getUndownloadedItems_runState]
  cases hp : isPromptLikePage (detectPageType s.pathname) with
  | false => exact backlog_after_standard s os hp
  | true => exact backlog_after_prompt s os hp hwf

theorem not_mem_successIds_of_failed (items : List MediaItem) (os : List (Outcome × JsString))
    (hn : (idsOf items).Nodup) (i : Nat) (item : MediaItem) (o : Outcome × JsString)
    (hi : items[i]? = some item) (ho : os[i]? = some o) (hf : o.1 ≠ Outcome.success) :
    item.id ∉ successIds items os := by
  induction items generalizing os i with
  | nil => simp at hi
  | cons x rest ih =>
    simp only [idsOf, List.map_cons, List.nodup_cons] at hn
    cases os with
    | nil => simp at ho
    | cons o' os' =>
      cases i with
      | zero =>
        simp only [List.getElem?_cons_zero, Option.some.injEq] at hi ho
        subst hi ho
        simp only [successIds, hf, if_false]
        exact fun h => hn.1 (successIds_subset rest os' _ h)
      | succ i' =>
        simp only [List.getElem?_cons_succ] at hi ho
        have hmem : item.id ∈ idsOf rest := List.mem_map.2 ⟨item, List.getElem?_mem hi, rfl⟩
        have hne : item.id ≠ x.id := fun h => hn.1 (h ▸ hmem)
        have hrest := ih os' hn.2 i' hi ho
        simp only [successIds]
        split
        · simp [hne, hrest]
        · exact hrest

theorem markSession_wf (ps : PromptSession) (id : JsVal) (now : JsString)
    (h : SessionWF ps) : SessionWF (markSession ps id now) := by
  unfold markSession
  cases hg : mapGet ps.images id with
  | none => exact h
  | some item =>
    have hid : item.id = id := h.2 (id, item) (mapGet_mem _ _ _ hg)
    have hset : ∀ (m : JsMap MediaItem) (v : MediaItem), mapGet m id ≠ none →
        (mapSet m id v).map (·.1) = m.map (·.1) ∧
        ∀ kv ∈ mapSet m id v, kv ∈ m ∨ kv = (id, v) := by
      intro m v
      induction m with
      | nil => intro hne; simp [mapGet] at hne
      | cons kv rest ih =>
        obtain ⟨k0, v0⟩ := kv
        intro hne
        by_cases h0 : k0 = id
        · subst h0
          refine ⟨by simp [mapSet], ?_⟩
          intro kv hkv
          simp only [mapSet, if_true, List.mem_cons] at hkv
          rcases hkv with rfl | hkv
          · exact Or.inr rfl
          · exact Or.inl (List.mem_cons_of_mem _ hkv)
        · simp only [mapGet, h0, if_false] at hne
          obtain ⟨i1, i2⟩ := ih hne
          refine ⟨by simp [mapSet, h0, i1], ?_⟩
          intro kv hkv
          simp only [mapSet, h0, if_false, List.mem_cons] at hkv
          rcases hkv with rfl | hkv
          · simp
          · rcases i2 kv hkv with h' | h'
            · exact Or.inl (List.mem_cons_of_mem _ h')
            · exact Or.inr h'
    obtain ⟨h1, h2⟩ := hset ps.images
      { item with downloaded := some true, downloadedAt := .string now } (by simp [hg])
    refine ⟨by simpa [h1] using h.1, ?_⟩
    intro kv hkv
    rcases h2 kv hkv with h' | h'
    · exact h.2 kv h'
    · subst h'
      exact hid

/-! ## The invariant of the event loop -/

theorem map_items_modify (f : Run → Run) (hf : ∀ run, (f run).items = run.items)
    (l : List Run) (r k : Nat) :
    Option.map Run.items ((l.modify f r)[k]?) = Option.map Run.items (l[k]?) := by
  rw [List.getElem?_modify]
  cases l[k]? with
  | none => rfl
  | some run =>
    by_cases h : r = k
    · simp [h, hf]
    · simp [h]

theorem itemsOfRun_some (s : State) (r : Nat) (items : List MediaItem)
    (h : itemsOfRun s r = some items) : ∃ run, s.runs[r]? = some run ∧ run.items = items := by
  unfold itemsOfRun at h
  cases hr : s.runs[r]? with
  | none => rw [hr] at h; cases h
  | some run =>
    rw [hr] at h
    exact ⟨run, rfl, by simpa using h⟩

/-- What the outcome callbacks do to the variables of the orchestrator: they schedule
`downloadNext(index + 1)` and raise a counter of the run; no request is made. -/
theorem onOutcome_fields (s : State) (r j : Nat) (o : Outcome) (now : JsString)
    (items : List MediaItem) (item : MediaItem)
    (hr : itemsOfRun s r = some items) (hj : items[j]? = some item) :
    (onOutcome s r j o now).downloads = s.downloads ∧
    (onOutcome s r j o now).timers = s.timers ++ [Timer.next r (j + 1)] ∧
    (onOutcome s r j o now).isDownloadingAll = s.isDownloadingAll ∧
    (onOutcome s r j o now).requests = s.requests ∧
    (onOutcome s r j o now).runs.length = s.runs.length ∧
    ∀ k, itemsOfRun (onOutcome s r j o now) k = itemsOfRun s k := by
  obtain ⟨run, hrun, hitems⟩ := itemsOfRun_some s r items hr
  subst hitems
  have hc : ∀ k, Option.map Run.items
      ((s.runs.modify (fun run : Run => { run with completed := run.completed + 1 }) r)[k]?) =
      Option.map Run.items (s.runs[k]?) := fun k =>
    map_items_modify (fun run : Run => { run with completed := run.completed + 1 })
      (fun _ => rfl) s.runs r k
  have hf : ∀ k, Option.map Run.items
      ((s.runs.modify (fun run : Run => { run with failed := run.failed + 1 }) r)[k]?) =
      Option.map Run.items (s.runs[k]?) := fun k =>
    map_items_modify (fun run : Run => { run with failed := run.failed + 1 })
      (fun _ => rfl) s.runs r k
  unfold onOutcome
  simp only [hrun, hj]
  cases run.isPromptPage <;> cases o <;>
    simp [downloadFile, scheduleNext, incCompleted, incFailed, markAsDownloaded,
      saveDownloadedIds, markPromptSessionDownloaded_eq, itemsOfRun, hc, hf]

theorem countP_eraseIdx {α : Type} (p : α → Bool) (l : List α) (n : Nat) (t : α)
    (h : l[n]? = some t) :
    (l.eraseIdx n).countP p + (if p t then 1 else 0) = l.countP p := by
  induction l generalizing n with
  | nil => simp at h
  | cons a rest ih =>
    cases n with
    | zero =>
      simp only [List.getElem?_cons_zero, Option.some.injEq] at h
      subst h
      simp [List.countP_cons]
    | succ n =>
      simp only [List.getElem?_cons_succ] at h
      simp only [List.eraseIdx_cons_succ, List.countP_cons]
      have := ih n h
      omega

theorem requestsFrom_append (r i : Nat) (a b : List MediaItem) :
    requestsFrom r i (a ++ b) = requestsFrom r i a ++ requestsFrom r (i + a.length) b := by
  induction a generalizing i with
  | nil => simp [requestsFrom]
  | cons x rest ih =>
    have e : i + 1 + rest.length = i + (rest.length + 1) := by omega
    show requestsFrom r i (x :: (rest ++ b)) = _
    rw [requestsFrom, ih, e]
    rfl

theorem requestsFrom_take_snoc (r j : Nat) (items : List MediaItem) (item : MediaItem)
    (h : items[j]? = some item) :
    requestsFrom r 0 (items.take (j + 1)) =
      requestsFrom r 0 (items.take j) ++ [requestOf r j item] := by
  have hlt : j < items.length := by
    rcases Nat.lt_or_ge j items.length with h' | h'
    · exact h'
    · rw [List.getElem?_eq_none h'] at h; cases h
  have hget : items[j] = item := by
    rw [List.getElem?_eq_getElem hlt] at h
    exact Option.some.inj h
  rw [List.take_succ, h, requestsFrom_append]
  simp [requestsFrom, List.length_take, Nat.min_eq_left (Nat.le_of_lt hlt)]

theorem mem_requestsFrom (r i : Nat) (items : List MediaItem) (q : Request)
    (h : q ∈ requestsFrom r i items) : q.run = r ∧ i ≤ q.index ∧ q.index < i + items.length := by
  induction items generalizing i with
  | nil => simp [requestsFrom] at h
  | cons x rest ih =>
    simp only [requestsFrom, List.mem_cons] at h
    rcases h with rfl | h
    · simp [requestOf]
    · have := ih (i + 1) h
      simp only [List.length_cons]
      omega

theorem requestsOfRun_append (s : State) (r : Nat) (q : Request) (upd : State)
    (h : upd.requests = s.requests ++ [q]) :
    requestsOfRun upd r = requestsOfRun s r ++ (if q.run = r then [q] else []) := by
  unfold requestsOfRun
  rw [h, List.filter_append]
  by_cases hq : q.run = r <;> simp [hq]

theorem RunInv_congr (s s' : State) (hd : s'.downloads = s.downloads)
    (ht : s'.timers = s.timers) (hr : s'.isDownloadingAll = s.isDownloadingAll)
    (hruns : s'.runs = s.runs) (hreq : s'.requests = s.requests) (h : RunInv s) : RunInv s' := by
  have hi : ∀ r, itemsOfRun s' r = itemsOfRun s r := fun r => by simp [itemsOfRun, hruns]
  have hq : ∀ r, requestsOfRun s' r = requestsOfRun s r := fun r => by
    simp [requestsOfRun, hreq]
  refine ⟨?_, ?_, ?_, ?_, ?_⟩
  · rw [hd, ht, hr]; exact h.pending
  · intro d hdm
    rw [hd] at hdm
    obtain ⟨h1, items, item, h2, h3, h4, h5⟩ := h.downloadsOk d hdm
    exact ⟨by rw [hruns]; exact h1, items, item, by rw [hi]; exact h2, h3,
      by rw [hq]; exact h4, by rw [hreq]; exact h5⟩
  · intro r j hm
    rw [ht] at hm
    obtain ⟨h1, items, h2, h3, h4⟩ := h.timersOk r j hm
    exact ⟨by rw [hruns]; exact h1, items, by rw [hi]; exact h2, h3, by rw [hq]; exact h4⟩
  · intro r items hm
    rw [hi] at hm
    obtain ⟨m, h1, h2⟩ := h.runsOk r items hm
    exact ⟨m, h1, by rw [hq]; exact h2⟩
  · intro q hqm
    rw [hreq] at hqm
    rw [hruns]
    exact h.requestsOk q hqm

theorem RunInv_idle (s : State) (h : RunInv s) (hidle : s.isDownloadingAll = false) :
    s.downloads = [] ∧ s.timers.countP isNextTimer = 0 := by
  have hp := h.pending
  simp only [hidle, Bool.false_eq_true, if_false] at hp
  exact ⟨List.length_eq_zero.1 (by omega), by omega⟩

theorem no_next_of_countP (timers : List Timer) (h : timers.countP isNextTimer = 0)
    (r j : Nat) : Timer.next r j ∉ timers := by
  intro hm
  have := (List.countP_eq_zero.1 h) _ hm
  simp [isNextTimer] at this

theorem itemsOfRun_append_lt (s : State) (runs : List Run) (run : Run) (r : Nat)
    (upd : State) (hu : upd.runs = runs ++ [run]) (hs : s.runs = runs) (hr : r < runs.length) :
    itemsOfRun upd r = itemsOfRun s r := by
  simp [itemsOfRun, hu, hs, List.getElem?_append_left hr]

theorem RunInv_start (s : State) (h : RunInv s) (hidle : s.isDownloadingAll = false) :
    RunInv (startDownloadAll s) := by
  cases hitems : getUndownloadedItems s with
  | nil => simpa [startDownloadAll, hitems] using h
  | cons item rest =>
    obtain ⟨hd, hc⟩ := RunInv_idle s h hidle
    have e : startDownloadAll s =
        { s with isDownloadingAll := true, cancelDownload := false,
                 runs := s.runs ++ [⟨item :: rest, isPromptLikePage (detectPageType s.pathname), 0, 0⟩],
                 downloads := [(s.runs.length, 0)],
                 requests := s.requests ++ [requestOf s.runs.length 0 item] } := by
      simp [startDownloadAll, hitems, hidle, downloadNext, hd, requestOf]
    rw [e]
    have hold : requestsOfRun s s.runs.length = [] := by
      unfold requestsOfRun
      rw [List.filter_eq_nil_iff]
      intro q hq
      have := h.requestsOk q hq
      simp
      omega
    refine ⟨?_, ?_, ?_, ?_, ?_⟩
    · simp [hc]
    · intro d hdm
      simp only [List.mem_singleton] at hdm
      subst hdm
      refine ⟨by simp, item :: rest, item, by simp [itemsOfRun], by simp, ?_, by simp⟩
      rw [requestsOfRun_append s _ (requestOf s.runs.length 0 item) _ rfl, hold]
      simp [requestOf, requestsFrom]
    · intro r j hm
      exact absurd hm (no_next_of_countP s.timers hc r j)
    · intro r items hm
      rcases Nat.lt_or_ge r s.runs.length with hr | hr
      · rw [itemsOfRun_append_lt s s.runs _ r _ rfl rfl hr] at hm
        obtain ⟨m, h1, h2⟩ := h.runsOk r items hm
        refine ⟨m, h1, ?_⟩
        rw [requestsOfRun_append s _ (requestOf s.runs.length 0 item) _ rfl, h2]
        have : ¬ (requestOf s.runs.length 0 item).run = r := by simp [requestOf]; omega
        simp [this]
      · rcases Nat.eq_or_lt_of_le hr with hr | hr
        · subst hr
          simp [itemsOfRun] at hm
          subst hm
          refine ⟨1, by simp, ?_⟩
          rw [requestsOfRun_append s _ (requestOf s.runs.length 0 item) _ rfl, hold]
          simp [requestOf, requestsFrom]
        · have : (s.runs ++ [⟨item :: rest, isPromptLikePage (detectPageType s.pathname), 0, 0⟩])[r]? = none := by
            apply List.getElem?_eq_none
            simp
            omega
          simp [itemsOfRun, this] at hm
    · intro q hq
      simp only [List.mem_append, List.mem_singleton] at hq
      simp only [List.length_append, List.length_singleton]
      rcases hq with hq | rfl
      · have := h.requestsOk q hq
        omega
      · simp [requestOf]

theorem requestsOfRun_congr (s s' : State) (h : s'.requests = s.requests) (r : Nat) :
    requestsOfRun s' r = requestsOfRun s r := by
  simp [requestsOfRun, h]

theorem RunInv_deliver (s : State) (h : RunInv s) (n : Nat) (o : Outcome) (now : JsString) :
    RunInv (step s (Event.deliver n o now)) := by
  cases hdn : s.downloads[n]? with
  | none =>
    have e : step s (Event.deliver n o now) = s := by simp [step, hdn]
    rw [e]
    exact h
  | some d =>
    obtain ⟨r, j⟩ := d
    have e : step s (Event.deliver n o now) =
        onOutcome { s with downloads := s.downloads.eraseIdx n } r j o now := by
      simp [step, hdn]
    rw [e]
    have hmem : (r, j) ∈ s.downloads := List.getElem?_mem hdn
    obtain ⟨hlen, items, item, hitems, hj, hreq, _⟩ := h.downloadsOk (r, j) hmem
    simp only at hlen hitems hj hreq
    have hpos : 0 < s.downloads.length := List.length_pos_of_mem hmem
    have hp := h.pending
    have hrun : s.isDownloadingAll = true := by
      cases hr : s.isDownloadingAll with
      | true => rfl
      | false =>
        rw [hr] at hp
        simp only [Bool.false_eq_true, if_false] at hp
        omega
    simp only [hrun, if_true] at hp
    have hd1 : s.downloads.length = 1 := by omega
    have hc0 : s.timers.countP isNextTimer = 0 := by omega
    have hn : n = 0 := by
      obtain ⟨hlt, _⟩ := List.getElem?_eq_some_iff.1 hdn
      omega
    have herase : s.downloads.eraseIdx n = [] := by
      subst hn
      match hs : s.downloads, hd1 with
      | [_], _ => rfl
    obtain ⟨f1, f2, f3, f4, f5, f6⟩ :=
      onOutcome_fields { s with downloads := s.downloads.eraseIdx n } r j o now items item
        hitems hj
    simp only at f1 f2 f3 f4 f5
    have hjlt : j < items.length := by
      rcases Nat.lt_or_ge j items.length with h' | h'
      · exact h'
      · rw [List.getElem?_eq_none h'] at hj; cases hj
    refine ⟨?_, ?_, ?_, ?_, ?_⟩
    · rw [f1, f2, f3, herase, hrun]
      simp [List.countP_append, hc0, isNextTimer]
    · intro d hdm
      rw [f1, herase] at hdm
      cases hdm
    · intro r' j' hm
      rw [f2, List.mem_append, List.mem_singleton] at hm
      rcases hm with hm | hm
      · exact absurd hm (no_next_of_countP s.timers hc0 r' j')
      · cases hm
        refine ⟨by rw [f5]; exact hlen, items, by rw [f6]; exact hitems, hjlt, ?_⟩
        rw [requestsOfRun_congr _ _ f4]
        exact hreq
    · intro k items' hm
      rw [f6] at hm
      obtain ⟨m, h1, h2⟩ := h.runsOk k items' hm
      refine ⟨m, h1, ?_⟩
      rw [requestsOfRun_congr _ _ f4]
      exact h2
    · intro q hq
      rw [f4] at hq
      rw [f5]
      exact h.requestsOk q hq

/-- Taking a pending timer off the list keeps what the invariant says about the others. -/
theorem RunInv_fire_report (s : State) (h : RunInv s) (n r : Nat)
    (htn : s.timers[n]? = some (Timer.report r)) :
    RunInv (reportDone { s with timers := s.timers.eraseIdx n } r) := by
  have hcount : (s.timers.eraseIdx n).countP isNextTimer = s.timers.countP isNextTimer := by
    have := countP_eraseIdx isNextTimer s.timers n _ htn
    simpa [isNextTimer] using this
  have h1 : RunInv { s with timers := s.timers.eraseIdx n } := by
    refine ⟨?_, h.downloadsOk, ?_, h.runsOk, h.requestsOk⟩
    · show s.downloads.length + (s.timers.eraseIdx n).countP isNextTimer = _
      rw [hcount]
      exact h.pending
    · intro r' j' hm
      exact h.timersOk r' j' (List.mem_of_mem_eraseIdx hm)
  unfold reportDone
  split
  · exact h1
  · refine RunInv_congr { s with timers := s.timers.eraseIdx n } _ ?_ ?_ ?_ ?_ ?_ h1 <;> rfl

theorem RunInv_fire_next (s : State) (h : RunInv s) (n r j : Nat)
    (htn : s.timers[n]? = some (Timer.next r j)) :
    RunInv (downloadNext { s with timers := s.timers.eraseIdx n } r j) := by
  have hmem : Timer.next r j ∈ s.timers := List.getElem?_mem htn
  obtain ⟨hlen, items, hitems, hj, hreq⟩ := h.timersOk r j hmem
  obtain ⟨run, hrun, hri⟩ := itemsOfRun_some s r items hitems
  have hcpos : 0 < s.timers.countP isNextTimer :=
    List.countP_pos_iff.2 ⟨_, hmem, rfl⟩
  have hp := h.pending
  have hrunning : s.isDownloadingAll = true := by
    cases hr : s.isDownloadingAll with
    | true => rfl
    | false =>
      rw [hr] at hp
      simp only [Bool.false_eq_true, if_false] at hp
      omega
  simp only [hrunning, if_true] at hp
  have hd0 : s.downloads = [] := List.length_eq_zero.1 (by omega)
  have hc0 : (s.timers.eraseIdx n).countP isNextTimer = 0 := by
    have := countP_eraseIdx isNextTimer s.timers n _ htn
    simp only [isNextTimer, if_true] at this
    omega
  have hnone : ∀ r' j', Timer.next r' j' ∉ s.timers.eraseIdx n :=
    fun r' j' => no_next_of_countP _ hc0 r' j'
  unfold downloadNext
  simp only [hrun]
  cases hcancel : s.cancelDownload with
  | true =>
    simp only [if_true]
    refine ⟨by simp [hd0, hc0], ?_, ?_, h.runsOk, h.requestsOk⟩
    · intro d hdm
      simp only [hd0] at hdm
      cases hdm
    · intro r' j' hm
      exact absurd hm (hnone r' j')
  | false =>
    simp only [Bool.false_eq_true, if_false]
    by_cases hge : j ≥ run.items.length
    · simp only [hge, if_true]
      refine ⟨by simp [hd0, hc0, List.countP_append, isNextTimer], ?_, ?_, h.runsOk,
        h.requestsOk⟩
      · intro d hdm
        simp only [hd0] at hdm
        cases hdm
      · intro r' j' hm
        simp only [List.mem_append, List.mem_singleton] at hm
        rcases hm with hm | hm
        · exact absurd hm (hnone r' j')
        · cases hm
    · simp only [hge, if_false]
      have hjlt : j < run.items.length := by omega
      have hitem : run.items[j]? = some run.items[j] := List.getElem?_eq_getElem hjlt
      simp only [hitem]
      have hq : requestsOfRun
          { s with timers := s.timers.eraseIdx n, downloads := s.downloads ++ [(r, j)],
                   requests := s.requests ++ [⟨r, j, run.items[j].url, run.items[j].filename⟩] } r =
          requestsFrom r 0 (run.items.take (j + 1)) := by
        rw [requestsOfRun_append s r ⟨r, j, run.items[j].url, run.items[j].filename⟩ _ rfl,
          hreq, ← hri, requestsFrom_take_snoc r j run.items _ hitem]
        simp [requestOf]
      refine ⟨by simp [hd0, hc0, hrunning], ?_, ?_, ?_, ?_⟩
      · intro d hdm
        simp only [hd0, List.nil_append, List.mem_singleton] at hdm
        subst hdm
        refine ⟨hlen, items, run.items[j], hitems, by rw [← hri]; exact hitem, ?_, ?_⟩
        · rw [← hri]; exact hq
        · simp [requestOf]
      · intro r' j' hm
        exact absurd hm (hnone r' j')
      · intro k items' hm
        by_cases hk : k = r
        · subst hk
          have : items' = items := by
            have h' : itemsOfRun s k = some items' := hm
            rw [hitems] at h'
            exact (Option.some.inj h').symm
          subst this
          exact ⟨j + 1, by rw [← hri]; omega, by rw [← hri]; exact hq⟩
        · obtain ⟨m, h1, h2⟩ := h.runsOk k items' hm
          refine ⟨m, h1, ?_⟩
          rw [requestsOfRun_append s k ⟨r, j, run.items[j].url, run.items[j].filename⟩ _ rfl, h2]
          have : ¬ r = k := fun e => hk e.symm
          simp [this]
      · intro q hqm
        simp only [List.mem_append, List.mem_singleton] at hqm
        rcases hqm with hqm | rfl
        · exact h.requestsOk q hqm
        · show r < s.runs.length
          omega

theorem RunInv_step (s : State) (h : RunInv s) (e : Event) : RunInv (step s e) := by
  cases e with
  | deliver n o now => exact RunInv_deliver s h n o now
  | fire n =>
    cases htn : s.timers[n]? with
    | none =>
      have e : step s (Event.fire n) = s := by simp [step, htn]
      rw [e]
      exact h
    | some t =>
      cases t with
      | next r j =>
        have e : step s (Event.fire n) =
            downloadNext { s with timers := s.timers.eraseIdx n } r j := by simp [step, htn]
        rw [e]
        exact RunInv_fire_next s h n r j htn
      | report r =>
        have e : step s (Event.fire n) =
            reportDone { s with timers := s.timers.eraseIdx n } r := by simp [step, htn]
        rw [e]
        exact RunInv_fire_report s h n r htn
  | click =>
    show RunInv (handleDownloadButtonClick s)
    unfold handleDownloadButtonClick
    cases hr : s.isDownloadingAll with
    | true =>
      simp only [if_true]
      refine RunInv_congr s _ ?_ ?_ ?_ ?_ ?_ h <;> first | rfl | exact hr.symm
    | false =>
      simp only [Bool.false_eq_true, if_false]
      exact RunInv_start s h hr

theorem RunInv_runEvents (events : List Event) (s : State) (h : RunInv s) :
    RunInv (runEvents s events) := by
  induction events generalizing s with
  | nil => exact h
  | cons e rest ih => exact ih _ (RunInv_step s h e)

theorem RunInv_initial (s : State) (hidle : s.isDownloadingAll = false)
    (hd : s.downloads = []) (ht : s.timers = []) (hreq : s.requests = []) : RunInv s := by
  refine ⟨by simp [hidle, hd, ht], ?_, ?_, ?_, ?_⟩
  · intro d hdm
    rw [hd] at hdm
    cases hdm
  · intro r j hm
    rw [ht] at hm
    cases hm
  · intro r items _
    exact ⟨0, Nat.zero_le _, by simp [requestsOfRun, hreq, requestsFrom]⟩
  · intro q hq
    rw [hreq] at hq
    cases hq

theorem downloadNext_runs (s : State) (r j : Nat) : (downloadNext s r j).runs = s.runs := by
  unfold downloadNext
  split
  · rfl
  · split
    · rfl
    · split
      · rfl
      · split <;> rfl

theorem reportDone_runs (s : State) (r : Nat) : (reportDone s r).runs = s.runs := by
  unfold reportDone
  split <;> rfl

theorem onOutcome_itemsOfRun (s : State) (r j : Nat) (o : Outcome) (now : JsString) (k : Nat) :
    itemsOfRun (onOutcome s r j o now) k = itemsOfRun s k ∧
      (onOutcome s r j o now).runs.length = s.runs.length := by
  cases hr : itemsOfRun s r with
  | none =>
    have : s.runs[r]? = none := by
      unfold itemsOfRun at hr
      cases h : s.runs[r]? with
      | none => rfl
      | some run => rw [h] at hr; cases hr
    simp [onOutcome, this]
  | some items =>
    cases hj : items[j]? with
    | none =>
      obtain ⟨run, hrun, hri⟩ := itemsOfRun_some s r items hr
      subst hri
      simp [onOutcome, hrun, hj]
    | some item =>
      obtain ⟨_, _, _, _, f5, f6⟩ := onOutcome_fields s r j o now items item hr hj
      exact ⟨f6 k, f5⟩

theorem startDownloadAll_itemsOfRun (s : State) (k : Nat) (hk : k < s.runs.length) :
    itemsOfRun (startDownloadAll s) k = itemsOfRun s k ∧
      s.runs.length ≤ (startDownloadAll s).runs.length := by
  unfold startDownloadAll
  simp only
  split
  · exact ⟨rfl, Nat.le_refl _⟩
  · simp only [itemsOfRun, downloadNext_runs, List.getElem?_append_left hk, List.length_append,
      List.length_singleton]
    exact ⟨trivial, Nat.le_succ _⟩

/-- The `items` of a run never change, and runs are never removed. -/
theorem step_itemsOfRun (s : State) (e : Event) (k : Nat) (hk : k < s.runs.length) :
    itemsOfRun (step s e) k = itemsOfRun s k ∧ s.runs.length ≤ (step s e).runs.length := by
  cases e with
  | deliver n o now =>
    cases hdn : s.downloads[n]? with
    | none => simp [step, hdn]
    | some d =>
      obtain ⟨r, j⟩ := d
      have e : step s (Event.deliver n o now) =
          onOutcome { s with downloads := s.downloads.eraseIdx n } r j o now := by
        simp [step, hdn]
      rw [e]
      obtain ⟨h1, h2⟩ := onOutcome_itemsOfRun { s with downloads := s.downloads.eraseIdx n }
        r j o now k
      exact ⟨h1, Nat.le_of_eq h2.symm⟩
  | fire n =>
    cases htn : s.timers[n]? with
    | none => simp [step, htn]
    | some t =>
      cases t with
      | next r j => simp [step, htn, itemsOfRun, downloadNext_runs]
      | report r => simp [step, htn, itemsOfRun, reportDone_runs]
  | click =>
    show itemsOfRun (handleDownloadButtonClick s) k = _ ∧ _ ≤ (handleDownloadButtonClick s).runs.length
    unfold handleDownloadButtonClick
    split
    · exact ⟨rfl, Nat.le_refl _⟩
    · exact startDownloadAll_itemsOfRun s k hk

theorem runEvents_itemsOfRun (events : List Event) (s : State) (k : Nat)
    (hk : k < s.runs.length) : itemsOfRun (runEvents s events) k = itemsOfRun s k := by
  induction events generalizing s with
  | nil => rfl
  | cons e rest ih =>
    obtain ⟨h1, h2⟩ := step_itemsOfRun s e k hk
    rw [runEvents_cons, ih (step s e) (Nat.lt_of_lt_of_le hk h2), h1]

/-- The `items` of a run are the backlog at the moment the run was started. -/
theorem started_run_items (s : State) (events : List Event)
    (hidle : s.isDownloadingAll = false) (hne : getUndownloadedItems s ≠ []) :
    itemsOfRun (runEvents s (Event.click :: events)) s.runs.length =
      some (getUndownloadedItems s) := by
  have hstart : (step s Event.click).runs = s.runs ++
      [⟨getUndownloadedItems s, isPromptLikePage (detectPageType s.pathname), 0, 0⟩] := by
    have hlen : ¬ (getUndownloadedItems s).length = 0 := fun h => hne (List.length_eq_zero.1 h)
    simp [step, handleDownloadButtonClick, hidle, startDownloadAll, hlen, downloadNext_runs]
  rw [runEvents_cons, runEvents_itemsOfRun events _ _ (by rw [hstart]; simp)]
  simp [itemsOfRun, hstart]

/-! ## Properties of the aggregation store -/

/-- C1: for every state and every payload, running `processApiData` a second time on the same
payload (the pinned root is a field of the state and `processApiData` does not change it) leaves
the Group table and the derivation-edge table exactly as they were after the first run; the
whole state is the same. -/
theorem idempotent_ingestion (s : State) (apiData : Option ApiData) :
    (processApiData (processApiData s apiData) apiData).mediaDatabase =
        (processApiData s apiData).mediaDatabase ∧
    (processApiData (processApiData s apiData) apiData).childToParentMap =
        (processApiData s apiData).childToParentMap ∧
    (processApiData s apiData).rootPostPageId = s.rootPostPageId ∧
    processApiData (processApiData s apiData) apiData = processApiData s apiData := by
  refine ⟨by rw [processApiData_twice], by rw [processApiData_twice], ?_, processApiData_twice s apiData⟩
  cases hp : apiData.bind (·.posts) with
  | none => simp [processApiData, hp]
  | some posts => simp [processApiData, hp, saveMediaDatabase]

/-- C2: starting from an empty Group table, after any finite sequence of `processApiData`
calls (any payload, the root pinned or not at each call) and `deduplicateDatabase` calls, no
Group's member list contains two items with the same id. -/
theorem dedup_invariant (s : State) (ops : List StoreOp) (hempty : s.mediaDatabase = []) :
    ∀ km ∈ (ops.foldl applyStoreOp s).mediaDatabase, (km.2.object.map (·.id)).Nodup :=
  foldl_applyStoreOp_groupsDedup ops s (by simp [GroupsDedup, hempty])

theorem dedup_invariant_witness :
    (State.mediaDatabase {}) = [] ∧
    ((.string (js "A"), (⟨.string (js "A"), scenarioMembers⟩ : Media)) ∈
      ([StoreOp.ingest .null (some scenarioBatch),
        StoreOp.ingest (.string (js "A")) (some scenarioBatch),
        StoreOp.dedupe].foldl applyStoreOp {}).mediaDatabase) ∧
    (scenarioMembers.map (·.id)).Nodup :=
  ⟨rfl, by decide,
   dedup_invariant {} [StoreOp.ingest .null (some scenarioBatch),
        StoreOp.ingest (.string (js "A")) (some scenarioBatch), StoreOp.dedupe] rfl
     (.string (js "A"), ⟨.string (js "A"), scenarioMembers⟩) (by decide)⟩

/-- C3: with no pinned root and an empty Group table, a batch of one subject `P` that carries
a primary asset and one derivative `D` (in `childPosts` or in `videos`), `D ≠ P`, leaves Group
`P` with the members `[P, D]`, creates the secondary Group `D` with the members `[P, D]` (the
parent's primary asset first), and records the derivation edge `D → P`. -/
theorem collection_context_pairing (s : State) (subject d : Source) (post : Post)
    (hroot : truthy s.rootPostPageId = false) (hdb : s.mediaDatabase = [])
    (hP : truthy subject.id = true) (hU : truthy subject.mediaUrl = true)
    (hD : truthy d.id = true) (hne : d.id ≠ subject.id)
    (hpost : post = { subject with childPosts := [d], videos := [] } ∨
             post = { subject with childPosts := [], videos := [d] }) :
    mapGet (processApiData s (some { posts := some [post] })).mediaDatabase subject.id =
        some { id := subject.id,
               object := [createMediaObject subject none, createMediaObject d (some subject)] } ∧
    mapGet (processApiData s (some { posts := some [post] })).mediaDatabase d.id =
        some { id := d.id,
               object := [createMediaObject subject none, createMediaObject d (some subject)] } ∧
    [createMediaObject subject none, createMediaObject d (some subject)].map (·.id) =
        [subject.id, d.id] ∧
    mapGet (processApiData s (some { posts := some [post] })).childToParentMap d.id =
        some subject.id := by
  have hne' : subject.id ≠ d.id := fun h => hne h.symm
  have hdd : ∀ k : JsVal,
      dedupMedia ⟨k, [createMediaObject subject none, createMediaObject d (some subject)]⟩ =
        (⟨k, [createMediaObject subject none, createMediaObject d (some subject)]⟩, 0) := by
    intro k
    simp [dedupMedia, dedupStep, setHas, setAdd, createMediaObject_id, hne]
  rcases hpost with rfl | rfl
  · simp [processApiData, saveMediaDatabase, ingest, processPost, processChild, hdb, hroot, hP,
      hU, hD, hne, hne', mapGet, mapSet, pushIfNew, jsOr, createMediaObject_id, dedupTable, hdd,
      mapGet_mapSet_self]
  · simp [processApiData, saveMediaDatabase, ingest, processPost, processChild, hdb, hroot, hP,
      hU, hD, hne, hne', mapGet, mapSet, pushIfNew, jsOr, createMediaObject_id, dedupTable, hdd,
      mapGet_mapSet_self]

theorem collection_context_pairing_witness :
    mapGet (processApiData {} (some scenarioBatch)).mediaDatabase (.string (js "A")) =
        some { id := .string (js "A"), object := scenarioMembers } ∧
    mapGet (processApiData {} (some scenarioBatch)).mediaDatabase (.string (js "B")) =
        some { id := .string (js "B"), object := scenarioMembers } ∧
    scenarioMembers.map (·.id) = [.string (js "A"), .string (js "B")] ∧
    mapGet (processApiData {} (some scenarioBatch)).childToParentMap (.string (js "B")) =
        some (.string (js "A")) :=
  collection_context_pairing {} scenarioSubject scenarioDerivative scenarioPost rfl rfl rfl rfl rfl
    (by decide) (Or.inl rfl)

/-- C4: when a root `R` is pinned, `processApiData` creates no Group other than Group `R` and
changes no other Group, except that its closing deduplication pass removes repeated ids from
a Group that had some: the table without the key `R` is the same list when the Groups are
duplicate-free (the invariant of C2), and in general the deduplicated one when the payload has
a posts list. The derivation-edge table is left as it is, and afterwards Group `R` has a
member with the id of every primary asset and of every derivative of every subject record
that has an id. -/
theorem single_subject_folding (s : State) (apiData : Option ApiData)
    (hroot : truthy s.rootPostPageId = true) :
    ((∀ km ∈ s.mediaDatabase, (km.2.object.map (·.id)).Nodup) →
      ((processApiData s apiData).mediaDatabase.filter
          fun kv => decide (kv.1 ≠ s.rootPostPageId)) =
        (s.mediaDatabase.filter fun kv => decide (kv.1 ≠ s.rootPostPageId))) ∧
    (((processApiData s apiData).mediaDatabase.filter
          fun kv => decide (kv.1 ≠ s.rootPostPageId)) =
        (s.mediaDatabase.filter fun kv => decide (kv.1 ≠ s.rootPostPageId)) ∨
      ((processApiData s apiData).mediaDatabase.filter
          fun kv => decide (kv.1 ≠ s.rootPostPageId)) =
        dedupTable (s.mediaDatabase.filter fun kv => decide (kv.1 ≠ s.rootPostPageId))) ∧
    (processApiData s apiData).childToParentMap = s.childToParentMap ∧
    ∀ posts, apiData.bind (·.posts) = some posts → ∀ p ∈ posts, truthy p.id = true →
      (truthy p.mediaUrl = true →
        ∃ m, mapGet (processApiData s apiData).mediaDatabase s.rootPostPageId = some m ∧
          p.id ∈ m.object.map (·.id)) ∧
      ∀ c ∈ p.childPosts ++ p.videos,
        ∃ m, mapGet (processApiData s apiData).mediaDatabase s.rootPostPageId = some m ∧
          c.id ∈ m.object.map (·.id) := by
  cases hp : apiData.bind (·.posts) with
  | none => simp [processApiData, hp]
  | some posts =>
    obtain ⟨h1, h2⟩ := foldl_processPost_pinned s.rootPostPageId posts
      ⟨s.mediaDatabase, s.childToParentMap⟩ hroot
    have hfilter : ((processApiData s apiData).mediaDatabase.filter
          fun kv => decide (kv.1 ≠ s.rootPostPageId)) =
        dedupTable (s.mediaDatabase.filter fun kv => decide (kv.1 ≠ s.rootPostPageId)) := by
      simp only [processApiData, hp, saveMediaDatabase, ingest, filter_dedupTable, h2]
    refine ⟨fun hdedup => ?_, Or.inr hfilter, ?_, ?_⟩
    · rw [hfilter]
      exact dedupTable_eq_self _ (GroupsDedup_filter _ _ hdedup)
    · simp only [processApiData, hp, saveMediaDatabase, ingest, h1]
    · intro posts' hposts' p hpm hid
      cases hposts'
      have hcov := Covers_mono _ _ _ p (fun k i h => hasId_dedupTable _ k i h)
        (foldl_processPost_covers s.rootPostPageId posts ⟨s.mediaDatabase, s.childToParentMap⟩
          p hpm hid)
      rw [Covers, jsOr_of_truthy _ _ hroot] at hcov
      simp only [processApiData, hp, saveMediaDatabase, ingest]
      exact ⟨hcov.1, hcov.2.1⟩

theorem single_subject_folding_witness :
    truthy pinnedState.rootPostPageId = true ∧
    ((processApiData pinnedState (some scenarioBatch)).mediaDatabase.filter
        fun kv => decide (kv.1 ≠ pinnedState.rootPostPageId)) =
      [(.string (js "X"), ⟨.string (js "X"), [createMediaObject scenarioDerivative none]⟩)] ∧
    (processApiData pinnedState (some scenarioBatch)).childToParentMap =
      [(.string (js "B"), .string (js "Q"))] ∧
    ∃ m, mapGet (processApiData pinnedState (some scenarioBatch)).mediaDatabase
        pinnedState.rootPostPageId = some m ∧ scenarioDerivative.id ∈ m.object.map (·.id) :=
  ⟨rfl,
   (single_subject_folding pinnedState (some scenarioBatch) rfl).1 (by decide),
   (single_subject_folding pinnedState (some scenarioBatch) rfl).2.2.1,
   ((single_subject_folding pinnedState (some scenarioBatch) rfl).2.2.2
      [scenarioPost] rfl scenarioPost (List.mem_singleton.2 rfl) rfl).2
        scenarioDerivative (List.mem_singleton.2 rfl)⟩

/-! ## Properties of the backlog -/

/-- C5: for every state (store, completed sets, page), the list that `getUndownloadedItems`
returns has no two items with the same id, has no item whose id is in the applicable
completed set, has an item for every id of an in-scope Asset that is not in that completed
set, and has only in-scope Assets. The session map is keyed by item id (`SessionWF`). -/
theorem backlog_completeness (s : State) (hwf : SessionWF s.promptSessionData) :
    ((getUndownloadedItems s).map (·.id)).Nodup ∧
    (∀ x ∈ getUndownloadedItems s, x.id ∉ completedOf s) ∧
    (∀ a ∈ scopeOf s, a.id ∉ completedOf s → a.id ∈ (getUndownloadedItems s).map (·.id)) ∧
    (∀ x ∈ getUndownloadedItems s, x ∈ scopeOf s) := by
  exact getUndownloadedItems_props s hwf

theorem backlog_completeness_witness :
    SessionWF samplePromptPage.promptSessionData ∧
    (getUndownloadedItems samplePromptPage).map (·.id) = [.string (js "B")] ∧
    ((getUndownloadedItems samplePromptPage).map (·.id)).Nodup ∧
    (sampleItem "B").id ∉ completedOf samplePromptPage ∧
    (sampleItem "B").id ∈ (getUndownloadedItems samplePromptPage).map (·.id) :=
  ⟨⟨by decide, by decide⟩, by decide,
   (backlog_completeness samplePromptPage ⟨by decide, by decide⟩).1,
   (backlog_completeness samplePromptPage ⟨by decide, by decide⟩).2.1 (sampleItem "B") (by decide),
   (backlog_completeness samplePromptPage ⟨by decide, by decide⟩).2.2.1 (sampleItem "B")
     (by decide) (by decide)⟩

/-- C6: on a single-post page with root `R` pinned, `getUndownloadedItems` returns the first
occurrence of each id among the members of Group `R` whose id is not in the Completed-set, in
member order (exactly those members when Group `R` is duplicate-free), and returns members of
Group `R` only; on a page that is neither prompt-like nor a single-post page it returns the
first occurrence of each not-completed id over all Groups, in table order then member order;
on a prompt-like page it returns the Session items whose key is not completed in the session,
in session order, and Session items only. Ids are compared as `Set.has` compares them: two
members whose ids are `undefined` and `null` are both returned. -/
theorem backlog_scoping_and_order (s : State) :
    (detectPageType s.pathname = PageType.singlePost → truthy s.rootPostPageId = true →
      getUndownloadedItems s =
        firstById [] ((((mapGet s.mediaDatabase s.rootPostPageId).map (·.object)).getD []).filter
          (notCompleted s.downloadedIds)) ∧
      (((((mapGet s.mediaDatabase s.rootPostPageId).map (·.object)).getD []).map (·.id)).Nodup →
        getUndownloadedItems s =
          (((mapGet s.mediaDatabase s.rootPostPageId).map (·.object)).getD []).filter
            (notCompleted s.downloadedIds)) ∧
      ∀ x ∈ getUndownloadedItems s,
        x ∈ ((mapGet s.mediaDatabase s.rootPostPageId).map (·.object)).getD []) ∧
    (isPromptLikePage (detectPageType s.pathname) = false →
      detectPageType s.pathname ≠ PageType.singlePost →
      getUndownloadedItems s =
        firstById [] ((allMembers s.mediaDatabase).filter (notCompleted s.downloadedIds))) ∧
    (isPromptLikePage (detectPageType s.pathname) = true →
      getUndownloadedItems s =
        (s.promptSessionData.images.filter
          fun kv => !setHas s.promptSessionData.downloadedInSession kv.1).map (·.2) ∧
      ∀ x ∈ getUndownloadedItems s, x ∈ s.promptSessionData.images.map (·.2)) := by
  refine ⟨fun hpt hroot => ?_, fun hp hns => ?_, fun hp => ?_⟩
  · have hp : isPromptLikePage (detectPageType s.pathname) = false := by
      rw [hpt]; rfl
    have hscope : scopeOf s =
        ((mapGet s.mediaDatabase s.rootPostPageId).map (·.object)).getD [] := by
      have hp' : isPromptLikePage PageType.singlePost = false := rfl
      simp [scopeOf, hpt, hp', jsOr_of_truthy _ _ hroot, hroot]
    have heq := getUndownloadedItems_store s hp
    rw [hscope] at heq
    refine ⟨heq, fun hn => ?_, fun x hx => ?_⟩
    · rw [heq]
      apply firstById_eq_self _ _ _ (by simp)
      exact ((List.filter_sublist _).map _).nodup hn
    · rw [heq] at hx
      exact ((backlog_props s.downloadedIds _).2.1 x hx).2
  · have hscope : scopeOf s = allMembers s.mediaDatabase := by
      simp [scopeOf, hp, hns]
    rw [getUndownloadedItems_store s hp, hscope]
  · refine ⟨getUndownloadedItems_prompt s hp, fun x hx => ?_⟩
    rw [getUndownloadedItems_prompt s hp] at hx
    obtain ⟨kv, hkv, rfl⟩ := List.mem_map.1 hx
    exact List.mem_map.2 ⟨kv, List.mem_of_mem_filter hkv, rfl⟩

theorem backlog_scoping_and_order_witness :
    (detectPageType samplePostPage.pathname = PageType.singlePost ∧
      truthy samplePostPage.rootPostPageId = true ∧
      getUndownloadedItems samplePostPage = [sampleItem "B"]) ∧
    (isPromptLikePage (detectPageType sampleFavoritesPage.pathname) = false ∧
      detectPageType sampleFavoritesPage.pathname ≠ PageType.singlePost ∧
      getUndownloadedItems sampleFavoritesPage = [sampleItem "B", sampleItem "C"]) ∧
    (isPromptLikePage (detectPageType samplePromptPage.pathname) = true ∧
      getUndownloadedItems samplePromptPage = [sampleItem "B"]) ∧
    (idsOf nullIdMembers = [.undefined, .null] ∧
      nullIdPage.mediaDatabase = [(.string (js "P"), ⟨.string (js "P"), nullIdMembers⟩)] ∧
      getUndownloadedItems nullIdPage = nullIdMembers) :=
  ⟨⟨by decide, by decide,
    (((backlog_scoping_and_order samplePostPage).1 (by decide) (by decide)).2.1
      (by decide)).trans (by decide)⟩,
   ⟨by decide, by decide,
    ((backlog_scoping_and_order sampleFavoritesPage).2.1 (by decide) (by decide)).trans
      (by decide)⟩,
   ⟨by decide, ((backlog_scoping_and_order samplePromptPage).2.2 (by decide)).1.trans (by decide)⟩,
   ⟨by decide, by decide,
    ((backlog_scoping_and_order nullIdPage).2.1 (by decide) (by decide)).trans (by decide)⟩⟩

/-! ## Properties of the bulk run -/

/-- C7: for every bulk run started by `startDownloadAll` on an idle state and left alone,
whatever the outcome of each item (on the standard path and on the prompt path alike), when
the run has gone through its items it has ended (no request is pending) and the Completed-set
holds exactly the ids it held before the run and the ids of the items whose retrieval
succeeded; the id of a failed or timed-out item is not added. -/
theorem completed_set_after_run (s : State) (os : List (Outcome × JsString))
    (hidle : s.isDownloadingAll = false) (hd : s.downloads = []) (ht : s.timers = [])
    (hwf : SessionWF s.promptSessionData)
    (hlen : os.length = (getUndownloadedItems s).length) :
    (runEvents (startDownloadAll s) (runScript os)).isDownloadingAll = false ∧
    (runEvents (startDownloadAll s) (runScript os)).downloads = [] ∧
    (runEvents (startDownloadAll s) (runScript os)).downloadedIds =
      (successIds (getUndownloadedItems s) os).foldl setAdd s.downloadedIds ∧
    (∀ id, id ∈ (runEvents (startDownloadAll s) (runScript os)).downloadedIds ↔
      id ∈ s.downloadedIds ∨ id ∈ successIds (getUndownloadedItems s) os) ∧
    ∀ (i : Nat) (item : MediaItem) (o : Outcome × JsString),
      (getUndownloadedItems s)[i]? = some item → os[i]? = some o →
      o.1 ≠ Outcome.success → item.id ∉ s.downloadedIds →
      item.id ∉ (runEvents (startDownloadAll s) (runScript os)).downloadedIds := by
  have hmain : (runEvents (startDownloadAll s) (runScript os)).isDownloadingAll = false ∧
      (runEvents (startDownloadAll s) (runScript os)).downloads = [] ∧
      (runEvents (startDownloadAll s) (runScript os)).downloadedIds =
        (successIds (getUndownloadedItems s) os).foldl setAdd s.downloadedIds := by
    cases hitems : getUndownloadedItems s with
    | nil =>
      rw [hitems] at hlen
      have hos : os = [] := List.length_eq_zero.1 hlen
      subst hos
      simp [startDownloadAll, hitems, runScript, runEvents, hidle, hd, successIds]
    | cons item rest =>
      rw [hitems] at hlen
      rw [natural_run_eq s item rest os hidle hd ht hitems hlen]
      exact ⟨rfl, rfl, settleAll_downloadedIds _ _ _ _⟩
  have hiff : ∀ id, id ∈ (runEvents (startDownloadAll s) (runScript os)).downloadedIds ↔
      id ∈ s.downloadedIds ∨ id ∈ successIds (getUndownloadedItems s) os := by
    intro id
    rw [hmain.2.2, mem_foldl_setAdd]
  refine ⟨hmain.1, hmain.2.1, hmain.2.2, hiff, ?_⟩
  intro i item o hi ho hf hnot hin
  rcases (hiff item.id).1 hin with h | h
  · exact hnot h
  · exact not_mem_successIds_of_failed _ os (getUndownloadedItems_props s hwf).1 i item o hi ho hf h

theorem completed_set_after_run_witness :
    (sampleStandardRun.isDownloadingAll = false ∧
      SessionWF sampleStandardRun.promptSessionData ∧
      sampleOutcomes.length = (getUndownloadedItems sampleStandardRun).length ∧
      (runEvents (startDownloadAll sampleStandardRun) (runScript sampleOutcomes)).downloadedIds =
        [.string (js "A"), .string (js "C")]) ∧
    (samplePromptRun.isDownloadingAll = false ∧
      SessionWF samplePromptRun.promptSessionData ∧
      sampleOutcomes.length = (getUndownloadedItems samplePromptRun).length ∧
      (runEvents (startDownloadAll samplePromptRun) (runScript sampleOutcomes)).downloadedIds =
        [.string (js "A"), .string (js "C")]) :=
  ⟨⟨rfl, ⟨by decide, by decide⟩, by decide,
    (completed_set_after_run sampleStandardRun sampleOutcomes rfl rfl rfl
      ⟨by decide, by decide⟩ (by decide)).2.2.1.trans (by decide)⟩,
   ⟨rfl, ⟨by decide, by decide⟩, by decide,
    (completed_set_after_run samplePromptRun sampleOutcomes rfl rfl rfl
      ⟨by decide, by decide⟩ (by decide)).2.2.1.trans (by decide)⟩⟩

/-- C8 (failure accounting, which the standard path gets wrong): on the favorites page, a run
over the three items `A`, `B`, `C` in which the second item times out ends with
`completed = 3`, `failed = 0` and writes `✓ All Done`, although one of the three outcomes is a
failure; the same run on the prompt page ends with `completed = 2`, `failed = 1` and writes
`Done (1 failed)`. -/
theorem failure_accounting_standard_path :
    successCount sampleOutcomes = 2 ∧ failureCount sampleOutcomes = 1 ∧
    (runEvents (startDownloadAll sampleStandardRun)
        (runScript sampleOutcomes ++ [Event.fire 0])).runs =
      [⟨[sampleItem "A", sampleItem "B", sampleItem "C"], false, 3, 0⟩] ∧
    (runEvents (startDownloadAll sampleStandardRun)
        (runScript sampleOutcomes ++ [Event.fire 0])).reports = [(0, Report.allDone)] ∧
    (runEvents (startDownloadAll samplePromptRun)
        (runScript sampleOutcomes ++ [Event.fire 0])).runs =
      [⟨[sampleItem "A", sampleItem "B", sampleItem "C"], true, 2, 1⟩] ∧
    (runEvents (startDownloadAll samplePromptRun)
        (runScript sampleOutcomes ++ [Event.fire 0])).reports = [(0, Report.doneFailed 1)] := by
  refine ⟨by decide, by decide, ?_, ?_, ?_, ?_⟩
  · exact (standard_path_counts sampleStandardRun (sampleItem "A")
      [sampleItem "B", sampleItem "C"] sampleOutcomes rfl rfl rfl (by decide) (by decide)
      (by decide)).1
  · exact (standard_path_counts sampleStandardRun (sampleItem "A")
      [sampleItem "B", sampleItem "C"] sampleOutcomes rfl rfl rfl (by decide) (by decide)
      (by decide)).2
  · exact (prompt_path_counts samplePromptRun (sampleItem "A")
      [sampleItem "B", sampleItem "C"] sampleOutcomes rfl rfl rfl (by decide) (by decide)
      (by decide)).1
  · exact (prompt_path_counts samplePromptRun (sampleItem "A")
      [sampleItem "B", sampleItem "C"] sampleOutcomes rfl rfl rfl (by decide) (by decide)
      (by decide)).2

/-- C9: a run is started on an idle state; the first items go through with the outcomes `os`;
the user clicks the button (a cancel request) just before or just after the current request
ends with outcome `o`. When the 100 ms timer fires next, the run ends as Cancelled: the running
flag and the cancellation flag are clear, nothing is pending and every later outcome or timer
event changes nothing, the text written is `Cancelled (c/n done)` (with `c = k` on the prompt
path), only the items that had an outcome were requested, the Completed-set
gained exactly the ids of the items retrieved successfully (`k` of them), and
`getUndownloadedItems` now returns the items of the original backlog that were not retrieved
successfully (the `n - k` others, failed ones included) in the original order. -/
theorem cancellation_safety (s : State) (os : List (Outcome × JsString))
    (o : Outcome × JsString) (inFlight : Bool)
    (hidle : s.isDownloadingAll = false) (hd : s.downloads = []) (ht : s.timers = [])
    (hwf : SessionWF s.promptSessionData)
    (hlen : os.length < (getUndownloadedItems s).length) :
    (runEvents (startDownloadAll s) (cancelScript os o inFlight)).isDownloadingAll = false ∧
    (runEvents (startDownloadAll s) (cancelScript os o inFlight)).cancelDownload = false ∧
    (runEvents (startDownloadAll s) (cancelScript os o inFlight)).downloads = [] ∧
    (runEvents (startDownloadAll s) (cancelScript os o inFlight)).timers = [] ∧
    (∀ n o' now, step (runEvents (startDownloadAll s) (cancelScript os o inFlight))
        (Event.deliver n o' now) = runEvents (startDownloadAll s) (cancelScript os o inFlight)) ∧
    (∀ n, step (runEvents (startDownloadAll s) (cancelScript os o inFlight)) (Event.fire n) =
        runEvents (startDownloadAll s) (cancelScript os o inFlight)) ∧
    (∃ c, (runEvents (startDownloadAll s) (cancelScript os o inFlight)).reports =
        s.reports ++ [(s.runs.length, Report.cancelled c (getUndownloadedItems s).length)] ∧
      (isPromptLikePage (detectPageType s.pathname) = true → c = successCount (os ++ [o]))) ∧
    (runEvents (startDownloadAll s) (cancelScript os o inFlight)).requests =
      s.requests ++
        requestsFrom s.runs.length 0 ((getUndownloadedItems s).take (os.length + 1)) ∧
    (∀ id, id ∈ (runEvents (startDownloadAll s) (cancelScript os o inFlight)).downloadedIds ↔
      id ∈ s.downloadedIds ∨ id ∈ successIds (getUndownloadedItems s) (os ++ [o])) ∧
    (successIds (getUndownloadedItems s) (os ++ [o])).length = successCount (os ++ [o]) ∧
    getUndownloadedItems (runEvents (startDownloadAll s) (cancelScript os o inFlight)) =
      unretrieved (getUndownloadedItems s) (os ++ [o]) ∧
    (unretrieved (getUndownloadedItems s) (os ++ [o])).length =
      (getUndownloadedItems s).length - successCount (os ++ [o]) := by
  have hlen' : (os ++ [o]).length ≤ (getUndownloadedItems s).length := by
    simp only [List.length_append, List.length_singleton]; omega
  cases hitems : getUndownloadedItems s with
  | nil => rw [hitems] at hlen; simp at hlen
  | cons item rest =>
    have heq := cancelled_run_eq s item rest os o inFlight hidle hd ht hitems
      (by rw [← hitems]; exact hlen)
    rw [← hitems] at heq ⊢
    rw [heq]
    refine ⟨rfl, rfl, rfl, rfl, fun n o' now => ?_, fun n => ?_,
      ⟨_, rfl, fun hp => by rw [hp, completedAfter_prompt, Nat.zero_add]⟩, rfl, fun id => ?_,
      successIds_length _ _ hlen', backlog_after_settle s _ hwf _ _ _ _ _ _ _,
      unretrieved_length _ _ hlen'⟩
    · simp [step, runState]
    · simp [step, runState]
    · show id ∈ (settleAll _ _ _ _).downloadedIds ↔ _
      rw [settleAll_downloadedIds, mem_foldl_setAdd]
      rfl

theorem cancellation_safety_witness :
    (sampleStandardRun.isDownloadingAll = false ∧
      SessionWF sampleStandardRun.promptSessionData ∧
      [(Outcome.success, js "t1")].length < (getUndownloadedItems sampleStandardRun).length) ∧
    (runEvents (startDownloadAll sampleStandardRun)
        (cancelScript [(Outcome.success, js "t1")] (Outcome.timeout, js "t2") false)).isDownloadingAll
      = false ∧
    getUndownloadedItems (runEvents (startDownloadAll sampleStandardRun)
        (cancelScript [(Outcome.success, js "t1")] (Outcome.timeout, js "t2") false)) =
      [sampleItem "B", sampleItem "C"] ∧
    getUndownloadedItems (runEvents (startDownloadAll samplePromptRun)
        (cancelScript [(Outcome.success, js "t1")] (Outcome.timeout, js "t2") true)) =
      [sampleItem "B", sampleItem "C"] :=
  ⟨⟨rfl, ⟨by decide, by decide⟩, by decide⟩,
   (cancellation_safety sampleStandardRun [(Outcome.success, js "t1")] (Outcome.timeout, js "t2")
      false rfl rfl rfl ⟨by decide, by decide⟩ (by decide)).1,
   (cancellation_safety sampleStandardRun [(Outcome.success, js "t1")] (Outcome.timeout, js "t2")
      false rfl rfl rfl ⟨by decide, by decide⟩ (by decide)).2.2.2.2.2.2.2.2.2.2.1.trans (by decide),
   (cancellation_safety samplePromptRun [(Outcome.success, js "t1")] (Outcome.timeout, js "t2")
      true rfl rfl rfl ⟨by decide, by decide⟩ (by decide)).2.2.2.2.2.2.2.2.2.2.1.trans (by decide)⟩

/-- C10: from a state in which no run is going, nothing is pending and the request log is
empty, after any sequence of events (outcomes delivered, timers fired and button clicks, in any
order): at most one request is pending; while a request of a run is pending it is the latest
request made and the run has made no request for a later item, so the request for item `i + 1`
is made only after the outcome of item `i` was delivered; the requests each run has made are,
in order, the requests for an initial part of its `items`, each item once, so a run over `n`
items makes at most `n` requests; and the `items` of a run are the backlog at the click that
started it. -/
theorem strictly_sequential (s0 : State) (events : List Event)
    (hidle : s0.isDownloadingAll = false) (hd : s0.downloads = []) (ht : s0.timers = [])
    (hreq : s0.requests = []) :
    (runEvents s0 events).downloads.length ≤ 1 ∧
    (∀ d ∈ (runEvents s0 events).downloads,
      (∃ item, (runEvents s0 events).requests.getLast? = some (requestOf d.1 d.2 item)) ∧
      ∀ q ∈ (runEvents s0 events).requests, q.run = d.1 → q.index ≤ d.2) ∧
    (∀ r run, (runEvents s0 events).runs[r]? = some run →
      ∃ m, m ≤ run.items.length ∧
        ((runEvents s0 events).requests.filter fun q => decide (q.run = r)) =
          requestsFrom r 0 (run.items.take m)) ∧
    (∀ q ∈ (runEvents s0 events).requests, q.run < (runEvents s0 events).runs.length) ∧
    (∀ es1 es2, events = es1 ++ Event.click :: es2 →
      (runEvents s0 es1).isDownloadingAll = false →
      getUndownloadedItems (runEvents s0 es1) ≠ [] →
      Option.map Run.items ((runEvents s0 events).runs[(runEvents s0 es1).runs.length]?) =
        some (getUndownloadedItems (runEvents s0 es1))) := by
  have h := RunInv_runEvents events s0 (RunInv_initial s0 hidle hd ht hreq)
  refine ⟨?_, ?_, ?_, h.requestsOk, ?_⟩
  · have hp := h.pending
    split at hp <;> omega
  · intro d hdm
    obtain ⟨_, items, item, _, hj, hq, hlast⟩ := h.downloadsOk d hdm
    refine ⟨⟨item, hlast⟩, fun q hqm hrun => ?_⟩
    have hmem : q ∈ requestsOfRun (runEvents s0 events) d.1 := by
      unfold requestsOfRun
      exact List.mem_filter.2 ⟨hqm, by simpa using hrun⟩
    rw [hq] at hmem
    have := (mem_requestsFrom _ _ _ _ hmem).2.2
    have hlen := List.length_take_le (d.2 + 1) items
    omega
  · intro r run hrun
    have : itemsOfRun (runEvents s0 events) r = some run.items := by
      simp [itemsOfRun, hrun]
    exact h.runsOk r run.items this
  · intro es1 es2 hev hidle1 hne
    subst hev
    rw [runEvents_append]
    exact started_run_items (runEvents s0 es1) es2 hidle1 hne

theorem strictly_sequential_witness :
    sampleStandardRun.isDownloadingAll = false ∧
    (runEvents sampleStandardRun sampleEvents).downloads = [(0, 2)] ∧
    (runEvents sampleStandardRun sampleEvents).downloads.length ≤ 1 ∧
    (runEvents sampleStandardRun sampleEvents).requests =
      requestsFrom 0 0 [sampleItem "A", sampleItem "B", sampleItem "C"] ∧
    (∀ q ∈ (runEvents sampleStandardRun sampleEvents).requests, q.run = 0 → q.index ≤ 2) ∧
    Option.map Run.items ((runEvents sampleStandardRun sampleEvents).runs[0]?) =
      some [sampleItem "A", sampleItem "B", sampleItem "C"] :=
  ⟨rfl, by decide,
   (strictly_sequential sampleStandardRun sampleEvents rfl rfl rfl rfl).1,
   by decide,
   ((strictly_sequential sampleStandardRun sampleEvents rfl rfl rfl rfl).2.1 (0, 2)
      (by decide)).2,
   ((strictly_sequential sampleStandardRun sampleEvents rfl rfl rfl rfl).2.2.2.2 []
      (sampleEvents.drop 1) rfl rfl (by decide)).trans (by decide)⟩

/-! ## Lemmas on filenames -/

theorem truthy_iff (v : JsVal) : truthy v = true ↔ ∃ c rest, v = .string (c :: rest) := by
  cases v with
  | undefined => simp [truthy]
  | null => simp [truthy]
  | string l => cases l <;> simp [truthy]

theorem str_of_not_truthy (v : JsVal) (h : truthy v = false) : v.str = [] := by
  cases v with
  | undefined => rfl
  | null => rfl
  | string l => cases l with
    | nil => rfl
    | cons c rest => simp [truthy] at h

theorem str_ne_nil_of_truthy (v : JsVal) (h : truthy v = true) : v.str ≠ [] := by
  obtain ⟨c, rest, rfl⟩ := (truthy_iff v).1 h
  simp [JsVal.str]

theorem truthy_some (l : JsString) : truthy (.string l) = decide (l ≠ []) := by
  cases l <;> simp [truthy]

theorem collapseWhitespace_eq_nil (b : Bool) (l : JsString) (h : collapseWhitespace b l = []) :
    l = [] ∨ b = true := by
  cases l with
  | nil => exact Or.inl rfl
  | cons c rest =>
    right
    unfold collapseWhitespace at h
    split at h
    · split at h
      · assumption
      · cases h
    · cases h

theorem sanitizeForFilename_of_not_truthy (v : JsVal) (h : truthy v = false) :
    sanitizeForFilename v = [] := by
  unfold sanitizeForFilename jsOr
  simp [h, JsVal.str, collapseWhitespace]

theorem sanitizeForFilename_ne_nil (v : JsVal) (h : truthy v = true) :
    sanitizeForFilename v ≠ [] := by
  obtain ⟨c, rest, rfl⟩ := (truthy_iff v).1 h
  intro hn
  unfold sanitizeForFilename jsOr at hn
  rcases collapseWhitespace_eq_nil _ _ hn with h1 | h1
  · simp [truthy, JsVal.str] at h1
  · cases h1

theorem truncatePrompt_eq_nil (text : JsString) : truncatePrompt text = [] ↔ text = [] := by
  unfold truncatePrompt
  split
  · rfl
  · rename_i h
    constructor
    · intro h1
      simp [js] at h1
    · intro h1
      subst h1
      simp at h

theorem extension_eq (item : FilenameInput) :
    (if truthy item.mimeType then
      if item.mimeType = .string (js "video/mp4") then js "mp4"
      else if item.mimeType = .string (js "image/png") then js "png"
      else if item.mimeType = .string (js "image/jpeg") then js "jpg"
      else (if item.isVideo then js "mp4" else js "jpg")
    else (if item.isVideo then js "mp4" else js "jpg")) = extensionOf item := by
  unfold extensionOf
  by_cases h : truthy item.mimeType = true
  · simp [h]
  · have h0 : truthy item.mimeType = false := by simpa using h
    have h1 : item.mimeType ≠ .string (js "video/mp4") := fun e => by rw [e] at h0; revert h0; decide
    have h2 : item.mimeType ≠ .string (js "image/png") := fun e => by rw [e] at h0; revert h0; decide
    have h3 : item.mimeType ≠ .string (js "image/jpeg") := fun e => by rw [e] at h0; revert h0; decide
    simp [h0, h1, h2, h3]

theorem truncate_eq (text : JsString) :
    (if text.length > 100 then text.take 97 ++ js "..." else text) = truncatePrompt text := by
  unfold truncatePrompt
  by_cases h : text.length ≤ 100
  · simp [h, Nat.not_lt.2 h]
  · simp [h, Nat.lt_of_not_le h]

theorem timestampOf_ne_nil (v : JsVal) : timestampOf v ≠ [] := by
  unfold timestampOf
  split
  · rename_i h
    obtain ⟨c, rest, rfl⟩ := (truthy_iff v).1 h
    simp [JsVal.str]
  · decide

theorem jsOr_unknown_str (id : JsVal) : (jsOr id (.string (js "unknown"))).str = orUnknown id := by
  unfold orUnknown jsOr
  split <;> rfl

/-- The filename of `buildUnifiedFilename` as one concatenation. -/
theorem buildUnifiedFilename_eq (time id : JsVal) (model prompt ext : JsString) :
    buildUnifiedFilename { time := time, id := id, model := .string model, prompt := .string prompt,
                           ext := ext } =
      composeFilename (orUnknown time) (orUnknown id) model prompt ext := by
  unfold buildUnifiedFilename composeFilename
  simp only [jsOr_unknown_str]
  cases model <;> cases prompt <;>
    simp [jsOr, truthy, JsVal.str, List.intercalate, List.intersperse]

theorem orUnknown_timestampOf (createTime : JsVal) :
    orUnknown (.string (timestampOf createTime)) = timestampOf createTime := by
  have h := timestampOf_ne_nil createTime
  unfold orUnknown
  rw [truthy_some]
  simp [h, JsVal.str]

/-- The filename of `buildFilename` as one concatenation. -/
theorem buildFilename_eq (item : FilenameInput) :
    buildFilename item =
      composeFilename (timestampOf item.createTime) (orUnknown item.id)
        (sanitizeForFilename item.modelName)
        (truncatePrompt (sanitizeForFilename item.prompt)) (extensionOf item) := by
  have hm : (if truthy item.modelName then sanitizeForFilename item.modelName else []) =
      sanitizeForFilename item.modelName := by
    split
    · rfl
    · rename_i h
      exact (sanitizeForFilename_of_not_truthy _ (by simpa using h)).symm
  have hp : (if truthy item.prompt then sanitizeForFilename item.prompt else []) =
      sanitizeForFilename item.prompt := by
    split
    · rfl
    · rename_i h
      exact (sanitizeForFilename_of_not_truthy _ (by simpa using h)).symm
  have h := buildUnifiedFilename_eq (.string (timestampOf item.createTime)) item.id
    (sanitizeForFilename item.modelName) (truncatePrompt (sanitizeForFilename item.prompt))
    (extensionOf item)
  rw [orUnknown_timestampOf] at h
  refine Eq.trans ?_ h
  unfold buildFilename
  simp only [hm, hp, truncate_eq, extension_eq]
  rfl

/-- The filename of `buildPromptFilename` as one concatenation. -/
theorem buildPromptFilename_eq (id prompt : JsVal) (now : JsString) :
    buildPromptFilename id prompt now =
      composeFilename (timestampOf (.string now)) (orUnknown id) []
        (truncatePrompt (sanitizeForFilename (jsOr prompt (.string (js "no-prompt"))))) (js "jpg") := by
  have ht : orUnknown (.string ((now.take 19).map fun c => if c == 58 then 45 else c)) =
      timestampOf (.string now) := by
    cases now with
    | nil => rfl
    | cons c rest => simp [orUnknown, timestampOf, truthy, JsVal.str]
  have h := buildUnifiedFilename_eq
    (.string ((now.take 19).map fun c => if c == 58 then 45 else c)) id []
    (truncatePrompt (sanitizeForFilename (jsOr prompt (.string (js "no-prompt"))))) (js "jpg")
  rw [ht] at h
  refine Eq.trans ?_ h
  unfold buildPromptFilename
  simp only [truncate_eq]

theorem truncatePrompt_length (text : JsString) : (truncatePrompt text).length ≤ 100 := by
  unfold truncatePrompt
  split
  · assumption
  · rename_i h
    have h1 : (text.take 97).length = 97 := by
      rw [List.length_take]
      omega
    rw [List.length_append, h1]
    decide

theorem mem_collapseWhitespace (b : Bool) (l : JsString) (c : Nat)
    (h : c ∈ collapseWhitespace b l) : c = underscore ∨ (c ∈ l ∧ isJsWhitespace c = false) := by
  induction l generalizing b with
  | nil => simp [collapseWhitespace] at h
  | cons x rest ih =>
    have step : ∀ b', c ∈ collapseWhitespace b' rest →
        c = underscore ∨ (c ∈ x :: rest ∧ isJsWhitespace c = false) := by
      intro b' h'
      rcases ih _ h' with h1 | h1
      · exact Or.inl h1
      · exact Or.inr ⟨List.mem_cons_of_mem _ h1.1, h1.2⟩
    by_cases hx : isJsWhitespace x = true
    · cases b with
      | true =>
        simp only [collapseWhitespace, hx, if_true] at h
        exact step _ h
      | false =>
        simp only [collapseWhitespace, hx, if_true, Bool.false_eq_true, if_false,
          List.mem_cons] at h
        rcases h with h | h
        · exact Or.inl h
        · exact step _ h
    · simp only [collapseWhitespace, hx, Bool.false_eq_true, if_false, List.mem_cons] at h
      rcases h with h | h
      · subst h
        exact Or.inr ⟨List.mem_cons_self _ _, by simpa using hx⟩
      · exact step _ h

/-- The text `sanitizeForFilename` returns has no illegal character and no whitespace. -/
theorem sanitizeForFilename_safe (v : JsVal) (c : Nat) (h : c ∈ sanitizeForFilename v) :
    isSafeFilenameChar c = true := by
  unfold sanitizeForFilename at h
  rcases mem_collapseWhitespace _ _ _ h with h1 | ⟨h1, h2⟩
  · subst h1
    decide
  · obtain ⟨d, _, hd⟩ := List.mem_map.1 h1
    by_cases hi : isIllegalFilenameChar d = true
    · simp only [hi, if_true] at hd
      subst hd
      decide
    · have hi' : isIllegalFilenameChar d = false := by simpa using hi
      simp only [hi', Bool.false_eq_true, if_false] at hd
      subst hd
      simp [isSafeFilenameChar, h2, hi']

theorem truncatePrompt_safe (text : JsString)
    (h : ∀ c ∈ text, isSafeFilenameChar c = true) :
    ∀ c ∈ truncatePrompt text, isSafeFilenameChar c = true := by
  intro c hc
  unfold truncatePrompt at hc
  split at hc
  · exact h c hc
  · rcases List.mem_append.1 hc with h1 | h1
    · exact h c (List.mem_of_mem_take h1)
    · have hdots : ∀ c ∈ js "...", isSafeFilenameChar c = true := by decide
      exact hdots c h1

theorem timestampOf_safe (createTime : JsVal)
    (h : ∀ c ∈ createTime.str.take 19, c = 58 ∨ isSafeFilenameChar c = true) :
    ∀ c ∈ timestampOf createTime, isSafeFilenameChar c = true := by
  intro c hc
  unfold timestampOf at hc
  split at hc
  · obtain ⟨d, hd, hdc⟩ := List.mem_map.1 hc
    by_cases h58 : d = 58
    · subst h58
      subst hdc
      decide
    · have h1 : (d == 58) = false := by simpa using h58
      simp only [h1, Bool.false_eq_true, if_false] at hdc
      subst hdc
      rcases h d hd with h2 | h2
      · exact absurd h2 h58
      · exact h2
  · revert c hc
    decide

theorem orUnknown_safe (v : JsVal) (h : ∀ c ∈ v.str, isSafeFilenameChar c = true) :
    ∀ c ∈ orUnknown v, isSafeFilenameChar c = true := by
  intro c hc
  unfold orUnknown at hc
  split at hc
  · exact h c hc
  · revert c hc
    decide

theorem extensionOf_safe (item : FilenameInput) :
    ∀ c ∈ extensionOf item, isSafeFilenameChar c = true := by
  intro c hc
  unfold extensionOf at hc
  split at hc
  · revert c hc; decide
  · split at hc
    · revert c hc; decide
    · split at hc
      · revert c hc; decide
      · split at hc
        · revert c hc; decide
        · revert c hc; decide

theorem composeFilename_safe (timestamp id model prompt ext : JsString)
    (ht : ∀ c ∈ timestamp, isSafeFilenameChar c = true)
    (hi : ∀ c ∈ id, isSafeFilenameChar c = true)
    (hm : ∀ c ∈ model, isSafeFilenameChar c = true)
    (hp : ∀ c ∈ prompt, isSafeFilenameChar c = true)
    (he : ∀ c ∈ ext, isSafeFilenameChar c = true) :
    ∀ c ∈ composeFilename timestamp id model prompt ext, isSafeFilenameChar c = true := by
  have hg : ∀ c ∈ js "grok", isSafeFilenameChar c = true := by decide
  have hu : ∀ c ∈ js "_", isSafeFilenameChar c = true := by decide
  have hd : ∀ c ∈ js ".", isSafeFilenameChar c = true := by decide
  intro c hc
  unfold composeFilename at hc
  simp only [List.mem_append] at hc
  rcases hc with (((((((h | h) | h) | h) | h) | h) | h) | h) | h
  · exact hg c h
  · exact hu c h
  · exact ht c h
  · exact hu c h
  · exact hi c h
  · split at h
    · simp at h
    · rcases List.mem_append.1 h with h1 | h1
      · exact hu c h1
      · exact hm c h1
  · split at h
    · simp at h
    · rcases List.mem_append.1 h with h1 | h1
      · exact hu c h1
      · exact hp c h1
  · exact hd c h
  · exact he c h

/-- The filename of `buildFilename` is safe as soon as the id is, and the first 19 code units
of the creation time are safe apart from `:`; the model name and the prompt are arbitrary. -/
theorem buildFilename_safe (item : FilenameInput)
    (hid : ∀ c ∈ item.id.str, isSafeFilenameChar c = true)
    (hct : ∀ c ∈ item.createTime.str.take 19, c = 58 ∨ isSafeFilenameChar c = true) :
    ∀ c ∈ buildFilename item, isSafeFilenameChar c = true := by
  rw [buildFilename_eq]
  exact composeFilename_safe _ _ _ _ _ (timestampOf_safe _ hct) (orUnknown_safe _ hid)
    (fun c hc => sanitizeForFilename_safe _ c hc)
    (truncatePrompt_safe _ fun c hc => sanitizeForFilename_safe _ c hc) (extensionOf_safe item)

/-! ## Lemmas on ingestion of malformed records and on inherited metadata -/

theorem processPost_of_no_id (root : JsVal) (t : Tables) (post : Post)
    (h : truthy post.id = false) : processPost root t post = t := by
  unfold processPost
  simp [h]

theorem foldl_processPost_filter (root : JsVal) (posts : List Post) (t : Tables) :
    posts.foldl (processPost root) t =
      (posts.filter fun p => truthy p.id).foldl (processPost root) t := by
  induction posts generalizing t with
  | nil => rfl
  | cons p rest ih =>
    cases h : truthy p.id with
    | true => simp only [List.foldl_cons, List.filter_cons, h, if_true, ih]
    | false =>
      simp only [List.foldl_cons, List.filter_cons, h, Bool.false_eq_true, if_false,
        processPost_of_no_id root t p h, ih]

theorem ingest_filter (root : JsVal) (t : Tables) (posts : List Post) :
    ingest root t posts = ingest root t (posts.filter fun p => truthy p.id) := by
  unfold ingest
  rw [foldl_processPost_filter]

theorem ingest_skip (root : JsVal) (t : Tables) (pre post : List Post) (bad : Post)
    (h : truthy bad.id = false) :
    ingest root t (pre ++ bad :: post) = ingest root t (pre ++ post) := by
  rw [ingest_filter root t (pre ++ bad :: post), ingest_filter root t (pre ++ post)]
  simp [List.filter_append, List.filter_cons, h]

theorem jsOr_eq_left (a b : JsVal) (h : truthy a = true) : jsOr a b = a := by
  simp [jsOr, h]

theorem jsOr_eq_right (a b : JsVal) (h : truthy a = false) : jsOr a b = b := by
  simp [jsOr, h]

/-- The chain `a || b || c || d || ''` picks the first present value. -/
theorem jsOr_chain_str (a b c d : JsVal) :
    (jsOr (jsOr (jsOr (jsOr a b) c) d) (.string [])).str = firstPresent [a, b, c, d] := by
  cases ha : truthy a <;> cases hb : truthy b <;> cases hc : truthy c <;> cases hd : truthy d <;>
    simp [jsOr, firstPresent, ha, hb, hc, hd, JsVal.str]

theorem jsOr_pair_str (a b : JsVal) :
    (jsOr (jsOr a b) (.string [])).str = firstPresent [a, b] := by
  cases ha : truthy a <;> cases hb : truthy b <;>
    simp [jsOr, firstPresent, ha, hb, JsVal.str]

theorem some_str_of_truthy (a : JsVal) (h : truthy a = true) : .string a.str = a := by
  obtain ⟨c, rest, rfl⟩ := (truthy_iff a).1 h
  rfl

/-- The chain `a || undefined || ''` is the value when present, else the empty text. -/
theorem jsOr_none_nil (a : JsVal) :
    jsOr (jsOr a .undefined) (.string []) = .string (firstPresent [a]) := by
  cases h : truthy a with
  | true =>
    rw [jsOr_eq_left a .undefined h, jsOr_eq_left a _ h]
    simp only [firstPresent, h, if_true]
    exact (some_str_of_truthy a h).symm
  | false =>
    rw [jsOr_eq_right a .undefined h, jsOr_eq_right .undefined _ rfl]
    simp only [firstPresent, h, Bool.false_eq_true, if_false]

theorem firstPresent_none_none (a b : JsVal) :
    firstPresent [a, b, .undefined, .undefined] = firstPresent [a, b] := by
  have hn : truthy .undefined = false := rfl
  simp only [firstPresent, hn, Bool.false_eq_true, if_false]

/-! ## Lemmas on loading the tables -/

/-- When `loadMediaDatabase` returns `false`: the Group slot is absent, rejected by
`JSON.parse`, has no `entries` or carries another path, and the state is as it was; or the
Group slot was accepted and applied, and `JSON.parse` rejected the derivation-edge slot. -/
theorem loadMediaDatabase_false (s : State) (h : (loadMediaDatabase s).2 = false) :
    ((mapGet s.storage.mediaDb (.string s.pathname) = none ∨
      mapGet s.storage.mediaDb (.string s.pathname) = some Slot.invalid ∨
      (∃ path, mapGet s.storage.mediaDb (.string s.pathname) = some (Slot.doc path none)) ∨
      (∃ path entries, mapGet s.storage.mediaDb (.string s.pathname) =
        some (Slot.doc path entries) ∧ path ≠ .string s.pathname)) ∧
     (loadMediaDatabase s).1 = s) ∨
    (∃ entries, mapGet s.storage.mediaDb (.string s.pathname) =
        some (Slot.doc (.string s.pathname) (some entries)) ∧
      mapGet s.storage.childParent (.string s.pathname) = some Slot.invalid ∧
      (loadMediaDatabase s).1 =
        { s with mediaDatabase := loadEntries entries, childToParentMap := [] }) := by
  unfold loadMediaDatabase at h ⊢
  cases hm : mapGet s.storage.mediaDb (.string s.pathname) with
  | none => exact Or.inl ⟨Or.inl rfl, rfl⟩
  | some slot =>
    cases slot with
    | invalid => exact Or.inl ⟨Or.inr (Or.inl rfl), rfl⟩
    | doc path entries =>
      cases entries with
      | none => exact Or.inl ⟨Or.inr (Or.inr (Or.inl ⟨path, rfl⟩)), rfl⟩
      | some entries =>
        by_cases hp : path = .string s.pathname
        · subst hp
          rw [hm] at h
          simp only [ne_eq, not_true_eq_false, if_false] at h ⊢
          cases hc : mapGet s.storage.childParent (.string s.pathname) with
          | none => rw [hc] at h; simp at h
          | some cslot =>
            rw [hc] at h
            cases cslot with
            | invalid => exact Or.inr ⟨entries, rfl, rfl, rfl⟩
            | doc cpath centries =>
              cases centries with
              | none => simp at h
              | some centries =>
                simp only at h
                split at h <;> simp at h
        · refine Or.inl ⟨Or.inr (Or.inr (Or.inr ⟨path, some entries, rfl, hp⟩)), ?_⟩
          simp [hp]

/-- A payload whose path tag is not the current path is never applied. -/
theorem loadMediaDatabase_of_tag_mismatch (s : State) (path : JsVal)
    (entries : Option (List (JsVal × Option Media)))
    (hslot : mapGet s.storage.mediaDb (.string s.pathname) = some (Slot.doc path entries))
    (hpath : path ≠ .string s.pathname) : loadMediaDatabase s = (s, false) := by
  unfold loadMediaDatabase
  rw [hslot]
  cases entries with
  | none => rfl
  | some entries => simp [hpath]

theorem loadMediaDatabase_of_absent (s : State)
    (h : mapGet s.storage.mediaDb (.string s.pathname) = none) :
    loadMediaDatabase s = (s, false) := by
  unfold loadMediaDatabase
  rw [h]

/-! ## Lemmas on the Completed-set -/

theorem markAsDownloaded_downloadedIds (s : State) (id : JsVal) :
    (markAsDownloaded s id).downloadedIds = setAdd s.downloadedIds id := rfl

theorem downloadNext_downloadedIds (s : State) (r j : Nat) :
    (downloadNext s r j).downloadedIds = s.downloadedIds := by
  unfold downloadNext
  split
  · rfl
  · split
    · rfl
    · split
      · rfl
      · split <;> rfl

theorem reportDone_downloadedIds (s : State) (r : Nat) :
    (reportDone s r).downloadedIds = s.downloadedIds := by
  unfold reportDone
  split <;> rfl

theorem startDownloadAll_downloadedIds (s : State) :
    (startDownloadAll s).downloadedIds = s.downloadedIds := by
  unfold startDownloadAll
  simp only []
  split
  · rfl
  · rw [downloadNext_downloadedIds]

/-- What the outcome callbacks of the bulk run do to the Completed-set: `onload` adds the id
of the item of the request, `onerror` and `ontimeout` add nothing. -/
theorem onOutcome_downloadedIds (s : State) (r j : Nat) (o : Outcome) (now : JsString) :
    (onOutcome s r j o now).downloadedIds =
      match (s.runs[r]?).bind (fun run => run.items[j]?), o with
      | some item, Outcome.success => setAdd s.downloadedIds item.id
      | _, _ => s.downloadedIds := by
  unfold onOutcome
  cases hr : s.runs[r]? with
  | none => simp
  | some run =>
    cases hi : run.items[j]? with
    | none => simp [hi]
    | some item =>
      cases hp : run.isPromptPage <;> cases o <;>
        simp [hi, hp, downloadFile, scheduleNext, incCompleted, incFailed, markAsDownloaded,
          saveDownloadedIds, markPromptSessionDownloaded_eq]

theorem loadMediaDatabase_downloadedIds (s : State) :
    (loadMediaDatabase s).1.downloadedIds = s.downloadedIds := by
  unfold loadMediaDatabase
  split
  · rfl
  · rfl
  · rfl
  · split
    · rfl
    · simp only []
      split
      · rfl
      · rfl
      · rfl
      · split <;> rfl

theorem processApiData_downloadedIds (s : State) (apiData : Option ApiData) :
    (processApiData s apiData).downloadedIds = s.downloadedIds := by
  unfold processApiData
  split <;> rfl

theorem refreshMediaDatabase_downloadedIds (s : State) :
    (refreshMediaDatabase s).downloadedIds = s.downloadedIds := by
  unfold refreshMediaDatabase
  simp only []
  split
  · rw [processApiData_downloadedIds]
    rfl
  · rfl

/-- The Completed-set after an operation: the one before, with the id of the retrieved Asset
added when the operation is the `onload` of a request. -/
theorem applyOp_downloadedIds (s : State) (op : Op) :
    (applyOp s op).downloadedIds =
      match retrievedId s op with
      | some id => setAdd s.downloadedIds id
      | none => s.downloadedIds := by
  cases op with
  | event e =>
    cases e with
    | deliver n o now =>
      simp only [applyOp, step]
      cases hd : s.downloads[n]? with
      | none => cases o <;> simp [retrievedId, pendingItem, hd]
      | some d =>
        obtain ⟨r, j⟩ := d
        simp only [onOutcome_downloadedIds]
        cases hi : (s.runs[r]?).bind (fun run => run.items[j]?) with
        | none => cases o <;> simp [retrievedId, pendingItem, hd, hi]
        | some item => cases o <;> simp [retrievedId, pendingItem, hd, hi]
    | fire n =>
      simp only [applyOp, step, retrievedId]
      cases ht : s.timers[n]? with
      | none => rfl
      | some t =>
        cases t with
        | next r j => simp only [downloadNext_downloadedIds]
        | report r => simp only [reportDone_downloadedIds]
    | click =>
      simp only [applyOp, step, retrievedId, handleDownloadButtonClick]
      split
      · rfl
      · exact startDownloadAll_downloadedIds s
  | ingest apiData => exact processApiData_downloadedIds s apiData
  | dedupe => rfl
  | clear => rfl
  | save => rfl
  | load => exact loadMediaDatabase_downloadedIds s
  | refresh => exact refreshMediaDatabase_downloadedIds s
  | dedupeButton => rfl
  | clearSessionButton => rfl
  | clearSession sessionId now => rfl
  | groupItem item o => cases o <;> rfl
  | promptItem item o now =>
    cases o with
    | success =>
      simp [applyOp, promptItemOutcome, retrievedId, markAsDownloaded, saveDownloadedIds,
        markPromptSessionDownloaded_eq]
    | error => rfl
    | timeout => rfl

/-! ## Properties of the filenames -/

/-- C12 (filename composition, amended for a missing id): for every asset `buildFilename`
returns `grok`, `_`, the timestamp, `_`, the id part, then `_` and the sanitized model only
when that is non-empty, then `_` and the prompt component only when that is non-empty, then
`.` and the extension. The timestamp is the first 19 code units of `createTime` with every `:`
replaced by `-`, or `unknown` when `createTime` is missing; the id part is the id, or
`unknown` when the id is missing or empty. For an asset that has an id the filename is the one
with the id written as it is. The scenario asset (id `abc`, no model, prompt `a/b?c`, an
image) gets `grok_2024-01-01T00-00-00_abc_a_b_c.jpg`. -/
theorem filename_composition (item : FilenameInput) :
    buildFilename item =
      composeFilename (timestampOf item.createTime) (orUnknown item.id)
        (sanitizeForFilename item.modelName)
        (truncatePrompt (sanitizeForFilename item.prompt)) (extensionOf item) ∧
    (truthy item.id = true → buildFilename item = filenameWithRawId item) ∧
    buildFilename scenarioFilenameInput = js "grok_2024-01-01T00-00-00_abc_a_b_c.jpg" ∧
    buildUnifiedFilename
        { time := .string (js "2024-01-01T00-00-00"), id := .string (js "abc"), model := .string [],
          prompt := .string (sanitizeForFilename (.string (js "a/b?c"))), ext := js "jpg" } =
      js "grok_2024-01-01T00-00-00_abc_a_b_c.jpg" := by
  refine ⟨buildFilename_eq item, fun hid => ?_, by decide, by decide⟩
  rw [buildFilename_eq]
  unfold filenameWithRawId orUnknown
  rw [if_pos hid]

theorem filename_composition_witness :
    truthy scenarioFilenameInput.id = true ∧
    buildFilename scenarioFilenameInput = filenameWithRawId scenarioFilenameInput :=
  ⟨by decide, (filename_composition scenarioFilenameInput).2.1 (by decide)⟩

/-- C12 as stated fails for an asset record without an id: with the empty id the formula of
the claim gives `grok_2024-01-01T00-00-00_.jpg`, and `buildFilename` returns
`grok_2024-01-01T00-00-00_unknown.jpg` (the same when the id is missing altogether). -/
theorem filename_composition_counterexample :
    buildFilename noIdFilenameInput = js "grok_2024-01-01T00-00-00_unknown.jpg" ∧
    buildFilename { noIdFilenameInput with id := .undefined } =
      js "grok_2024-01-01T00-00-00_unknown.jpg" ∧
    filenameWithRawId noIdFilenameInput = js "grok_2024-01-01T00-00-00_.jpg" ∧
    buildFilename noIdFilenameInput ≠ filenameWithRawId noIdFilenameInput := by
  decide

/-- C13 (prompt length bound, amended for the placeholder): the prompt component that
`buildFilename` puts into the filename is cut from the sanitized prompt; the one that
`buildPromptFilename` puts there is cut from the sanitized prompt when the prompt is
non-empty and from the placeholder `no-prompt` when the prompt is missing or empty. The cut
text has at most 100 code units: it is the text itself when that has at most 100, and
otherwise its first 97 code units followed by `...`. -/
theorem prompt_length_bound (item : FilenameInput) (id prompt : JsVal) (now : JsString) :
    buildFilename item =
      composeFilename (timestampOf item.createTime) (orUnknown item.id)
        (sanitizeForFilename item.modelName)
        (truncatePrompt (sanitizeForFilename item.prompt)) (extensionOf item) ∧
    buildPromptFilename id prompt now =
      composeFilename (timestampOf (.string now)) (orUnknown id) []
        (truncatePrompt (sanitizeForFilename (jsOr prompt (.string (js "no-prompt")))))
        (js "jpg") ∧
    (truthy prompt = true → jsOr prompt (.string (js "no-prompt")) = prompt) ∧
    (truthy prompt = false →
      sanitizeForFilename (jsOr prompt (.string (js "no-prompt"))) = js "no-prompt") ∧
    ∀ text : JsString,
      (truncatePrompt text).length ≤ 100 ∧
      (text.length ≤ 100 → truncatePrompt text = text) ∧
      (100 < text.length → truncatePrompt text = text.take 97 ++ js "...") := by
  refine ⟨buildFilename_eq item, buildPromptFilename_eq id prompt now, fun h => ?_, fun h => ?_,
    fun text => ⟨truncatePrompt_length text, fun h => ?_, fun h => ?_⟩⟩
  · simp [jsOr, h]
  · simp only [jsOr, h, Bool.false_eq_true, if_false]
    decide
  · simp [truncatePrompt, h]
  · simp [truncatePrompt, Nat.not_le.2 h]

theorem prompt_length_bound_witness :
    (List.replicate 101 97).length = 101 ∧
    truncatePrompt (List.replicate 101 97) = List.replicate 97 97 ++ js "..." ∧
    sanitizeForFilename (jsOr (.string []) (.string (js "no-prompt"))) = js "no-prompt" :=
  ⟨by decide,
   (((prompt_length_bound scenarioFilenameInput .undefined .undefined []).2.2.2.2
      (List.replicate 101 97)).2.2 (by decide)).trans (by decide),
   (prompt_length_bound scenarioFilenameInput .undefined (.string []) []).2.2.2.1 (by decide)⟩

/-- C13 as stated fails for `buildPromptFilename` at the empty prompt: the sanitized prompt
is empty, so the claim leaves the filename without a prompt component, and
`buildPromptFilename` puts the component `no-prompt` there. -/
theorem prompt_length_bound_counterexample :
    sanitizeForFilename (.string []) = [] ∧
    buildPromptFilename (.string (js "abc")) (.string []) (js "2024-01-01T00:00:00.000Z") =
      js "grok_2024-01-01T00-00-00_abc_no-prompt.jpg" ∧
    promptFilenameWithoutPlaceholder (.string (js "abc")) (.string []) (js "2024-01-01T00:00:00.000Z") =
      js "grok_2024-01-01T00-00-00_abc.jpg" ∧
    buildPromptFilename (.string (js "abc")) (.string []) (js "2024-01-01T00:00:00.000Z") ≠
      promptFilenameWithoutPlaceholder (.string (js "abc")) (.string [])
        (js "2024-01-01T00:00:00.000Z") := by
  decide

/-- C14: for every model name and every prompt, and every asset whose id and creation time
contain no filesystem-illegal character and no whitespace, the filename that `buildFilename`
returns contains none of the characters `/ \ ? % * : | " < >` and no whitespace. -/
theorem no_illegal_filename_chars (item : FilenameInput)
    (hid : ∀ c ∈ item.id.str, isIllegalFilenameChar c = false ∧ isJsWhitespace c = false)
    (hct : ∀ c ∈ item.createTime.str,
      isIllegalFilenameChar c = false ∧ isJsWhitespace c = false) :
    ∀ c ∈ buildFilename item, isIllegalFilenameChar c = false ∧ isJsWhitespace c = false := by
  intro c hc
  have h := buildFilename_safe item
    (fun c hc => by simp [isSafeFilenameChar, hid c hc])
    (fun c hc => Or.inr (by simp [isSafeFilenameChar, hct c (List.mem_of_mem_take hc)])) c hc
  simpa [isSafeFilenameChar] using h

theorem no_illegal_filename_chars_witness :
    buildFilename freeTextFilenameInput =
      js "grok_2024-01-01T00-00-00_abc_model__x_y_a_cat___on__a__mat____50__.mp4" ∧
    ∀ c ∈ buildFilename freeTextFilenameInput,
      isIllegalFilenameChar c = false ∧ isJsWhitespace c = false :=
  ⟨by decide, no_illegal_filename_chars freeTextFilenameInput (by decide) (by decide)⟩

/-! ## Properties of starting, clearing, skipping and inheriting -/

/-- C11: in every state in which a run is going (`isDownloadingAll` is true) or the backlog
is empty, `startDownloadAll` does nothing: the state is the one before, so no request is made
or pending, and the running flag, the cancellation flag, the Completed-set, the Session and
the Group table are as they were. -/
theorem start_rejection (s : State)
    (h : s.isDownloadingAll = true ∨ getUndownloadedItems s = []) :
    startDownloadAll s = s ∧
    (startDownloadAll s).requests = s.requests ∧
    (startDownloadAll s).downloads = s.downloads ∧
    (startDownloadAll s).isDownloadingAll = s.isDownloadingAll ∧
    (startDownloadAll s).cancelDownload = s.cancelDownload ∧
    (startDownloadAll s).downloadedIds = s.downloadedIds ∧
    (startDownloadAll s).promptSessionData = s.promptSessionData ∧
    (startDownloadAll s).mediaDatabase = s.mediaDatabase := by
  have e : startDownloadAll s = s := by
    unfold startDownloadAll
    rcases h with h | h
    · simp [h]
    · simp [h]
  simp [e]

theorem start_rejection_witness :
    (getUndownloadedItems { sampleStandardRun with isDownloadingAll := true }).length = 3 ∧
    startDownloadAll { sampleStandardRun with isDownloadingAll := true } =
      { sampleStandardRun with isDownloadingAll := true } ∧
    getUndownloadedItems { sampleStandardRun with downloadedIds :=
      [.string (js "A"), .string (js "B"), .string (js "C")] } = [] ∧
    (startDownloadAll { sampleStandardRun with downloadedIds :=
      [.string (js "A"), .string (js "B"), .string (js "C")] }).requests = [] :=
  ⟨by decide,
   (start_rejection { sampleStandardRun with isDownloadingAll := true } (Or.inl rfl)).1,
   by decide,
   (start_rejection { sampleStandardRun with downloadedIds :=
      [.string (js "A"), .string (js "B"), .string (js "C")] } (Or.inr (by decide))).2.1⟩

/-- C17: in every state `clearMediaDatabase` leaves the Group table empty, the
derivation-edge table empty and the pinned root unset, and leaves the Completed-set, its
stored copy and the Session as they were; no other variable changes either. -/
theorem clear_frame (s : State) :
    (clearMediaDatabase s).mediaDatabase = [] ∧
    (clearMediaDatabase s).childToParentMap = [] ∧
    (clearMediaDatabase s).rootPostPageId = .null ∧
    (clearMediaDatabase s).downloadedIds = s.downloadedIds ∧
    (clearMediaDatabase s).promptSessionData = s.promptSessionData ∧
    (clearMediaDatabase s).storage = s.storage ∧
    clearMediaDatabase s =
      { s with mediaDatabase := [], childToParentMap := [], rootPostPageId := .null } ∧
    (clearMediaDatabase samplePostPage).downloadedIds = [.string (js "A")] :=
  ⟨rfl, rfl, rfl, rfl, rfl, rfl, rfl, rfl⟩

/-- C19: for every batch, `processApiData` gives the Group table and the derivation-edge
table (and the stored payloads) that it gives for the batch without the subject records that
lack an id; only the cached batch differs. A record without an id between other records is
skipped and the records before and after it are processed. -/
theorem malformed_records_skipped (s : State) (posts : List Post) :
    (processApiData s (some ⟨some posts⟩)).mediaDatabase =
      (processApiData s (some ⟨some (posts.filter fun p => truthy p.id)⟩)).mediaDatabase ∧
    (processApiData s (some ⟨some posts⟩)).childToParentMap =
      (processApiData s (some ⟨some (posts.filter fun p => truthy p.id)⟩)).childToParentMap ∧
    processApiData s (some ⟨some posts⟩) =
      { processApiData s (some ⟨some (posts.filter fun p => truthy p.id)⟩) with
        lastApiData := some ⟨some posts⟩ } ∧
    ∀ (pre post : List Post) (bad : Post), truthy bad.id = false →
      (processApiData s (some ⟨some (pre ++ bad :: post)⟩)).mediaDatabase =
        (processApiData s (some ⟨some (pre ++ post)⟩)).mediaDatabase ∧
      (processApiData s (some ⟨some (pre ++ bad :: post)⟩)).childToParentMap =
        (processApiData s (some ⟨some (pre ++ post)⟩)).childToParentMap := by
  have e : processApiData s (some ⟨some posts⟩) =
      { processApiData s (some ⟨some (posts.filter fun p => truthy p.id)⟩) with
        lastApiData := some ⟨some posts⟩ } := by
    simp only [processApiData, Option.bind, saveMediaDatabase]
    rw [← ingest_filter]
  refine ⟨by rw [e], by rw [e], e, fun pre post bad hbad => ?_⟩
  simp only [processApiData, Option.bind, saveMediaDatabase]
  rw [ingest_skip _ _ pre post bad hbad]
  exact ⟨rfl, rfl⟩

theorem malformed_records_skipped_witness :
    truthy malformedPost.id = false ∧
    (processApiData {} (some ⟨some [malformedPost, scenarioPost]⟩)).mediaDatabase =
      (processApiData {} (some ⟨some [scenarioPost]⟩)).mediaDatabase ∧
    (processApiData {} (some ⟨some [scenarioPost]⟩)).mediaDatabase =
      [(.string (js "B"), ⟨.string (js "B"), scenarioMembers⟩),
       (.string (js "A"), ⟨.string (js "A"), scenarioMembers⟩)] :=
  ⟨by decide,
   ((malformed_records_skipped {} []).2.2.2 [] [scenarioPost] malformedPost (by decide)).1,
   by decide⟩

/-- C20: the Asset that `createMediaObject` builds for a derivative record `d` with parent
record `p` takes the creation time and the model name of `d` when `d` has one, and those of
`p` exactly when `d` has none (the empty text when `p` has none either); its prompt is the
first present of `d.originalPrompt`, `d.prompt`, `p.originalPrompt`, `p.prompt`, trimmed. A
primary Asset, built without a parent, has its own values, or the empty text. -/
theorem metadata_inheritance (d p : Source) :
    (truthy d.createTime = true → (createMediaObject d (some p)).createTime = d.createTime) ∧
    (truthy d.createTime = false → truthy p.createTime = true →
      (createMediaObject d (some p)).createTime = p.createTime) ∧
    (truthy d.createTime = false → truthy p.createTime = false →
      (createMediaObject d (some p)).createTime = .string []) ∧
    (truthy d.modelName = true → (createMediaObject d (some p)).modelName = d.modelName) ∧
    (truthy d.modelName = false → truthy p.modelName = true →
      (createMediaObject d (some p)).modelName = p.modelName) ∧
    (truthy d.modelName = false → truthy p.modelName = false →
      (createMediaObject d (some p)).modelName = .string []) ∧
    (createMediaObject d (some p)).prompt =
      .string (jsTrim (firstPresent [d.originalPrompt, d.prompt, p.originalPrompt, p.prompt])) ∧
    (createMediaObject d none).createTime = .string (firstPresent [d.createTime]) ∧
    (createMediaObject d none).modelName = .string (firstPresent [d.modelName]) ∧
    (createMediaObject d none).prompt =
      .string (jsTrim (firstPresent [d.originalPrompt, d.prompt])) := by
  refine ⟨fun h => ?_, fun h h' => ?_, fun h h' => ?_, fun h => ?_, fun h h' => ?_,
    fun h h' => ?_, ?_, ?_, ?_, ?_⟩
  · simp [createMediaObject, jsOr, optProp, h]
  · simp [createMediaObject, jsOr, optProp, h, h']
  · simp [createMediaObject, jsOr, optProp, h, h']
  · simp [createMediaObject, jsOr, optProp, h]
  · simp [createMediaObject, jsOr, optProp, h, h']
  · simp [createMediaObject, jsOr, optProp, h, h']
  · simp only [createMediaObject, optProp, jsOr_chain_str]
  · simp only [createMediaObject, optProp, jsOr_none_nil]
  · simp only [createMediaObject, optProp, jsOr_none_nil]
  · simp only [createMediaObject, optProp, jsOr_chain_str, firstPresent_none_none]

theorem metadata_inheritance_witness :
    truthy bareDerivative.createTime = false ∧ truthy richParent.createTime = true ∧
    (createMediaObject bareDerivative (some richParent)).createTime =
      .string (js "2024-01-01T00:00:00.000Z") ∧
    (createMediaObject bareDerivative (some richParent)).modelName = .string (js "m2") ∧
    (createMediaObject bareDerivative (some richParent)).prompt = .string (js "a cat") ∧
    (createMediaObject bareDerivative none).prompt = .string [] :=
  ⟨by decide, by decide,
   (metadata_inheritance bareDerivative richParent).2.1 (by decide) (by decide),
   ((metadata_inheritance bareDerivative richParent).2.2.2.1 (by decide)).trans (by decide),
   by decide, by decide⟩

/-! ## Properties of loading the tables -/

/-- C15: for context keys `ctx1` and `ctx2` that differ (`ctx2` is the path of `s`), with the
storage holding nothing for `ctx1`: after `saveMediaDatabase` under `ctx2`,
`loadMediaDatabase` under `ctx1` returns `false` and leaves the state, whatever tables it
holds, as it is, so none of the Groups or edges of `ctx2` is applied. More generally
`loadMediaDatabase` returns `false`, with the state as it is, for every stored payload whose
path tag is not the current path. -/
theorem context_isolation (s : State) (ctx1 : JsString) (db : JsMap Media)
    (edges : JsMap JsVal) (hctx : ctx1 ≠ s.pathname)
    (hnone : mapGet s.storage.mediaDb (.string ctx1) = none) :
    loadMediaDatabase { saveMediaDatabase s with pathname := ctx1, mediaDatabase := db,
                                                 childToParentMap := edges } =
      ({ saveMediaDatabase s with pathname := ctx1, mediaDatabase := db,
                                  childToParentMap := edges }, false) ∧
    ∀ (s' : State) (path : JsVal) (entries : Option (List (JsVal × Option Media))),
      mapGet s'.storage.mediaDb (.string s'.pathname) = some (Slot.doc path entries) →
      path ≠ .string s'.pathname → loadMediaDatabase s' = (s', false) := by
  refine ⟨?_, fun s' path entries h1 h2 => loadMediaDatabase_of_tag_mismatch s' path entries h1 h2⟩
  apply loadMediaDatabase_of_absent
  show mapGet (mapSet s.storage.mediaDb (.string s.pathname) _) (.string ctx1) = none
  rw [mapGet_mapSet_ne _ _ _ _ (by simpa using hctx), hnone]

theorem context_isolation_witness :
    js "/imagine/favorites" ≠ sampleStoreState.pathname ∧
    (saveMediaDatabase sampleStoreState).storage.mediaDb =
      [(.string (js "/imagine/post/ab12"), Slot.doc (.string (js "/imagine/post/ab12"))
        (some (sampleTable.map fun km => (km.1, some km.2))))] ∧
    loadMediaDatabase { saveMediaDatabase sampleStoreState with
        pathname := js "/imagine/favorites", mediaDatabase := [], childToParentMap := [] } =
      ({ saveMediaDatabase sampleStoreState with
        pathname := js "/imagine/favorites", mediaDatabase := [], childToParentMap := [] },
       false) ∧
    loadMediaDatabase { saveMediaDatabase sampleStoreState with
        mediaDatabase := [], childToParentMap := [] } =
      ({ saveMediaDatabase sampleStoreState with
        mediaDatabase := sampleTable, childToParentMap := [(.string (js "B"), .string (js "A"))] },
       true) :=
  ⟨by decide, by decide,
   (context_isolation sampleStoreState (js "/imagine/favorites") [] [] (by decide)
      (by decide)).1,
   by decide⟩

/-- C16 (a failed load, which does not always leave the tables as they were): at the script
start on the favorites page, with empty tables, a stored Group payload for the page and a
derivation-edge slot whose text `JSON.parse` rejects, `loadMediaDatabase` returns `false`
and the Group table holds the stored Group `R`. -/
theorem failed_load_changes_tables :
    brokenEdgeSlotState.mediaDatabase = [] ∧
    (loadMediaDatabase brokenEdgeSlotState).2 = false ∧
    (loadMediaDatabase brokenEdgeSlotState).1.mediaDatabase =
      [(.string (js "R"), ⟨.string (js "R"), [sampleItem "A"]⟩)] ∧
    (loadMediaDatabase brokenEdgeSlotState).1.mediaDatabase ≠
      brokenEdgeSlotState.mediaDatabase ∧
    (loadMediaDatabase { brokenEdgeSlotState with
        childToParentMap := [(.string (js "B"), .string (js "A"))] }).2 = false ∧
    (loadMediaDatabase { brokenEdgeSlotState with
        childToParentMap := [(.string (js "B"), .string (js "A"))] }).1.childToParentMap = [] := by
  decide

/-! ## Properties of the Completed-set -/

/-- C18: for every operation of the running script other than the history reset
(`clearDownloadHistory`), the Completed-set after the operation contains the one before. It
is the one before unless the operation is the `onload` of a request, of the bulk run or of a
single retrieval, and then the id of the Asset of that request is added and nothing else: an
id that is new after the operation is the id of the Asset retrieved. `processApiData`,
`deduplicateDatabase`, `clearMediaDatabase`, `refreshMediaDatabase`, `clearPromptSession` and
the `onerror` and `ontimeout` of a request leave the Completed-set as it was;
`clearDownloadHistory` empties it. -/
theorem completed_set_append_only (s : State) (op : Op) :
    (∀ id, id ∈ s.downloadedIds → id ∈ (applyOp s op).downloadedIds) ∧
    (∀ id, retrievedId s op = some id →
      (applyOp s op).downloadedIds = setAdd s.downloadedIds id) ∧
    (retrievedId s op = none → (applyOp s op).downloadedIds = s.downloadedIds) ∧
    (∀ id, id ∈ (applyOp s op).downloadedIds → id ∉ s.downloadedIds →
      retrievedId s op = some id) ∧
    (∀ apiData, (processApiData s apiData).downloadedIds = s.downloadedIds) ∧
    (deduplicateDatabase s).1.downloadedIds = s.downloadedIds ∧
    (clearMediaDatabase s).downloadedIds = s.downloadedIds ∧
    (refreshMediaDatabase s).downloadedIds = s.downloadedIds ∧
    (∀ sessionId now, (clearPromptSession s sessionId now).downloadedIds = s.downloadedIds) ∧
    (∀ n o now, o ≠ Outcome.success →
      (step s (Event.deliver n o now)).downloadedIds = s.downloadedIds) ∧
    (∀ item o, o ≠ Outcome.success → (groupItemOutcome s item o).downloadedIds = s.downloadedIds) ∧
    (∀ item o now, o ≠ Outcome.success →
      (promptItemOutcome s item o now).downloadedIds = s.downloadedIds) ∧
    (clearDownloadHistory s).downloadedIds = [] := by
  have key := applyOp_downloadedIds s op
  have hfail : ∀ op', retrievedId s op' = none →
      (applyOp s op').downloadedIds = s.downloadedIds := by
    intro op' h
    rw [applyOp_downloadedIds, h]
  refine ⟨fun id hid => ?_, fun id h => ?_, fun h => hfail op h, fun id hin hnot => ?_,
    fun apiData => processApiData_downloadedIds s apiData, rfl, rfl,
    refreshMediaDatabase_downloadedIds s, fun _ _ => rfl, fun n o now ho => ?_,
    fun item o ho => ?_, fun item o now ho => ?_, rfl⟩
  · rw [key]
    cases retrievedId s op with
    | none => exact hid
    | some x => exact (mem_setAdd _ _ _).2 (Or.inl hid)
  · rw [key, h]
  · rw [key] at hin
    cases h : retrievedId s op with
    | none => rw [h] at hin; exact absurd hin hnot
    | some x =>
      rw [h] at hin
      rcases (mem_setAdd _ _ _).1 hin with h1 | h1
      · exact absurd h1 hnot
      · rw [h1]
  · exact hfail (Op.event (Event.deliver n o now)) (by cases o <;> first | rfl | exact absurd rfl ho)
  · exact hfail (Op.groupItem item o) (by cases o <;> first | rfl | exact absurd rfl ho)
  · exact hfail (Op.promptItem item o now) (by cases o <;> first | rfl | exact absurd rfl ho)

theorem completed_set_append_only_witness :
    retrievedId (startDownloadAll sampleStandardRun)
      (Op.event (Event.deliver 0 Outcome.success (js "t1"))) = some (.string (js "A")) ∧
    (applyOp (startDownloadAll sampleStandardRun)
      (Op.event (Event.deliver 0 Outcome.success (js "t1")))).downloadedIds = [.string (js "A")] ∧
    (applyOp (startDownloadAll sampleStandardRun)
      (Op.event (Event.deliver 0 Outcome.timeout (js "t1")))).downloadedIds = [] ∧
    (applyOp samplePostPage Op.refresh).downloadedIds = [.string (js "A")] :=
  ⟨by decide,
   ((completed_set_append_only (startDownloadAll sampleStandardRun)
      (Op.event (Event.deliver 0 Outcome.success (js "t1")))).2.1 (.string (js "A"))
      (by decide)).trans (by decide),
   ((completed_set_append_only (startDownloadAll sampleStandardRun)
      (Op.event (Event.deliver 0 Outcome.timeout (js "t1")))).2.2.1 (by decide)).trans
      (by decide),
   by decide⟩

/-! ## Lemmas on the session tracker and on page visits -/

theorem length_mapSet_of_absent {V : Type} (m : JsMap V) (k : JsVal) (v : V)
    (h : mapGet m k = none) : (mapSet m k v).length = m.length + 1 := by
  have e := congrArg List.length (keys_mapSet m k v)
  simpa [h] using e

theorem length_mapSet_of_present {V : Type} (m : JsMap V) (k : JsVal) (v : V)
    (h : (mapGet m k).isSome = true) : (mapSet m k v).length = m.length := by
  have e := congrArg List.length (keys_mapSet m k v)
  simpa [h] using e

theorem mapHas_eq_false {V : Type} (m : JsMap V) (k : JsVal) :
    mapHas m k = false ↔ mapGet m k = none := by
  unfold mapHas
  cases mapGet m k <;> simp

/-- The value `match[1]` of a match is never empty. -/
theorem matchLitHex_ne_nil (s lit id : JsString) (h : matchLitHex s lit = some id) :
    truthy (.string id) = true := by
  unfold matchLitHex at h
  obtain ⟨t, _, ht⟩ := List.exists_of_findSome?_eq_some h
  split at ht
  · rename_i hc
    simp only [Bool.and_eq_true] at hc
    cases hd : t.drop lit.length with
    | nil => rw [hd] at hc; simp at hc
    | cons c rest =>
      rw [hd] at hc ht
      simp only [List.head?_cons, Option.map_some', Option.getD_some] at hc
      simp only [List.takeWhile_cons, hc.2, if_true, Option.some.injEq] at ht
      subst ht
      rfl
  · cases ht

theorem saveMediaDatabase_ids (s : State) :
    (saveMediaDatabase s).rootPostPageId = s.rootPostPageId ∧
    (saveMediaDatabase s).currentPostPageId = s.currentPostPageId := ⟨rfl, rfl⟩

/-- What `loadSinglePostPageData` does to the two post ids: the current one stays, and the
root is set to it only when there is a current one and no root. -/
theorem loadSinglePostPageData_ids (s : State) (imageData videoData : List (JsString × JsString)) :
    (loadSinglePostPageData s imageData videoData).currentPostPageId = s.currentPostPageId ∧
    (loadSinglePostPageData s imageData videoData).rootPostPageId =
      if truthy s.currentPostPageId && !truthy s.rootPostPageId then s.currentPostPageId
      else s.rootPostPageId := by
  unfold loadSinglePostPageData
  cases hc : truthy s.currentPostPageId with
  | false => simp
  | true =>
    cases hr : truthy s.rootPostPageId with
    | false =>
      simp only [Bool.not_true, Bool.false_eq_true, if_false, Bool.not_false, if_true]
      constructor
      · split <;> rfl
      · split <;> rfl
    | true =>
      simp only [Bool.not_true, Bool.false_eq_true, if_false]
      constructor
      · split <;> rfl
      · split <;> rfl

/-- What `detectCurrentPostPage` does to the two post ids on a single-post path. -/
theorem visit_ids (s : State) (path id : JsString) (h : postIdOf path = some id) :
    (applyPageOp s (PageOp.visit path)).currentPostPageId = .string id ∧
    (applyPageOp s (PageOp.visit path)).rootPostPageId =
      if !truthy s.rootPostPageId || !truthy s.currentPostPageId then .string id
      else s.rootPostPageId := by
  unfold postIdOf at h
  simp only [applyPageOp, detectCurrentPostPage, h]
  constructor
  · trivial
  · split <;> rfl

theorem lastVisited_truthy (ops : List PageOp) (dflt : JsVal) (hd : truthy dflt = true)
    (hops : onPostPaths ops) : truthy (lastVisited dflt ops) = true := by
  induction ops generalizing dflt with
  | nil => exact hd
  | cons op rest ih =>
    have hrest : onPostPaths rest := fun p hp => hops p (List.mem_cons_of_mem _ hp)
    cases op with
    | visit path =>
      have hsome := hops path (List.mem_cons_self _ _)
      obtain ⟨id, hid⟩ := Option.isSome_iff_exists.1 hsome
      simp only [lastVisited, List.foldl_cons, hid]
      exact ih _ (matchLitHex_ne_nil _ _ _ hid) hrest
    | load i v =>
      simp only [lastVisited, List.foldl_cons]
      exact ih _ hd hrest

/-- With a root pinned and a current post, page operations on single-post paths keep the
root, and the current post id follows the visits. -/
theorem foldl_applyPageOp_pinned (ops : List PageOp) (s : State)
    (hr : truthy s.rootPostPageId = true) (hc : truthy s.currentPostPageId = true)
    (hops : onPostPaths ops) :
    (ops.foldl applyPageOp s).rootPostPageId = s.rootPostPageId ∧
    (ops.foldl applyPageOp s).currentPostPageId = lastVisited s.currentPostPageId ops := by
  induction ops generalizing s with
  | nil => exact ⟨rfl, rfl⟩
  | cons op rest ih =>
    have hrest : onPostPaths rest := fun p hp => hops p (List.mem_cons_of_mem _ hp)
    cases op with
    | visit path =>
      obtain ⟨id, hid⟩ := Option.isSome_iff_exists.1 (hops path (List.mem_cons_self _ _))
      obtain ⟨h1, h2⟩ := visit_ids s path id hid
      simp only [hr, hc, Bool.not_true, Bool.or_self, Bool.false_eq_true, if_false] at h2
      have hid' : truthy (.string id) = true := matchLitHex_ne_nil _ _ _ hid
      obtain ⟨i1, i2⟩ := ih (applyPageOp s (PageOp.visit path)) (by rw [h2]; exact hr)
        (by rw [h1]; exact hid') hrest
      simp only [List.foldl_cons, lastVisited]
      refine ⟨i1.trans h2, ?_⟩
      rw [i2, h1, hid]
      rfl
    | load i v =>
      obtain ⟨h1, h2⟩ := loadSinglePostPageData_ids s i v
      simp only [hr, hc, Bool.not_true, Bool.and_false, Bool.false_eq_true, if_false] at h2
      obtain ⟨i1, i2⟩ := ih (applyPageOp s (PageOp.load i v)) (by rw [applyPageOp, h2]; exact hr)
        (by rw [applyPageOp, h1]; exact hc) hrest
      simp only [List.foldl_cons, lastVisited]
      refine ⟨i1.trans h2, ?_⟩
      rw [i2]
      simp only [applyPageOp, h1]
      rfl

/-! ## Lemmas on the flags of the orchestrator -/

theorem onOutcome_flags (s : State) (r j : Nat) (o : Outcome) (now : JsString) :
    (onOutcome s r j o now).isDownloadingAll = s.isDownloadingAll ∧
    (onOutcome s r j o now).cancelDownload = s.cancelDownload := by
  unfold onOutcome
  cases hr : s.runs[r]? with
  | none => simp
  | some run =>
    cases hi : run.items[j]? with
    | none => simp [hi]
    | some item =>
      cases hp : run.isPromptPage <;> cases o <;>
        simp [hi, hp, downloadFile, scheduleNext, incCompleted, incFailed, markAsDownloaded,
          saveDownloadedIds, markPromptSessionDownloaded_eq]

theorem downloadNext_flags (s : State) (r j : Nat)
    (h : s.cancelDownload = true → s.isDownloadingAll = true) :
    (downloadNext s r j).cancelDownload = true → (downloadNext s r j).isDownloadingAll = true := by
  unfold downloadNext
  split
  · exact h
  · split
    · intro hc
      simp at hc
    · rename_i hcancel
      split
      · intro hc
        exact absurd hc hcancel
      · split
        · exact h
        · exact h

theorem startDownloadAll_flags (s : State)
    (h : s.cancelDownload = true → s.isDownloadingAll = true) :
    (startDownloadAll s).cancelDownload = true → (startDownloadAll s).isDownloadingAll = true := by
  unfold startDownloadAll
  simp only []
  split
  · exact h
  · apply downloadNext_flags
    intro hc
    simp at hc

/-- One turn of the event loop keeps `cancelDownload` implying `isDownloadingAll`. -/
theorem step_flags (s : State) (e : Event)
    (h : s.cancelDownload = true → s.isDownloadingAll = true) :
    (step s e).cancelDownload = true → (step s e).isDownloadingAll = true := by
  cases e with
  | deliver n o now =>
    simp only [step]
    split
    · exact h
    · rename_i r index _
      rw [(onOutcome_flags _ r index o now).1, (onOutcome_flags _ r index o now).2]
      exact h
  | fire n =>
    simp only [step]
    split
    · exact h
    · exact downloadNext_flags _ _ _ h
    · unfold reportDone
      split
      · exact h
      · exact h
  | click =>
    simp only [step, handleDownloadButtonClick]
    split
    · rename_i hrun
      intro _
      exact hrun
    · exact startDownloadAll_flags s h

theorem runEvents_flags (events : List Event) (s : State)
    (h : s.cancelDownload = true → s.isDownloadingAll = true) :
    (runEvents s events).cancelDownload = true → (runEvents s events).isDownloadingAll = true := by
  induction events generalizing s with
  | nil => exact h
  | cons e rest ih =>
    rw [runEvents_cons]
    exact ih _ (step_flags s e h)

/-- A direct call of `startDownloadAll` is a click on the idle button, and nothing while a
run is going. -/
theorem startDownloadAll_eq_click (s : State) :
    startDownloadAll s = if s.isDownloadingAll then s else step s Event.click := by
  cases hrun : s.isDownloadingAll with
  | true => simp [startDownloadAll, hrun]
  | false => simp [step, handleDownloadButtonClick, hrun]

/-- A run that starts has the cancellation flag clear and its first request pending. -/
theorem startDownloadAll_started (s : State) (hidle : s.isDownloadingAll = false)
    (hitems : getUndownloadedItems s ≠ []) :
    (startDownloadAll s).isDownloadingAll = true ∧
    (startDownloadAll s).cancelDownload = false ∧
    (startDownloadAll s).downloads = s.downloads ++ [(s.runs.length, 0)] := by
  cases hl : getUndownloadedItems s with
  | nil => exact absurd hl hitems
  | cons item rest =>
    simp [startDownloadAll, hl, hidle, downloadNext]

/-! ## Lemmas on the session counts -/

theorem setAdd_nodup (s : JsSet) (x : JsVal) (h : s.Nodup) : (setAdd s x).Nodup := by
  unfold setAdd
  split
  · exact h
  · rename_i hx
    exact List.Nodup.append h (List.nodup_singleton x) (by
      intro a ha hb
      rw [List.mem_singleton] at hb
      subst hb
      exact hx ha)

/-- With distinct keys, a completed set without repetition and every completed id tracked,
the records that are not completed are as many as the records minus the completed ids. -/
theorem count_not_completed (images : JsMap MediaItem) (dis : JsSet)
    (hk : (images.map (·.1)).Nodup) (hd : dis.Nodup)
    (hsub : ∀ id ∈ dis, id ∈ images.map (·.1)) :
    (images.filter fun kv => !setHas dis kv.1).length + dis.length = images.length := by
  have h1 : (images.filter fun kv => !setHas dis kv.1).length =
      (images.map (·.1)).countP (fun k => !setHas dis k) := by
    rw [← List.countP_eq_length_filter, List.countP_map]
    rfl
  have h2 : ((images.map (·.1)).filter fun k => setHas dis k).Perm dis := by
    apply (List.perm_ext_iff_of_nodup (hk.filter _) hd).2
    intro a
    simp only [List.mem_filter, setHas, decide_eq_true_eq]
    exact ⟨fun h => h.2, fun h => ⟨hsub a h, h⟩⟩
  have h3 : (images.map (·.1)).countP (fun k => setHas dis k) = dis.length := by
    rw [List.countP_eq_length_filter]
    exact h2.length_eq
  have h4 := List.length_eq_countP_add_countP (p := fun k => setHas dis k) (images.map (·.1))
  have h5 : (images.map (·.1)).countP (fun a => decide ¬(setHas dis a = true)) =
      (images.map (·.1)).countP (fun k => !setHas dis k) := by
    apply List.countP_congr
    intro a _
    cases setHas dis a <;> simp
  rw [h5, h3, List.length_map] at h4
  rw [h1]
  omega

theorem updatePromptFromDOM_session (s : State) (inputValue chipText : JsVal) :
    (updatePromptFromDOM s inputValue chipText).promptSessionData.images =
      s.promptSessionData.images ∧
    (updatePromptFromDOM s inputValue chipText).promptSessionData.downloadedInSession =
      s.promptSessionData.downloadedInSession := by
  unfold updatePromptFromDOM
  split
  · exact ⟨rfl, rfl⟩
  · split
    · simp only []
      split <;> exact ⟨rfl, rfl⟩
    · exact ⟨rfl, rfl⟩

/-- The invariant of the session: distinct keys, a completed set without repetition, every
completed id tracked. An operation keeps it when a mark names a tracked id. -/
theorem applySessionOp_inv (s : State) (op : SessionOp)
    (hk : (s.promptSessionData.images.map (·.1)).Nodup)
    (hd : s.promptSessionData.downloadedInSession.Nodup)
    (hsub : ∀ id ∈ s.promptSessionData.downloadedInSession,
      id ∈ s.promptSessionData.images.map (·.1))
    (hop : ∀ id now, op = SessionOp.mark id now →
      mapHas s.promptSessionData.images id = true) :
    ((applySessionOp s op).promptSessionData.images.map (·.1)).Nodup ∧
    (applySessionOp s op).promptSessionData.downloadedInSession.Nodup ∧
    ∀ id ∈ (applySessionOp s op).promptSessionData.downloadedInSession,
      id ∈ (applySessionOp s op).promptSessionData.images.map (·.1) := by
  cases op with
  | add imageData inputValue chipText now =>
    obtain ⟨e1, e2⟩ := updatePromptFromDOM_session s inputValue chipText
    cases hh : mapHas s.promptSessionData.images imageData.id with
    | true =>
      simp only [applySessionOp, addToPromptSession, hh, Bool.not_true, Bool.false_eq_true,
        if_false]
      exact ⟨hk, hd, hsub⟩
    | false =>
      simp only [applySessionOp, addToPromptSession, hh, Bool.not_false, if_true, e1, e2]
      refine ⟨keys_nodup_mapSet _ _ _ hk, hd, fun id hid => ?_⟩
      rw [keys_mapSet]
      split
      · exact hsub id hid
      · exact List.mem_append_left _ (hsub id hid)
  | mark id now =>
    have ht := hop id now rfl
    unfold mapHas at ht
    obtain ⟨item, hitem⟩ := Option.isSome_iff_exists.1 ht
    have hkeys : ∀ v : MediaItem, (mapSet s.promptSessionData.images id v).map (·.1) =
        s.promptSessionData.images.map (·.1) := by
      intro v
      rw [keys_mapSet, ht, if_pos rfl]
    simp only [applySessionOp, markPromptSessionDownloaded_eq, markSession, hitem, hkeys]
    refine ⟨hk, setAdd_nodup _ _ hd, fun x hx => ?_⟩
    rcases (mem_setAdd _ _ _).1 hx with h | h
    · exact hsub x h
    · subst h
      exact Classical.not_not.1 fun hn => by
        rw [← mapGet_eq_none_iff, hitem] at hn
        cases hn
  | clear sessionId now =>
    simp only [applySessionOp, clearPromptSession]
    exact ⟨List.nodup_nil, List.nodup_nil, fun _ h => absurd h (List.not_mem_nil _)⟩

theorem foldl_applySessionOp_inv (ops : List SessionOp) (s : State)
    (hk : (s.promptSessionData.images.map (·.1)).Nodup)
    (hd : s.promptSessionData.downloadedInSession.Nodup)
    (hsub : ∀ id ∈ s.promptSessionData.downloadedInSession,
      id ∈ s.promptSessionData.images.map (·.1))
    (hops : marksTracked s ops = true) :
    ((ops.foldl applySessionOp s).promptSessionData.images.map (·.1)).Nodup ∧
    (ops.foldl applySessionOp s).promptSessionData.downloadedInSession.Nodup ∧
    ∀ id ∈ (ops.foldl applySessionOp s).promptSessionData.downloadedInSession,
      id ∈ (ops.foldl applySessionOp s).promptSessionData.images.map (·.1) := by
  induction ops generalizing s with
  | nil => exact ⟨hk, hd, hsub⟩
  | cons op rest ih =>
    simp only [marksTracked, Bool.and_eq_true] at hops
    obtain ⟨h1, h2, h3⟩ := applySessionOp_inv s op hk hd hsub (by
      intro id now e
      subst e
      exact hops.1)
    exact ih _ h1 h2 h3 hops.2

/-! ## Lemmas on the member list of the target Group -/

theorem foldl_pushIfNew (items : List MediaItem) (l : List MediaItem) :
    items.foldl pushIfNew l = l ++ firstById (idsOf l) items := by
  induction items generalizing l with
  | nil => simp [firstById]
  | cons x rest ih =>
    rw [List.foldl_cons, ih]
    by_cases hx : x.id ∈ idsOf l
    · rw [pushIfNew_of_mem l x hx]
      simp [firstById, hx]
    · have hp : pushIfNew l x = l ++ [x] := by
        unfold pushIfNew
        have : l.any (fun o => decide (o.id = x.id)) = false := by
          rw [List.any_eq_false]
          intro o ho h
          exact hx (List.mem_map.2 ⟨o, ho, by simpa using h⟩)
        simp [this]
      rw [hp]
      simp only [firstById, hx, if_false, List.append_assoc, List.singleton_append]
      congr 2
      apply firstById_congr
      intro i
      simp [idsOf, or_comm]

theorem foldl_pushChild_object (post : Post) (cs : List Source) (m : Media) :
    (cs.foldl (pushChild post) m).object =
      (cs.map fun c => createMediaObject c (some post.toSource)).foldl pushIfNew m.object := by
  induction cs generalizing m with
  | nil => rfl
  | cons c rest ih =>
    rw [List.foldl_cons, ih]
    rfl

/-- On a table without the target Group, the local `media` of `processPost` ends with the
first occurrence of each id among the Assets of the subject, in the order they are built. -/
theorem targetMedia_of_absent (root : JsVal) (db : JsMap Media) (post : Post)
    (h : mapGet db (jsOr root post.id) = none) :
    targetMedia root db post = ⟨jsOr root post.id, firstById [] (subjectItems post)⟩ := by
  have hid : (targetMedia root db post).id = jsOr root post.id := by
    unfold targetMedia
    rw [foldl_pushChild_id, h]
    simp only [Option.getD_none]
    split <;> rfl
  have hobj : (targetMedia root db post).object = firstById [] (subjectItems post) := by
    unfold targetMedia subjectItems
    rw [foldl_pushChild_object, foldl_pushIfNew, h]
    simp only [Option.getD_none]
    cases hu : truthy post.mediaUrl with
    | true =>
      simp only [if_true]
      rw [firstById_append]
      have e : pushIfNew [] (createMediaObject post.toSource none) =
          [createMediaObject post.toSource none] := by simp [pushIfNew]
      rw [e]
      simp [firstById, idsOf]
    | false => simp [idsOf]
  cases ht : targetMedia root db post with
  | mk id object =>
    rw [ht] at hid hobj
    simp only at hid hobj
    rw [hid, hobj]

theorem filter_id_length_one (l : List MediaItem) (hnd : (idsOf l).Nodup) (i : JsVal)
    (hi : i ∈ idsOf l) : (l.filter fun x => decide (x.id = i)).length = 1 := by
  induction l with
  | nil => simp [idsOf] at hi
  | cons x rest ih =>
    simp only [idsOf, List.map_cons, List.nodup_cons, List.mem_cons] at hnd hi
    by_cases hx : x.id = i
    · have hnone : rest.filter (fun y => decide (y.id = i)) = [] := by
        rw [List.filter_eq_nil_iff]
        intro y hy h
        have : y.id = i := by simpa using h
        exact hnd.1 (List.mem_map.2 ⟨y, hy, this.trans hx.symm⟩)
      simp [List.filter_cons, hx, hnone]
    · have hi' : i ∈ idsOf rest := by
        rcases hi with h | h
        · exact absurd h.symm hx
        · exact h
      simp only [List.filter_cons, hx, decide_False, Bool.false_eq_true, if_false]
      exact ih hnd.2 hi'

/-! ## Lemmas on a derivative that carries the id of its parent -/

theorem secondaryGuard_of_same_id (root : JsVal) (post : Post) (d : Source)
    (hd : d.id = post.id) : secondaryGuard root post d = false := by
  simp [secondaryGuard, hd]

/-- Once the local `media` holds the id of the subject, the push of a derivative with that id
does nothing. -/
theorem foldl_pushChild_skip (post : Post) (l1 l2 : List Source) (d : Source) (m : Media)
    (hd : d.id = post.id) (hm : post.id ∈ idsOf m.object) :
    (l1 ++ d :: l2).foldl (pushChild post) m = (l1 ++ l2).foldl (pushChild post) m := by
  rw [List.foldl_append, List.foldl_append, List.foldl_cons]
  have hin : post.id ∈ idsOf (l1.foldl (pushChild post) m).object :=
    (mem_idsOf_foldl_pushChild post l1 m post.id).2 (Or.inl hm)
  have hskip : pushChild post (l1.foldl (pushChild post) m) d = l1.foldl (pushChild post) m := by
    unfold pushChild
    rw [pushIfNew_of_mem _ _ (by rw [createMediaObject_id, hd]; exact hin)]
  rw [hskip]

theorem foldl_secondaryStep_skip (root : JsVal) (post : Post) (pi : Option MediaItem)
    (l1 l2 : List Source) (d : Source) (t : Tables) (hd : d.id = post.id) :
    (l1 ++ d :: l2).foldl (secondaryStep root post pi) t =
      (l1 ++ l2).foldl (secondaryStep root post pi) t := by
  rw [List.foldl_append, List.foldl_append, List.foldl_cons,
    secondaryStep_of_guard_false root post pi _ d (secondaryGuard_of_same_id root post d hd)]

/-- The local `media` of `processPost` before the derivative loops holds the id of a subject
that has a primary asset. -/
theorem primary_in_media (m : Media) (post : Post) (hu : truthy post.mediaUrl = true) :
    post.id ∈ idsOf
      (if truthy post.mediaUrl then
        ({ m with object := pushIfNew m.object (createMediaObject post.toSource none) } : Media)
       else m).object := by
  rw [if_pos hu]
  exact (mem_idsOf_pushIfNew _ _ _).2 (Or.inr rfl)

/-- A subject with a primary asset is processed the same with and without a derivative that
carries the id of the subject, in whichever of the two lists it stands. -/
theorem processPost_skip_self (root : JsVal) (t : Tables) (src : Source)
    (l1 l2 other : List Source) (d : Source) (hd : d.id = src.id)
    (hu : truthy src.mediaUrl = true) :
    processPost root t { toSource := src, childPosts := l1 ++ d :: l2, videos := other } =
      processPost root t { toSource := src, childPosts := l1 ++ l2, videos := other } ∧
    processPost root t { toSource := src, childPosts := other, videos := l1 ++ d :: l2 } =
      processPost root t { toSource := src, childPosts := other, videos := l1 ++ l2 } := by
  have htm1 : targetMedia root t.db ⟨src, l1 ++ d :: l2, other⟩ =
      targetMedia root t.db ⟨src, l1 ++ l2, other⟩ := by
    unfold targetMedia derivatives
    simp only [List.append_assoc, List.cons_append]
    exact foldl_pushChild_skip ⟨src, l1 ++ l2, other⟩ l1 (l2 ++ other) d _ hd
      (primary_in_media _ ⟨src, l1 ++ l2, other⟩ hu)
  have htm2 : targetMedia root t.db ⟨src, other, l1 ++ d :: l2⟩ =
      targetMedia root t.db ⟨src, other, l1 ++ l2⟩ := by
    unfold targetMedia derivatives
    simp only [← List.append_assoc]
    exact foldl_pushChild_skip ⟨src, other, l1 ++ l2⟩ (other ++ l1) l2 d _ hd
      (primary_in_media _ ⟨src, other, l1 ++ l2⟩ hu)
  have has1 : afterSecondary root t ⟨src, l1 ++ d :: l2, other⟩ =
      afterSecondary root t ⟨src, l1 ++ l2, other⟩ := by
    unfold afterSecondary derivatives
    simp only [List.append_assoc, List.cons_append]
    exact foldl_secondaryStep_skip root ⟨src, l1 ++ l2, other⟩ _ l1 (l2 ++ other) d t hd
  have has2 : afterSecondary root t ⟨src, other, l1 ++ d :: l2⟩ =
      afterSecondary root t ⟨src, other, l1 ++ l2⟩ := by
    unfold afterSecondary derivatives
    simp only [← List.append_assoc]
    exact foldl_secondaryStep_skip root ⟨src, other, l1 ++ l2⟩ _ (other ++ l1) l2 d t hd
  constructor
  · rw [processPost_eq, processPost_eq, htm1, has1]
  · rw [processPost_eq, processPost_eq, htm2, has2]

/-! ## Lemmas on append-only ingestion -/

theorem GroupsExtend_refl (db : JsMap Media) : GroupsExtend db db :=
  fun _ m h => ⟨m, h, List.prefix_refl _⟩

theorem GroupsExtend_trans (a b c : JsMap Media) (h1 : GroupsExtend a b)
    (h2 : GroupsExtend b c) : GroupsExtend a c := by
  intro k m hm
  obtain ⟨m1, hm1, p1⟩ := h1 k m hm
  obtain ⟨m2, hm2, p2⟩ := h2 k m1 hm1
  exact ⟨m2, hm2, p1.trans p2⟩

theorem pushIfNew_extends (l : List MediaItem) (x : MediaItem) : l <+: pushIfNew l x := by
  unfold pushIfNew
  split
  · exact List.prefix_refl _
  · exact List.prefix_append _ _

theorem GroupsExtend_mapSet (db : JsMap Media) (k : JsVal) (g : Media)
    (hg : ∀ m, mapGet db k = some m → m.object <+: g.object) :
    GroupsExtend db (mapSet db k g) := by
  intro k' m hm
  by_cases hk : k' = k
  · subst hk
    exact ⟨g, mapGet_mapSet_self _ _ _, hg m hm⟩
  · exact ⟨m, by rw [mapGet_mapSet_ne _ _ _ _ hk]; exact hm, List.prefix_refl _⟩

theorem secondaryGroup_extends (post : Post) (pi : Option MediaItem) (db : JsMap Media)
    (c : Source) (m : Media) (hm : mapGet db c.id = some m) :
    m.object <+: (secondaryGroup post pi db c).object := by
  unfold secondaryGroup
  rw [hm]
  simp only [Option.getD_some]
  cases pi with
  | none => exact pushIfNew_extends _ _
  | some p => exact (pushIfNew_extends _ _).trans (pushIfNew_extends _ _)

theorem secondaryStep_extend (root : JsVal) (post : Post) (pi : Option MediaItem)
    (t : Tables) (c : Source) : GroupsExtend t.db (secondaryStep root post pi t c).db := by
  cases hg : secondaryGuard root post c with
  | false =>
    rw [secondaryStep_of_guard_false root post pi t c hg]
    exact GroupsExtend_refl _
  | true =>
    rw [secondaryStep_of_guard_true root post pi t c hg]
    exact GroupsExtend_mapSet _ _ _ fun m hm => secondaryGroup_extends post pi t.db c m hm

theorem foldl_secondaryStep_extend (root : JsVal) (post : Post) (pi : Option MediaItem)
    (cs : List Source) (t : Tables) :
    GroupsExtend t.db (cs.foldl (secondaryStep root post pi) t).db := by
  induction cs generalizing t with
  | nil => exact GroupsExtend_refl _
  | cons c rest ih =>
    rw [List.foldl_cons]
    exact GroupsExtend_trans _ _ _ (secondaryStep_extend root post pi t c) (ih _)

theorem targetMedia_extends (root : JsVal) (db : JsMap Media) (post : Post) (m : Media)
    (hm : mapGet db (jsOr root post.id) = some m) :
    m.object <+: (targetMedia root db post).object := by
  unfold targetMedia
  rw [foldl_pushChild_object, foldl_pushIfNew, hm]
  simp only [Option.getD_some]
  split
  · exact (pushIfNew_extends _ _).trans (List.prefix_append _ _)
  · exact List.prefix_append _ _

theorem processPost_extend (root : JsVal) (t : Tables) (post : Post) :
    GroupsExtend t.db (processPost root t post).db := by
  rw [processPost_eq]
  split
  · split
    · refine GroupsExtend_trans _ _ _
        (foldl_secondaryStep_extend root post (parentImage post) (derivatives post) t) ?_
      apply GroupsExtend_mapSet
      intro m hm
      have hm' : mapGet (afterSecondary root t post).db (jsOr root post.id) = some m := hm
      rw [afterSecondary_get_target] at hm'
      exact targetMedia_extends root t.db post m hm'
    · exact foldl_secondaryStep_extend root post (parentImage post) (derivatives post) t
  · exact GroupsExtend_refl _

theorem foldl_processPost_extend (root : JsVal) (posts : List Post) (t : Tables) :
    GroupsExtend t.db (posts.foldl (processPost root) t).db := by
  induction posts generalizing t with
  | nil => exact GroupsExtend_refl _
  | cons p rest ih =>
    rw [List.foldl_cons]
    exact GroupsExtend_trans _ _ _ (processPost_extend root t p) (ih _)

/-- The dedup pass keeps a first part of a member list that has no repeated id. -/
theorem GroupsExtend_dedupTable (db db' : JsMap Media) (hd : GroupsDedup db)
    (h : GroupsExtend db db') : GroupsExtend db (dedupTable db') := by
  intro k m hm
  obtain ⟨m', hm', ⟨ext, hext⟩⟩ := h k m hm
  refine ⟨(dedupMedia m').1, by rw [mapGet_dedupTable, hm']; rfl, ?_⟩
  rw [dedupMedia_object, ← hext, firstById_append,
    firstById_eq_self [] m.object (hd (k, m) (mapGet_mem _ _ _ hm))
      (fun _ _ => List.not_mem_nil _)]
  exact List.prefix_append _ _

theorem ingest_extend (root : JsVal) (t : Tables) (posts : List Post) (hd : GroupsDedup t.db) :
    GroupsExtend t.db (ingest root t posts).db ∧
    ∀ k, mapGet t.edges k ≠ none → mapGet (ingest root t posts).edges k ≠ none := by
  unfold ingest
  refine ⟨GroupsExtend_dedupTable _ _ hd (foldl_processPost_extend root posts t), fun k hk => ?_⟩
  simp only [foldl_processPost_edges]
  exact applySets_get_ne_none _ _ k hk

/-! ## Properties of the session insert, the dedup pass and the URL choice -/

/-- C23: for every session state and asset, `addToPromptSession` changes nothing and returns
`false` when the id of the asset is already tracked. Otherwise it returns `true`, the session
holds one record more, the other records are as they were, and the new record is the asset
with `downloaded = false` and with the asset's own prompt when it has one, else the session
prompt as `updatePromptFromDOM` has just resolved it (the prompt input of the page, else the
prompt chip, else the prompt known before). -/
theorem session_insert (s : State) (imageData : MediaItem) (inputValue chipText : JsVal)
    (now : JsString) :
    (mapHas s.promptSessionData.images imageData.id = true →
      addToPromptSession s imageData inputValue chipText now = (s, false)) ∧
    (mapHas s.promptSessionData.images imageData.id = false →
      (addToPromptSession s imageData inputValue chipText now).2 = true ∧
      (addToPromptSession s imageData inputValue chipText now).1.promptSessionData.images.length =
        s.promptSessionData.images.length + 1 ∧
      (∀ k, k ≠ imageData.id →
        mapGet (addToPromptSession s imageData inputValue chipText now).1.promptSessionData.images
          k = mapGet s.promptSessionData.images k) ∧
      ∃ item,
        mapGet (addToPromptSession s imageData inputValue chipText now).1.promptSessionData.images
          imageData.id = some item ∧
        item.downloaded = some false ∧ item.addedAt = .string now ∧
        item.id = imageData.id ∧ item.url = imageData.url ∧
        item.filename = imageData.filename ∧
        (truthy imageData.prompt = true → item.prompt = imageData.prompt) ∧
        (truthy imageData.prompt = false →
          item.prompt =
            .string (updatePromptFromDOM s inputValue chipText).promptSessionData.prompt)) ∧
    (truthy inputValue = true →
      (updatePromptFromDOM s inputValue chipText).promptSessionData.prompt =
        jsTrim inputValue.str) ∧
    (truthy inputValue = false → truthy chipText = true → jsTrim chipText.str ≠ [] →
      (updatePromptFromDOM s inputValue chipText).promptSessionData.prompt =
        jsTrim chipText.str) ∧
    (truthy inputValue = false → truthy chipText = false →
      (updatePromptFromDOM s inputValue chipText).promptSessionData.prompt =
        s.promptSessionData.prompt) := by
  have himg : (updatePromptFromDOM s inputValue chipText).promptSessionData.images =
      s.promptSessionData.images := by
    unfold updatePromptFromDOM
    split
    · rfl
    · split
      · simp only []
        split <;> rfl
      · rfl
  refine ⟨fun h => ?_, fun h => ?_, fun h => ?_, fun h h' hne => ?_, fun h h' => ?_⟩
  · simp [addToPromptSession, h]
  · have hnone := (mapHas_eq_false _ _).1 h
    simp only [addToPromptSession, h, Bool.not_false, if_true, himg]
    refine ⟨trivial, length_mapSet_of_absent _ _ _ hnone, fun k hk => mapGet_mapSet_ne _ _ _ _ hk,
      _, mapGet_mapSet_self _ _ _, rfl, rfl, rfl, rfl, rfl, fun hp => ?_, fun hp => ?_⟩
    · simp [jsOr, hp]
    · simp [jsOr, hp]
  · simp [updatePromptFromDOM, h]
  · have ht : truthy (.string (jsTrim chipText.str)) = true := by
      rw [truthy_some]
      simpa using hne
    simp [updatePromptFromDOM, h, h', ht]
  · simp [updatePromptFromDOM, h, h']

theorem session_insert_witness :
    mapHas samplePromptPage.promptSessionData.images (sampleItem "A").id = true ∧
    addToPromptSession samplePromptPage (sampleItem "A") (.string (js " a cat ")) .null (js "t") =
      (samplePromptPage, false) ∧
    mapHas samplePromptPage.promptSessionData.images (sampleItem "C").id = false ∧
    (addToPromptSession samplePromptPage (sampleItem "C") (.string (js " a cat ")) .null
      (js "t")).1.promptSessionData.images.length = 3 ∧
    mapGet (addToPromptSession samplePromptPage (sampleItem "C") (.string (js " a cat ")) .null
      (js "t")).1.promptSessionData.images (.string (js "C")) =
      some { sampleItem "C" with prompt := .string (js "a cat"), addedAt := .string (js "t"),
                                 downloaded := some false } :=
  ⟨by decide,
   (session_insert samplePromptPage (sampleItem "A") (.string (js " a cat ")) .null (js "t")).1
     (by decide),
   by decide,
   ((session_insert samplePromptPage (sampleItem "C") (.string (js " a cat ")) .null (js "t")).2.1
     (by decide)).2.1,
   by decide⟩

/-- C24: for every Group table, `deduplicateDatabase` keeps the keys and the ids of the Groups
and leaves in each Group the first occurrence of each id, in the original order (a sublist
with no repeated id and with every id of the Group); it returns the total number of members
removed, the sum over the Groups of the length before minus the length after; and a
`deduplicateDatabase` that follows at once returns 0 and changes nothing. Ids are compared
as `Set.has` compares them: members whose ids are `undefined` and `null` are both kept. -/
theorem dedupe_idempotent (s : State) :
    (deduplicateDatabase s).1.mediaDatabase =
      s.mediaDatabase.map (fun km => (km.1, { km.2 with object := firstById [] km.2.object })) ∧
    (∀ km ∈ s.mediaDatabase,
      (firstById [] km.2.object).Sublist km.2.object ∧
      (idsOf (firstById [] km.2.object)).Nodup ∧
      ∀ i, i ∈ idsOf (firstById [] km.2.object) ↔ i ∈ idsOf km.2.object) ∧
    (deduplicateDatabase s).2 =
      (s.mediaDatabase.map fun km =>
        km.2.object.length - (firstById [] km.2.object).length).sum ∧
    (deduplicateDatabase (deduplicateDatabase s).1).2 = 0 ∧
    (deduplicateDatabase (deduplicateDatabase s).1).1 = (deduplicateDatabase s).1 ∧
    (deduplicateDatabase { mediaDatabase :=
        [(.string (js "R"), ⟨.string (js "R"), [sampleItem "A", sampleItem "B", sampleItem "A"]⟩)] }).2
      = 1 := by
  have hdm : ∀ m : Media, (dedupMedia m).1 = { m with object := firstById [] m.object } := by
    intro m
    have h1 := dedupMedia_object m
    have h2 := dedupMedia_id m
    cases hm : (dedupMedia m).1 with
    | mk id object =>
      rw [hm] at h1 h2
      simp only at h1 h2
      rw [h1, h2]
  have hz : ∀ db : JsMap Media, GroupsDedup db →
      (db.map fun km => (dedupMedia km.2).2).sum = 0 := by
    intro db hdb
    apply List.sum_eq_zero
    intro n hn
    obtain ⟨km, hkm, rfl⟩ := List.mem_map.1 hn
    rw [dedupMedia_removed, firstById_eq_self [] _ (hdb km hkm) (fun _ _ => List.not_mem_nil _)]
    exact Nat.sub_self _
  refine ⟨?_, fun km _ => ⟨firstById_sublist _ _, firstById_nodup _ _, fun i =>
      ⟨fun h => ?_, fun h => firstById_mem_ids _ _ i h (List.not_mem_nil _)⟩⟩, ?_, ?_, ?_,
    by decide⟩
  · simp only [deduplicateDatabase, dedupTable, hdm]
  · exact (List.Sublist.map _ (firstById_sublist _ _)).subset h
  · simp only [deduplicateDatabase, dedupMedia_removed]
  · exact hz _ (dedupTable_groupsDedup _)
  · simp only [deduplicateDatabase]
    rw [dedupTable_eq_self _ (dedupTable_groupsDedup _)]

theorem dedupe_idempotent_witness :
    idsOf nullIdMembers = [.undefined, .null] ∧
    (deduplicateDatabase nullIdPage).1.mediaDatabase =
      [(.string (js "P"), ⟨.string (js "P"), nullIdMembers⟩)] ∧
    (deduplicateDatabase nullIdPage).2 = 0 ∧
    (deduplicateDatabase { mediaDatabase :=
        [(.string (js "P"), ⟨.string (js "P"), nullIdMembers ++ nullIdMembers⟩)] }).1.mediaDatabase =
      [(.string (js "P"), ⟨.string (js "P"), nullIdMembers⟩)] ∧
    (deduplicateDatabase { mediaDatabase :=
        [(.string (js "P"), ⟨.string (js "P"), nullIdMembers ++ nullIdMembers⟩)] }).2 = 2 :=
  ⟨by decide,
   ((dedupe_idempotent nullIdPage).1).trans (by decide),
   ((dedupe_idempotent nullIdPage).2.2.1).trans (by decide),
   ((dedupe_idempotent { mediaDatabase :=
      [(.string (js "P"), ⟨.string (js "P"), nullIdMembers ++ nullIdMembers⟩)] }).1).trans
     (by decide),
   ((dedupe_idempotent { mediaDatabase :=
      [(.string (js "P"), ⟨.string (js "P"), nullIdMembers ++ nullIdMembers⟩)] }).2.2.1).trans
     (by decide)⟩

/-- C26 (highest-quality URL, amended for records that are not videos): for every video
record (`mediaType` is `MEDIA_POST_TYPE_VIDEO`) for which a high-definition URL is known,
the Asset that `createMediaObject` builds has that URL; for every record that is not a video,
and whenever no high-definition URL is known, the Asset has `mediaUrl`. -/
theorem highest_quality_url (source : Source) (fallbackParent : Option Source) :
    (source.mediaType = .string (js "MEDIA_POST_TYPE_VIDEO") → truthy source.hdMediaUrl = true →
      (createMediaObject source fallbackParent).url = source.hdMediaUrl) ∧
    (source.mediaType ≠ .string (js "MEDIA_POST_TYPE_VIDEO") →
      (createMediaObject source fallbackParent).url = source.mediaUrl) ∧
    (truthy source.hdMediaUrl = false →
      (createMediaObject source fallbackParent).url = source.mediaUrl) := by
  refine ⟨fun h1 h2 => ?_, fun h1 => ?_, fun h1 => ?_⟩
  · simp [createMediaObject, h1, h2]
  · simp [createMediaObject, h1]
  · simp [createMediaObject, h1]

theorem highest_quality_url_witness :
    (createMediaObject videoWithHd none).url = .string (js "hd") ∧
    (createMediaObject { videoWithHd with hdMediaUrl := .undefined } none).url = .string (js "std") :=
  ⟨(highest_quality_url videoWithHd none).1 rfl (by decide),
   (highest_quality_url { videoWithHd with hdMediaUrl := .undefined } none).2.2 (by decide)⟩

/-- C26 as stated fails for a record that is not a video: for an image record with the
high-definition URL `hd` and the standard URL `std`, `createMediaObject` takes `std`. -/
theorem highest_quality_url_counterexample :
    truthy imageWithHd.hdMediaUrl = true ∧ truthy imageWithHd.mediaUrl = true ∧
    (createMediaObject imageWithHd none).url = .string (js "std") ∧
    (createMediaObject imageWithHd none).url ≠ imageWithHd.hdMediaUrl := by
  decide

/-! ## Properties of the pinned root -/

/-- C25: take a state in which no root is pinned or no post is current (the script start, a
state after a path that is no post path, a state after a clear), a first visit to a
single-post path with post id `id0`, and after it any sequence of further visits to
single-post paths and of `loadSinglePostPageData` runs. At the end the pinned root is `id0`,
whatever post ids the later visits see, and the current post id is that of the last visit.
`loadSinglePostPageData` never changes a root that is set, and neither does
`detectCurrentPostPage` on a single-post path while a post is current. -/
theorem root_pinning (s : State) (first id0 : JsString) (ops : List PageOp)
    (hfresh : truthy s.rootPostPageId = false ∨ truthy s.currentPostPageId = false)
    (hfirst : postIdOf first = some id0) (hops : onPostPaths ops) :
    ((PageOp.visit first :: ops).foldl applyPageOp s).rootPostPageId = .string id0 ∧
    ((PageOp.visit first :: ops).foldl applyPageOp s).currentPostPageId =
      lastVisited (.string id0) ops ∧
    (∀ (s' : State) (imageData videoData : List (JsString × JsString)),
      truthy s'.rootPostPageId = true →
      (loadSinglePostPageData s' imageData videoData).rootPostPageId = s'.rootPostPageId) ∧
    (∀ (s' : State) (path : JsString), truthy s'.rootPostPageId = true →
      truthy s'.currentPostPageId = true → (postIdOf path).isSome = true →
      (applyPageOp s' (PageOp.visit path)).rootPostPageId = s'.rootPostPageId) := by
  obtain ⟨h1, h2⟩ := visit_ids s first id0 hfirst
  have hid : truthy (.string id0) = true := matchLitHex_ne_nil _ _ _ hfirst
  have h2' : (applyPageOp s (PageOp.visit first)).rootPostPageId = .string id0 := by
    rw [h2]
    rcases hfresh with h | h <;> simp [h]
  obtain ⟨i1, i2⟩ := foldl_applyPageOp_pinned ops (applyPageOp s (PageOp.visit first))
    (by rw [h2']; exact hid) (by rw [h1]; exact hid) hops
  refine ⟨?_, ?_, fun s' i v hr => ?_, fun s' path hr hc hp => ?_⟩
  · rw [List.foldl_cons, i1, h2']
  · rw [List.foldl_cons, i2, h1]
  · rw [(loadSinglePostPageData_ids s' i v).2]
    simp [hr]
  · obtain ⟨id, hid⟩ := Option.isSome_iff_exists.1 hp
    rw [(visit_ids s' path id hid).2]
    simp [hr, hc]

theorem root_pinning_witness :
    postIdOf (js "/imagine/post/aa") = some (js "aa") ∧
    ([PageOp.visit (js "/imagine/post/aa"), PageOp.load [(js "i1", js "u1")] [],
      PageOp.visit (js "/imagine/post/bb"), PageOp.load [(js "i2", js "u2")] [],
      PageOp.visit (js "/imagine/post/cc")].foldl applyPageOp {}).rootPostPageId =
      .string (js "aa") ∧
    ([PageOp.visit (js "/imagine/post/aa"), PageOp.load [(js "i1", js "u1")] [],
      PageOp.visit (js "/imagine/post/bb"), PageOp.load [(js "i2", js "u2")] [],
      PageOp.visit (js "/imagine/post/cc")].foldl applyPageOp {}).currentPostPageId =
      .string (js "cc") :=
  ⟨by decide,
   (root_pinning {} (js "/imagine/post/aa") (js "aa")
      [PageOp.load [(js "i1", js "u1")] [], PageOp.visit (js "/imagine/post/bb"),
       PageOp.load [(js "i2", js "u2")] [], PageOp.visit (js "/imagine/post/cc")]
      (Or.inl rfl) (by decide) (by intro path hp; simp at hp; rcases hp with h | h <;>
        (subst h; decide))).1,
   ((root_pinning {} (js "/imagine/post/aa") (js "aa")
      [PageOp.load [(js "i1", js "u1")] [], PageOp.visit (js "/imagine/post/bb"),
       PageOp.load [(js "i2", js "u2")] [], PageOp.visit (js "/imagine/post/cc")]
      (Or.inl rfl) (by decide) (by intro path hp; simp at hp; rcases hp with h | h <;>
        (subst h; decide))).2.1).trans (by decide)⟩

/-- C27 (root reset on navigation, amended to the guard of the code): when
`detectCurrentPostPage` runs on a single-post path, the current post id becomes the post id
of the path; the pinned root is set to that id when no root is pinned or no post is current,
and is kept when a root is pinned and a post is current, also when the post id of the path
differs from the current one. -/
theorem root_reset_on_navigation (s : State) (path id : JsString)
    (h : postIdOf path = some id) :
    (applyPageOp s (PageOp.visit path)).currentPostPageId = .string id ∧
    (truthy s.rootPostPageId = false ∨ truthy s.currentPostPageId = false →
      (applyPageOp s (PageOp.visit path)).rootPostPageId = .string id) ∧
    (truthy s.rootPostPageId = true → truthy s.currentPostPageId = true →
      (applyPageOp s (PageOp.visit path)).rootPostPageId = s.rootPostPageId) := by
  obtain ⟨h1, h2⟩ := visit_ids s path id h
  refine ⟨h1, fun hf => ?_, fun hr hc => ?_⟩
  · rw [h2]
    rcases hf with h | h <;> simp [h]
  · rw [h2]
    simp [hr, hc]

theorem root_reset_on_navigation_witness :
    (applyPageOp { pinnedPostState with currentPostPageId := .null }
      (PageOp.visit (js "/imagine/post/bb"))).rootPostPageId = .string (js "bb") ∧
    (applyPageOp pinnedPostState (PageOp.visit (js "/imagine/post/bb"))).currentPostPageId =
      .string (js "bb") :=
  ⟨(root_reset_on_navigation { pinnedPostState with currentPostPageId := .null }
      (js "/imagine/post/bb") (js "bb") (by decide)).2.1 (Or.inr rfl),
   (root_reset_on_navigation pinnedPostState (js "/imagine/post/bb") (js "bb") (by decide)).1⟩

/-- C27 as stated fails: with root `aa` pinned and post `aa` current, `detectCurrentPostPage`
on the path of the different post `bb` makes `bb` current and leaves the root `aa`. -/
theorem root_reset_on_navigation_counterexample :
    pinnedPostState.currentPostPageId = .string (js "aa") ∧
    postIdOf (js "/imagine/post/bb") = some (js "bb") ∧
    (applyPageOp pinnedPostState (PageOp.visit (js "/imagine/post/bb"))).currentPostPageId =
      .string (js "bb") ∧
    (applyPageOp pinnedPostState (PageOp.visit (js "/imagine/post/bb"))).rootPostPageId =
      .string (js "aa") ∧
    (applyPageOp pinnedPostState (PageOp.visit (js "/imagine/post/bb"))).rootPostPageId ≠
      .string (js "bb") := by
  decide

/-! ## Properties of the cancellation flag and of the session counts -/

/-- C29: in every state reached from a state with the cancellation flag clear (the idle
initial state is one) through clicks of the button, outcomes of requests and timers of the
run, `cancelDownload` implies `isDownloadingAll`; so an idle orchestrator has the flag clear.
A direct call of `startDownloadAll` is the click on the idle button, or nothing while a run
is going, so sequences with such calls are covered. A run that starts from a reached idle state
has the flag clear and its first request pending: no earlier cancel request aborts it. -/
theorem cancel_implies_running (s0 : State) (events : List Event)
    (hclear : s0.cancelDownload = false) :
    ((runEvents s0 events).cancelDownload = true →
      (runEvents s0 events).isDownloadingAll = true) ∧
    ((runEvents s0 events).isDownloadingAll = false →
      (runEvents s0 events).cancelDownload = false) ∧
    (∀ s : State, startDownloadAll s = if s.isDownloadingAll then s else step s Event.click) ∧
    ((runEvents s0 events).isDownloadingAll = false →
      getUndownloadedItems (runEvents s0 events) ≠ [] →
      (runEvents s0 (events ++ [Event.click])).isDownloadingAll = true ∧
      (runEvents s0 (events ++ [Event.click])).cancelDownload = false ∧
      (runEvents s0 (events ++ [Event.click])).downloads =
        (runEvents s0 events).downloads ++ [((runEvents s0 events).runs.length, 0)]) := by
  have hinv := runEvents_flags events s0 (fun h => by rw [hclear] at h; cases h)
  refine ⟨hinv, fun hidle => ?_, startDownloadAll_eq_click, fun hidle hitems => ?_⟩
  · cases hc : (runEvents s0 events).cancelDownload with
    | false => rfl
    | true => rw [hinv hc] at hidle; cases hidle
  · have e : runEvents s0 (events ++ [Event.click]) = startDownloadAll (runEvents s0 events) := by
      rw [runEvents_append, startDownloadAll_eq_click, hidle]
      rfl
    rw [e]
    exact startDownloadAll_started _ hidle hitems

theorem cancel_implies_running_witness :
    (runEvents sampleStandardRun [Event.click, Event.click]).cancelDownload = true ∧
    (runEvents sampleStandardRun [Event.click, Event.click]).isDownloadingAll = true ∧
    (runEvents sampleStandardRun
      [Event.click, Event.click, Event.deliver 0 Outcome.success (js "t1"),
       Event.fire 0]).isDownloadingAll = false ∧
    (runEvents sampleStandardRun
      [Event.click, Event.click, Event.deliver 0 Outcome.success (js "t1"),
       Event.fire 0]).cancelDownload = false :=
  ⟨by decide,
   (cancel_implies_running sampleStandardRun [Event.click, Event.click] rfl).1 (by decide),
   by decide,
   (cancel_implies_running sampleStandardRun
      [Event.click, Event.click, Event.deliver 0 Outcome.success (js "t1"), Event.fire 0]
      rfl).2.1 (by decide)⟩

/-- C30 (session counts, amended to marks of tracked ids): in every session state reached
from the empty session through `addToPromptSession`, `clearPromptSession` and
`markPromptSessionDownloaded`, in any order, where each `markPromptSessionDownloaded` names an
id that is tracked when it runs, every id of the completed-in-session set is a tracked id,
the `remaining` of `getPromptSessionStats` is not negative, and it is the number of items
that `getPromptSessionUndownloaded` returns. -/
theorem session_counts (s0 : State) (ops : List SessionOp)
    (himg : s0.promptSessionData.images = [])
    (hdis : s0.promptSessionData.downloadedInSession = [])
    (hops : marksTracked s0 ops = true) :
    CompletedTracked (ops.foldl applySessionOp s0).promptSessionData ∧
    0 ≤ (getPromptSessionStats (ops.foldl applySessionOp s0)).remaining ∧
    (getPromptSessionStats (ops.foldl applySessionOp s0)).remaining =
      ((getPromptSessionUndownloaded (ops.foldl applySessionOp s0)).length : Int) := by
  obtain ⟨hk, hd, hsub⟩ := foldl_applySessionOp_inv ops s0 (by rw [himg]; exact List.nodup_nil)
    (by rw [hdis]; exact List.nodup_nil)
    (by rw [hdis]; exact fun _ h => absurd h (List.not_mem_nil _)) hops
  have hcount := count_not_completed _ _ hk hd hsub
  have hlen : (getPromptSessionUndownloaded (ops.foldl applySessionOp s0)).length =
      ((ops.foldl applySessionOp s0).promptSessionData.images.filter fun kv =>
        !setHas (ops.foldl applySessionOp s0).promptSessionData.downloadedInSession kv.1).length := by
    rw [getPromptSessionUndownloaded_eq, List.length_map]
  refine ⟨fun id hid => ?_, ?_, ?_⟩
  · have hmem := hsub id hid
    unfold mapHas
    cases hg : mapGet (ops.foldl applySessionOp s0).promptSessionData.images id with
    | none => exact absurd hmem ((mapGet_eq_none_iff _ _).1 hg)
    | some _ => rfl
  · simp only [getPromptSessionStats]
    omega
  · simp only [getPromptSessionStats]
    rw [hlen]
    omega

theorem session_counts_witness :
    marksTracked {} sampleSessionOps = true ∧
    (getPromptSessionStats (sampleSessionOps.foldl applySessionOp {})).remaining = 1 ∧
    (getPromptSessionUndownloaded (sampleSessionOps.foldl applySessionOp {})).map (·.id) =
      [.string (js "B")] :=
  ⟨by decide,
   ((session_counts {} sampleSessionOps rfl rfl (by decide)).2.2).trans (by decide),
   by decide⟩

/-- C30 as stated fails: `markPromptSessionDownloaded` with an id that is not tracked still
records the id. From the empty session it leaves a completed id that is no tracked id; then
`remaining` is -1, and `getPromptSessionUndownloaded` returns no item. -/
theorem session_counts_counterexample :
    mapHas (markPromptSessionDownloaded {} (.string (js "X")) (js "t")).promptSessionData.images
      (.string (js "X")) = false ∧
    (markPromptSessionDownloaded {} (.string (js "X")) (js "t")).promptSessionData.downloadedInSession
      = [.string (js "X")] ∧
    (getPromptSessionStats ([SessionOp.mark (.string (js "X")) (js "t")].foldl applySessionOp
      {})).remaining = -1 ∧
    (getPromptSessionUndownloaded ([SessionOp.mark (.string (js "X")) (js "t")].foldl applySessionOp
      {})).length = 0 := by
  decide

/-! ## Properties of ingestion: merging, self-derivatives, append-only -/

/-- C21: for every subject record with an id, ingested alone into a store with an empty
Group table, the member list of the root Group (the Group of the pinned root, else of the
subject) is the first occurrence of each id among: the primary asset when the subject has
one, then the `childPosts` derivatives in list order, then the `videos` derivatives in list
order. No id is repeated in it, and the id of every derivative of either list is in it: a
derivative listed in both lists appears once, one listed in one list only is included. Ids
are compared with `===`: a derivative without an `id` property and one whose `id` is `null`
are two members. -/
theorem derivative_lists_merge (s : State) (post : Post) (hdb : s.mediaDatabase = [])
    (hid : truthy post.id = true) :
    ((mapGet (processApiData s (some ⟨some [post]⟩)).mediaDatabase
        (jsOr s.rootPostPageId post.id)).map (·.object)).getD [] =
      firstById [] (subjectItems post) ∧
    (subjectItems post ≠ [] →
      mapGet (processApiData s (some ⟨some [post]⟩)).mediaDatabase
          (jsOr s.rootPostPageId post.id) =
        some ⟨jsOr s.rootPostPageId post.id, firstById [] (subjectItems post)⟩) ∧
    subjectItems post =
      (if truthy post.mediaUrl then [createMediaObject post.toSource none] else []) ++
        (post.childPosts.map fun c => createMediaObject c (some post.toSource)) ++
        (post.videos.map fun c => createMediaObject c (some post.toSource)) ∧
    (idsOf (firstById [] (subjectItems post))).Nodup ∧
    (∀ c ∈ post.childPosts ++ post.videos, c.id ∈ idsOf (firstById [] (subjectItems post))) ∧
    (∀ c ∈ post.childPosts ++ post.videos,
      ((firstById [] (subjectItems post)).filter fun x => decide (x.id = c.id)).length = 1) := by
  have hsub : subjectItems post =
      (if truthy post.mediaUrl then [createMediaObject post.toSource none] else []) ++
        (post.childPosts.map fun c => createMediaObject c (some post.toSource)) ++
        (post.videos.map fun c => createMediaObject c (some post.toSource)) := by
    simp [subjectItems, derivatives, List.map_append]
  have hmem : ∀ c ∈ post.childPosts ++ post.videos,
      c.id ∈ idsOf (firstById [] (subjectItems post)) := by
    intro c hc
    apply firstById_mem_ids _ _ _ _ (List.not_mem_nil _)
    unfold subjectItems idsOf derivatives
    rw [List.map_append]
    exact List.mem_append_right _ (by
      rw [List.map_map]
      exact List.mem_map.2 ⟨c, hc, rfl⟩)
  have hnd := firstById_nodup [] (subjectItems post)
  have hget : mapGet (processApiData s (some ⟨some [post]⟩)).mediaDatabase
      (jsOr s.rootPostPageId post.id) =
      if (firstById [] (subjectItems post)).length > 0 then
        some ⟨jsOr s.rootPostPageId post.id, firstById [] (subjectItems post)⟩
      else none := by
    have habs : mapGet ([] : JsMap Media) (jsOr s.rootPostPageId post.id) = none := rfl
    have htm := targetMedia_of_absent s.rootPostPageId [] post habs
    simp only [processApiData, Option.bind, saveMediaDatabase, ingest, List.foldl_cons,
      List.foldl_nil, hdb, mapGet_dedupTable, processPost_eq, hid, if_true, htm]
    split
    · rw [mapGet_mapSet_self]
      simp only [Option.map_some']
      congr 1
      exact dedupMedia_eq_self _ hnd
    · rw [afterSecondary_get_target]
      rfl
  refine ⟨?_, fun hne => ?_, hsub, hnd, hmem, fun c hc => ?_⟩
  · rw [hget]
    split
    · rfl
    · rename_i hlen
      simp only [Option.map_none', Option.getD_none]
      cases hf : firstById [] (subjectItems post) with
      | nil => rfl
      | cons x rest => rw [hf] at hlen; simp at hlen
  · rw [hget]
    have hpos : (firstById [] (subjectItems post)).length > 0 := by
      cases hs : subjectItems post with
      | nil => exact absurd hs hne
      | cons x rest => simp [firstById]
    simp [hpos]
  · exact filter_id_length_one _ hnd c.id (hmem c hc)

theorem derivative_lists_merge_witness :
    idsOf (firstById [] (subjectItems overlappingPost)) =
      [.string (js "A"), .string (js "B"), .string (js "C"), .string (js "D")] ∧
    ((mapGet (processApiData {} (some ⟨some [overlappingPost]⟩)).mediaDatabase
        (.string (js "A"))).map (·.object)).getD [] =
      firstById [] (subjectItems overlappingPost) ∧
    ((firstById [] (subjectItems overlappingPost)).map (·.url))[1]? = some (.string (js "u2")) ∧
    idsOf nullIdMembers = [.undefined, .null] ∧
    ((mapGet (processApiData {} (some ⟨some [nullIdPost]⟩)).mediaDatabase
        (.string (js "P"))).map (·.object)).getD [] = nullIdMembers :=
  ⟨by decide, (derivative_lists_merge {} overlappingPost rfl (by decide)).1, by decide,
   by decide, ((derivative_lists_merge {} nullIdPost rfl (by decide)).1).trans (by decide)⟩

/-- C22: a derivative record whose id is the id of its own parent subject is never treated
as a secondary Group: the secondary-Group step of `processApiData` does nothing for it (no
derivation edge from the id to itself, no parent-seeded insertion). For every batch and every
store state, in a collection context as on a page with a pinned root, the Group table and the
derivation-edge table (and the stored payloads) after ingesting a subject that has a primary
asset are those of ingesting the same subject without that derivative, whether the
derivative stands in `childPosts` or in `videos`. -/
theorem derivative_with_parent_id (s : State) (pre suf : List Post) (src : Source)
    (l1 l2 other : List Source) (d : Source) (hd : d.id = src.id)
    (hu : truthy src.mediaUrl = true) :
    (∀ (root : JsVal) (pi : Option MediaItem) (t : Tables) (post : Post), post.toSource = src →
      secondaryStep root post pi t d = t) ∧
    processApiData s (some ⟨some (pre ++ ⟨src, l1 ++ d :: l2, other⟩ :: suf)⟩) =
      { processApiData s (some ⟨some (pre ++ ⟨src, l1 ++ l2, other⟩ :: suf)⟩) with
        lastApiData := some ⟨some (pre ++ ⟨src, l1 ++ d :: l2, other⟩ :: suf)⟩ } ∧
    processApiData s (some ⟨some (pre ++ ⟨src, other, l1 ++ d :: l2⟩ :: suf)⟩) =
      { processApiData s (some ⟨some (pre ++ ⟨src, other, l1 ++ l2⟩ :: suf)⟩) with
        lastApiData := some ⟨some (pre ++ ⟨src, other, l1 ++ d :: l2⟩ :: suf)⟩ } := by
  have hing : ∀ (root : JsVal) (t : Tables),
      ingest root t (pre ++ ⟨src, l1 ++ d :: l2, other⟩ :: suf) =
        ingest root t (pre ++ ⟨src, l1 ++ l2, other⟩ :: suf) ∧
      ingest root t (pre ++ ⟨src, other, l1 ++ d :: l2⟩ :: suf) =
        ingest root t (pre ++ ⟨src, other, l1 ++ l2⟩ :: suf) := by
    intro root t
    unfold ingest
    simp only [List.foldl_append, List.foldl_cons]
    rw [(processPost_skip_self root _ src l1 l2 other d hd hu).1,
      (processPost_skip_self root _ src l1 l2 other d hd hu).2]
    exact ⟨rfl, rfl⟩
  refine ⟨fun root pi t post hp => ?_, ?_, ?_⟩
  · exact secondaryStep_of_guard_false root post pi t d
      (secondaryGuard_of_same_id root post d (by rw [hd, ← hp]))
  · simp only [processApiData, Option.bind, saveMediaDatabase, (hing _ _).1]
  · simp only [processApiData, Option.bind, saveMediaDatabase, (hing _ _).2]

theorem derivative_with_parent_id_witness :
    selfDerivative.id = scenarioSubject.id ∧
    (processApiData {} (some ⟨some [⟨scenarioSubject, [selfDerivative, scenarioDerivative],
        []⟩]⟩)).mediaDatabase =
      (processApiData {} (some ⟨some [scenarioPost]⟩)).mediaDatabase ∧
    (processApiData {} (some ⟨some [⟨scenarioSubject, [selfDerivative, scenarioDerivative],
        []⟩]⟩)).childToParentMap = [(.string (js "B"), .string (js "A"))] :=
  ⟨rfl,
   by
     have h := congrArg State.mediaDatabase
       (derivative_with_parent_id {} [] [] scenarioSubject [] [scenarioDerivative] []
         selfDerivative rfl (by decide)).2.1
     exact h,
   by decide⟩

/-- C28: for every store state whose Groups have no repeated id and every batch, after
`processApiData` every Group that existed is still there and its member list of before is
the first part of its member list of after, so every member of before keeps its place and
all its fields (url, filename, createTime, modelName, prompt), also when the batch carries
another observation of the same id; and no key of the derivation-edge table is removed. -/
theorem ingestion_append_only (s : State) (apiData : Option ApiData)
    (hd : GroupsDedup s.mediaDatabase) :
    (∀ k m, mapGet s.mediaDatabase k = some m →
      ∃ m', mapGet (processApiData s apiData).mediaDatabase k = some m' ∧
        m.object <+: m'.object ∧ m'.object.take m.object.length = m.object ∧
        ∀ x ∈ m.object, x ∈ m'.object) ∧
    (∀ k, mapGet s.mediaDatabase k ≠ none →
      mapGet (processApiData s apiData).mediaDatabase k ≠ none) ∧
    (∀ k, mapGet s.childToParentMap k ≠ none →
      mapGet (processApiData s apiData).childToParentMap k ≠ none) := by
  have hext : GroupsExtend s.mediaDatabase (processApiData s apiData).mediaDatabase ∧
      ∀ k, mapGet s.childToParentMap k ≠ none →
        mapGet (processApiData s apiData).childToParentMap k ≠ none := by
    unfold processApiData
    cases hposts : apiData.bind (·.posts) with
    | none => exact ⟨GroupsExtend_refl _, fun _ h => h⟩
    | some posts =>
      exact ingest_extend s.rootPostPageId ⟨s.mediaDatabase, s.childToParentMap⟩ posts hd
  refine ⟨fun k m hm => ?_, fun k hk => ?_, hext.2⟩
  · obtain ⟨m', hm', hp⟩ := hext.1 k m hm
    refine ⟨m', hm', hp, ?_, fun x hx => hp.subset hx⟩
    obtain ⟨ext, hext'⟩ := hp
    rw [← hext', List.take_left']
    rfl
  · cases hm : mapGet s.mediaDatabase k with
    | none => exact absurd hm hk
    | some m =>
      obtain ⟨m', hm', _⟩ := hext.1 k m hm
      rw [hm']
      exact Option.some_ne_none _

theorem ingestion_append_only_witness :
    GroupsDedup (processApiData {} (some scenarioBatch)).mediaDatabase ∧
    mapGet (processApiData {} (some scenarioBatch)).mediaDatabase (.string (js "A")) =
      some ⟨.string (js "A"), scenarioMembers⟩ ∧
    ((mapGet (processApiData (processApiData {} (some scenarioBatch))
        (some ⟨some [reobservedPost]⟩)).mediaDatabase (.string (js "A"))).map
          fun m => m.object.map (·.url)) =
      some [.string (js "u1"), .string (js "u2"), .string (js "u3")] ∧
    ∃ m', mapGet (processApiData (processApiData {} (some scenarioBatch))
        (some ⟨some [reobservedPost]⟩)).mediaDatabase (.string (js "A")) = some m' ∧
      scenarioMembers <+: m'.object :=
  ⟨by unfold GroupsDedup; decide, by decide, by decide,
   ((ingestion_append_only (processApiData {} (some scenarioBatch))
      (some ⟨some [reobservedPost]⟩) (by unfold GroupsDedup; decide)).1 (.string (js "A"))
      ⟨.string (js "A"), scenarioMembers⟩ (by decide)).imp fun _ h => ⟨h.1, h.2.1⟩⟩
end GrokDownloader
